import Mathlib

/-!
mcxcl: volume ingestion, layout conversion, detector masking, record output.

A shallow embedding of `src/mcx_utils.c` / `src/mcx_utils.h`.

Conventions of the embedding

* A byte (`unsigned char`) is a natural number; buffers are lists of bytes.
* `unsigned int` arithmetic is written with an explicit `u32` (reduction
  modulo `2^32`) in the integer-only routines.
* A C behaviour that is undefined (a read or write outside an object) is the
  value `none` of an `Option`; a call of `mcx_error` (which leaves the
  process with the given code) is the `Except.error` of that code.
* A call of `mcx_maskdet` in which a loop over a `float` variable never ends
  has no result either (`none`): these loops perform no input or output, so
  that an implementation may assume that they end (C11 6.8.5).
* `float` values that are only stored and written back (the records of
  `mcx_savedata` / `mcx_savedetphoton`) are their 32-bit patterns.
* `float` values that are computed with (`mcx_maskdet`, `mcx_loadconfig`)
  are rationals; every `float` operation is the exact operation followed by
  the rounding `f32` to binary32 (round to nearest, ties to even), every
  `double` operation is followed by `f64`. A value read by `fscanf` is the
  `float` that is stored. Infinities and NaN are not modelled.
* The indices that `mcx_maskdet` computes in `unsigned int` are not reduced
  modulo `2^32`.
-/

namespace Mcxcl

/-! ## Machine integers -/

/-- Reduction of a natural number to an `unsigned int`. -/
def u32 (n : Nat) : Nat := n % 4294967296

/-- The `int` with the given 32-bit pattern (two's complement). -/
def toInt32 (n : Nat) : Int :=
  if n % 4294967296 < 2147483648 then (n % 4294967296 : Nat) else (n % 4294967296 : Nat) - 4294967296

/-- Conversion of an `int` to `size_t` (64-bit). -/
def toSizeT (i : Int) : Nat := (i % 18446744073709551616).toNat

/-- The struct `uint4` of `mcx_utils.h`. -/
structure uint4 where
  x : Nat
  y : Nat
  z : Nat
  w : Nat
deriving DecidableEq, Repr

/-! ## Binary floating point -/

/-- The power `2^k` of an integer exponent. -/
def pow2 (k : Int) : ℚ :=
  if 0 ≤ k then ((2 ^ k.toNat : Nat) : ℚ) else 1 / ((2 ^ (-k).toNat : Nat) : ℚ)

/-- Rounding of a rational to the nearest integer, a tie going to the even
one. -/
def rne (q : ℚ) : Int :=
  if q - ⌊q⌋ < 1 / 2 then ⌊q⌋
  else if 1 / 2 < q - ⌊q⌋ then ⌊q⌋ + 1
  else if ⌊q⌋ % 2 = 0 then ⌊q⌋ else ⌊q⌋ + 1

/-- The number of binary digits of `n`, counted with a step budget. -/
def bitLen : Nat → Nat → Nat
  | 0, _ => 0
  | fuel + 1, n => if n = 0 then 0 else bitLen fuel (n / 2) + 1

/-- The position of the leading binary digit of `n`. -/
def ilog2 (n : Nat) : Nat := bitLen n n - 1

/-- The binary exponent of a non-zero rational: the `e` with
`2^e ≤ |q| < 2^(e+1)`. The difference of the digit counts of numerator and
denominator is `e` or `e + 1`. -/
def expo (q : ℚ) : Int :=
  if pow2 ((ilog2 q.num.natAbs : Int) - (ilog2 q.den : Int)) ≤ |q|
  then (ilog2 q.num.natAbs : Int) - (ilog2 q.den : Int)
  else (ilog2 q.num.natAbs : Int) - (ilog2 q.den : Int) - 1

/-- Rounding to the binary floating-point format with `prec` significant
digits whose least positive value is `2^emin`: the nearest multiple of the
quantum `2^(e - prec + 1)` (not below `2^emin`), a tie going to the even
multiple. The exponent range is not bounded above: a value too large for
the format is not turned into an infinity. -/
def roundBin (prec : Nat) (emin : Int) (q : ℚ) : ℚ :=
  if q = 0 then 0
  else (rne (q / pow2 (max (expo q - ((prec : Int) - 1)) emin)) : ℚ)
    * pow2 (max (expo q - ((prec : Int) - 1)) emin)

/-- The value of a `float` operation (IEEE 754 binary32, round to nearest
even) whose exact result is `q`. -/
def f32 (q : ℚ) : ℚ := roundBin 24 (-149) q

/-- The value of a `double` operation (IEEE 754 binary64, round to nearest
even) whose exact result is `q`. -/
def f64 (q : ℚ) : ℚ := roundBin 53 (-1074) q

/-! ## mcx_convertrow2col -/

/-- The memory that `mcx_convertrow2col` reaches through its argument
`unsigned char **vol`. Word 0 at that address is the pointer object `*vol`:
`buf` is `none` for `NULL` and otherwise the buffer it points to. `beyond k`
is the word `k+1` places after the pointer object, read as a pointer: the
bytes it points to, or `none` when it is not a readable address. -/
structure VolRef where
  buf : Option (List Nat)
  beyond : Nat → Option (List Nat)

/-- The pointer `vol[i]`. -/
def VolRef.word (v : VolRef) : Nat → Option (List Nat)
  | 0 => v.buf
  | k + 1 => v.beyond k

/-- The expression `*vol[i]` of line 437. Indexing binds tighter than the
dereference, so this is the first byte behind the pointer `vol[i]`. -/
def derefWord (v : VolRef) (i : Nat) : Option Nat :=
  (v.word i).bind List.head?

/-- The iteration space of the three nested loops (lines 434 to 436), in
execution order. -/
def row2colIters (dim : uint4) : List (Nat × Nat × Nat) :=
  (List.range dim.x).flatMap fun x =>
    (List.range dim.y).flatMap fun y =>
      (List.range dim.z).map fun z => (x, y, z)

/-- One execution of the loop body, line 437:
`newvol[z*dimxy+y*dim->x+x]=*vol[x*dimyz+y*dim->z+z];`. -/
def row2colBody (v : VolRef) (dim : uint4) (newvol : List Nat)
    (it : Nat × Nat × Nat) : Option (List Nat) :=
  let x := it.1
  let y := it.2.1
  let z := it.2.2
  let dimxy := u32 (dim.x * dim.y)
  let dimyz := u32 (dim.y * dim.z)
  match derefWord v (u32 (x * dimyz + y * dim.z + z)) with
  | none => none
  | some b =>
    let dst := u32 (z * dimxy + y * dim.x + x)
    if dst < newvol.length then some (newvol.set dst b) else none

/-- The function `mcx_convertrow2col` (lines 423 to 441). The result is the
buffer that `*vol` points to when the call returns (`some none` is `NULL`);
`none` is an execution that leaves defined behaviour. The fresh buffer of
`malloc` is taken to be zero-filled. -/
def mcx_convertrow2col (v : VolRef) (dim : uint4) : Option (Option (List Nat)) :=
  if v.buf = none ∨ dim.x = 0 ∨ dim.y = 0 ∨ dim.z = 0 then some v.buf
  else
    ((row2colIters dim).foldlM (row2colBody v dim)
      (List.replicate ((dim.x * dim.y * dim.z) % 18446744073709551616) 0)).map some

/-- The conversion the loop body is written for, with the source cell read
as `(*vol)[i]`: the cell of the input buffer at the row-major index. -/
def row2colIntended (dim : uint4) (inp : List Nat) : List Nat :=
  (row2colIters dim).foldl
    (fun nv it => nv.set (it.2.2 * (dim.x * dim.y) + it.2.1 * dim.x + it.1)
      (inp.getD (it.1 * (dim.y * dim.z) + it.2.1 * dim.z + it.2.2) 0))
    (List.replicate (dim.x * dim.y * dim.z) 0)

/-- A caller whose pointer object is followed by nothing readable, as in
`mcx_loadconfig`, where the words after `cfg->vol` are the session name. -/
def loneRef (buf : List Nat) : VolRef := ⟨some buf, fun _ => none⟩

/-- A caller whose pointer object is followed by pointers to the one-byte
buffer `[9]`. -/
def crowdedRef (buf : List Nat) : VolRef := ⟨some buf, fun _ => some [9]⟩

/-! ## mcx_loadvolume -/

deriving instance DecidableEq for Except

/-- The function `mcx_loadvolume` (lines 404 to 421). `file` is the content
of the named file, `none` when `fopen` fails. The result is the buffer
installed in `cfg->vol`, or the code passed to `mcx_error`. A buffer held
before the call is released and plays no part in the result. `fread` stores
the first `datalen` bytes of the file, or all of them when there are fewer;
the allocation is taken to succeed. -/
def mcx_loadvolume (file : Option (List Nat)) (dim : uint4) : Except Int (List Nat) :=
  match file with
  | none => .error (-5)
  | some bytes =>
    let datalen : Int := toInt32 (u32 (u32 (dim.x * dim.y) * dim.z))
    let got := bytes.take (toSizeT datalen)
    let res : Int := toInt32 got.length
    if res ≠ datalen then .error (-6) else .ok got

/-! ## mcx_maskdet -/

/-- The struct `float4` of `mcx_utils.h`; for a detector, `w` is the value
that `mcx_loadconfig` stores (the square of the radius read). -/
structure float4 where
  x : ℚ
  y : ℚ
  z : ℚ
  w : ℚ
deriving DecidableEq

/-- A detector whose coordinates and `w` are integers. -/
structure GridDet where
  x : Int
  y : Int
  z : Int
  w : Int
deriving DecidableEq

/-- The `float4` holding a detector with integer coordinates. -/
def GridDet.toFloat4 (d : GridDet) : float4 := ⟨d.x, d.y, d.z, d.w⟩

/-- The conversion `(int)e` of a `float`: truncation toward zero. -/
def truncInt (q : ℚ) : Int := if 0 ≤ q then ⌊q⌋ else ⌈q⌉

/-- The loop `for(t=-w;t<=w;t++)` (lines 462, 464, 466) from the value `t`
of its `float` variable on: the values with which the body runs. The
increment is rounded to `float`; when it leaves `t` unchanged the loop never
ends and there is no list. The step budget is never used up: the values
increase strictly and a `float` has fewer than `2^32` values. -/
def sweepFrom (w : ℚ) : Nat → ℚ → Option (List ℚ)
  | 0, _ => none
  | fuel + 1, t =>
    if t ≤ w then
      if f32 (t + 1) = t then none
      else (sweepFrom w fuel (f32 (t + 1))).map fun l => t :: l
    else some []

/-- The values of the loop variable of `for(t=-w;t<=w;t++)`: `-w`, then
each value incremented in `float` arithmetic, as long as it does not exceed
`w`; `none` when the loop never ends. -/
def sweep (w : ℚ) : Option (List ℚ) := sweepFrom w 4294967296 (-w)

/-- The padded copy `padvol` (lines 448 to 459): its size in bytes and its
content by index. -/
structure PadVol where
  size : Nat
  cell : Nat → Nat

/-- A call `memcpy(padvol+doff, cfg->vol+soff, n)` of line 459. The volume
is taken to hold the bytes that are copied (it holds `dim.x*dim.y*dim.z`
bytes when it comes from `mcx_loadvolume`). -/
def memcpyRow (vol : List Nat) (cell : Nat → Nat) (doff soff n : Nat) : Nat → Nat :=
  fun i => if doff ≤ i ∧ i < doff + n then vol.getD (soff + (i - doff)) 0 else cell i

/-- Lines 448 to 459: `calloc` of `dx*dy*dz` zero bytes, then one `memcpy`
per row of the volume; loop variables `zi = z0+1`, `yi = y0+1`. -/
def buildPad (dim : uint4) (vol : List Nat) : PadVol :=
  let dx := dim.x + 2
  let dy := dim.y + 2
  let dz := dim.z + 2
  { size := dx * dy * dz
    cell := (List.range dim.z).foldl (fun cell z0 =>
      (List.range dim.y).foldl (fun cell y0 =>
        memcpyRow vol cell ((z0 + 1) * dy * dx + (y0 + 1) * dx + 1)
          (z0 * dim.y * dim.x + y0 * dim.x) dim.x) cell) (fun _ => 0) }

/-- A read `padvol[i]`; `none` outside the allocation. -/
def PadVol.read (p : PadVol) (i : Int) : Option Nat :=
  if 0 ≤ i ∧ i < p.size then some (p.cell i.toNat) else none

/-- The 26 index offsets of lines 476 to 481, in the order in which the
conjunction reads them. -/
def nbrOffsets (dx dy : Int) : List Int :=
  [1, -1, dx, -dx, dy * dx, -(dy * dx),
   dx + 1, dx - 1, -dx + 1, -dx - 1,
   dy * dx + 1, dy * dx - 1, -(dy * dx) + 1, -(dy * dx) - 1,
   dy * dx + dx, dy * dx - dx, -(dy * dx) + dx, -(dy * dx) - dx,
   dy * dx + dx + 1, dy * dx + dx - 1, dy * dx - dx + 1, dy * dx - dx - 1,
   -(dy * dx) + dx + 1, -(dy * dx) + dx - 1, -(dy * dx) - dx + 1, -(dy * dx) - dx - 1]

/-- The conjunction `padvol[i1]&&padvol[i2]&&...`, read left to right and
stopping at the first zero byte; `none` when a byte that is read lies
outside the allocation. -/
def allNonzero (p : PadVol) : List Int → Option Bool
  | [] => some true
  | i :: rest =>
    match p.read i with
    | none => none
    | some c => if c = 0 then some false else allNonzero p rest

/-- One iteration of the innermost loop: the detector and the loop
variables `x`, `y`, `z`. -/
structure MaskIter where
  det : float4
  x : ℚ
  y : ℚ
  z : ℚ

/-- The iterations of the three nested loops of one detector, whose loop
variables all run over the values `s`. -/
def detIters (d : float4) (s : List ℚ) : List MaskIter :=
  s.flatMap fun z => s.flatMap fun y => s.map fun x => ⟨d, x, y, z⟩

/-- The iterations of lines 461 to 466 in execution order; `none` when a
loop never ends. -/
def maskIters : List float4 → Option (List MaskIter)
  | [] => some []
  | d :: rest =>
    match sweep d.w, maskIters rest with
    | some s, some its => some (detIters d s ++ its)
    | _, _ => none

/-- The variable `ix` of line 467. -/
def MaskIter.ix (it : MaskIter) : ℚ := f32 (it.x + it.det.x)

/-- The variable `iy` of line 465. -/
def MaskIter.iy (it : MaskIter) : ℚ := f32 (it.y + it.det.y)

/-- The variable `iz` of line 463. -/
def MaskIter.iz (it : MaskIter) : ℚ := f32 (it.z + it.det.z)

/-- The test of lines 469 and 470 that skips an iteration; the dimensions
are converted to `float`. -/
def rejected (dim : uint4) (it : MaskIter) : Prop :=
  it.iz < 0 ∨ it.ix < 0 ∨ it.iy < 0 ∨
  it.ix ≥ f32 (dim.x : ℚ) ∨ it.iy ≥ f32 (dim.y : ℚ) ∨ it.iz ≥ f32 (dim.z : ℚ) ∨
  f32 (f32 (f32 (it.x * it.x) + f32 (it.y * it.y)) + f32 (it.z * it.z))
    > f32 (f32 (it.det.w + 1) * f32 (it.det.w + 1))

instance (dim : uint4) (it : MaskIter) : Decidable (rejected dim it) := by
  unfold rejected; infer_instance

/-- The index `idx1d` of line 473:
`(int)((iz+1.f)*dy*dx+(iy+1.f)*dx+(ix+1.f))`, every operation in `float`. -/
def padIndex (dim : uint4) (it : MaskIter) : Int :=
  truncInt (f32 (f32 (f32 (f32 (f32 (it.iz + 1) * f32 ((dim.y + 2 : Nat) : ℚ))
      * f32 ((dim.x + 2 : Nat) : ℚ))
    + f32 (f32 (it.iy + 1) * f32 ((dim.x + 2 : Nat) : ℚ))) + f32 (it.ix + 1)))

/-- The index of the volume byte written at line 482:
`(int)(iz*cfg->dim.y*cfg->dim.x+iy*cfg->dim.x+ix)`, every operation in
`float`. -/
def markIndex (dim : uint4) (it : MaskIter) : Int :=
  truncInt (f32 (f32 (f32 (f32 (it.iz * f32 (dim.y : ℚ)) * f32 (dim.x : ℚ))
    + f32 (it.iy * f32 (dim.x : ℚ))) + it.ix))

/-- What one iteration decides (lines 469 to 482): `some none` when nothing
is written, `some (some k)` when `cfg->vol[k]` gets its highest bit, `none`
when a read of `padvol` falls outside the allocation. -/
def maskTarget (dim : uint4) (p : PadVol) (it : MaskIter) : Option (Option Int) :=
  if rejected dim it then some none
  else
    let idx1d := padIndex dim it
    match p.read idx1d with
    | none => none
    | some c =>
      if c = 0 then some none
      else
        match allNonzero p ((nbrOffsets (dim.x + 2 : Nat) (dim.y + 2 : Nat)).map fun o => idx1d + o) with
        | none => none
        | some true => some none
        | some false => some (some (markIndex dim it))

/-- The statement `cfg->vol[k]|=(1<<7)`; `none` outside the buffer. -/
def setHighBit (vol : List Nat) (k : Int) : Option (List Nat) :=
  if 0 ≤ k ∧ k < vol.length then some (vol.set k.toNat (vol.getD k.toNat 0 ||| 128)) else none

/-- The body of the innermost loop acting on the volume. -/
def maskBody (dim : uint4) (p : PadVol) (vol : List Nat) (it : MaskIter) : Option (List Nat) :=
  match maskTarget dim p it with
  | none => none
  | some none => some vol
  | some (some k) => setHighBit vol k

/-- The function `mcx_maskdet` (lines 443 to 503) with `cfg->isdumpmask`
zero: the volume when the call returns, `none` when an access leaves its
buffer or a loop never ends. `detpos` holds the `cfg->detnum` detectors. -/
def mcx_maskdet (dim : uint4) (vol : List Nat) (detpos : List float4) : Option (List Nat) :=
  match maskIters detpos with
  | none => none
  | some its => its.foldlM (maskBody dim (buildPad dim vol)) vol

/-! ## Vocabulary of the masking claims -/

/-- The range of integer detectors in which every `float` operation of
`mcx_maskdet` is exact: `w ≤ 2364` (the sum of three squares of offsets stays
below `2^24`, as `3 * 2364^2 < 2^24`) and coordinates of magnitude at most
`2^24 - 1 - 2364`, so that a coordinate plus an offset stays below `2^24`. -/
def GridDet.inRange (d : GridDet) : Prop :=
  d.w ≤ 2364 ∧ (-16774851 ≤ d.x ∧ d.x ≤ 16774851) ∧ (-16774851 ≤ d.y ∧ d.y ≤ 16774851) ∧
  (-16774851 ≤ d.z ∧ d.z ≤ 16774851)

instance (d : GridDet) : Decidable d.inRange := by unfold GridDet.inRange; infer_instance

/-- The iteration of detector `d` at the integer offset (ox,oy,oz). -/
def gridIter (d : GridDet) (ox oy oz : Int) : MaskIter := ⟨d.toFloat4, ox, oy, oz⟩

/-- The canonical index of the cell (x,y,z): `z*(nx*ny) + y*nx + x`. -/
def cellIndex (dim : uint4) (x y z : Nat) : Nat := z * (dim.x * dim.y) + y * dim.x + x

/-- The input volume padded with zeros on every face: the byte at the
integer position (x,y,z), zero outside the grid. -/
def paddedCell (dim : uint4) (vol : List Nat) (x y z : Int) : Nat :=
  if 0 ≤ x ∧ x < dim.x ∧ 0 ≤ y ∧ y < dim.y ∧ 0 ≤ z ∧ z < dim.z
  then vol.getD (cellIndex dim x.toNat y.toNat z.toNat) 0 else 0

/-- Bit 7 of a byte is set. -/
def bit7 (v : Nat) : Prop := v.testBit 7 = true

instance (v : Nat) : Decidable (bit7 v) := by unfold bit7; infer_instance

/-- The offsets to the 26 neighbours of a voxel: the 3x3x3 cube minus its
centre. -/
def isNbrDelta (a b c : Int) : Prop :=
  (-1 ≤ a ∧ a ≤ 1) ∧ (-1 ≤ b ∧ b ≤ 1) ∧ (-1 ≤ c ∧ c ≤ 1) ∧ ¬(a = 0 ∧ b = 0 ∧ c = 0)

/-- The 26 neighbour offsets (a,b,c) in the order of `nbrOffsets`. -/
def nbrDeltas : List (Int × Int × Int) :=
  [(1, 0, 0), (-1, 0, 0), (0, 1, 0), (0, -1, 0), (0, 0, 1), (0, 0, -1),
   (1, 1, 0), (-1, 1, 0), (1, -1, 0), (-1, -1, 0),
   (1, 0, 1), (-1, 0, 1), (1, 0, -1), (-1, 0, -1),
   (0, 1, 1), (0, -1, 1), (0, 1, -1), (0, -1, -1),
   (1, 1, 1), (-1, 1, 1), (1, -1, 1), (-1, -1, 1),
   (1, 1, -1), (-1, 1, -1), (1, -1, -1), (-1, -1, -1)]

/-- The cell (x,y,z) is reached by a detector of the list: some detector
`d` and integer offset (ox,oy,oz) with components in `[-w, w]` give
(x,y,z) = position of `d` + offset with `ox^2+oy^2+oz^2 ≤ (w+1)^2`, the
cell's byte is non-zero and one of its 26 padded neighbours is zero. -/
def reachedBy (dim : uint4) (vol : List Nat) (dets : List GridDet) (x y z : Nat) : Prop :=
  ∃ d ∈ dets, ∃ ox oy oz : Int,
    (-d.w ≤ ox ∧ ox ≤ d.w) ∧ (-d.w ≤ oy ∧ oy ≤ d.w) ∧ (-d.w ≤ oz ∧ oz ≤ d.w) ∧
    (x : Int) = d.x + ox ∧ (y : Int) = d.y + oy ∧ (z : Int) = d.z + oz ∧
    ox ^ 2 + oy ^ 2 + oz ^ 2 ≤ (d.w + 1) ^ 2 ∧
    vol.getD (cellIndex dim x y z) 0 ≠ 0 ∧
    ∃ a b c : Int, isNbrDelta a b c ∧ paddedCell dim vol (x + a) (y + b) (z + c) = 0

/-- The 4x4x4 scenario volume in canonical layout: every voxel is 1 except
the eight voxels with x, y, z in {0,1}, which are 0. -/
def scenarioVol : List Nat :=
  (List.range 64).map fun i => if i % 4 < 2 ∧ i / 4 % 4 < 2 ∧ i / 16 < 2 then 0 else 1

/-- The scenario detector at (3,3,3) with `detpos.w = 1`. -/
def scenarioDet : GridDet := ⟨3, 3, 3, 1⟩

/-! ## Detectors as stored by mcx_loadconfig -/

/-- Lines 337 to 341 of `mcx_loadconfig`: a detector read as `x y z` is
stored with `w = detradius*detradius`, and moved by one voxel unless
`issrcfrom0` is set. -/
def loadDetector (issrcfrom0 : Nat) (detradius x y z : ℚ) : float4 :=
  if issrcfrom0 = 0 then ⟨f32 (x - 1), f32 (y - 1), f32 (z - 1), f32 (detradius * detradius)⟩
  else ⟨x, y, z, f32 (detradius * detradius)⟩

/-! ## History header and record files -/

/-- The struct `History` of `mcx_utils.h`. `magic` holds the four bytes of
`char magic[4]`, `reserved` the six words of `int reserved[6]`; every 4-byte
field (`unsigned int`, `float`, `int`) is its 32-bit pattern. -/
structure History where
  magic : List Nat
  version : Nat
  maxmedia : Nat
  detnum : Nat
  colcount : Nat
  totalphoton : Nat
  detected : Nat
  savedphoton : Nat
  unitinmm : Nat
  seedbyte : Nat
  reserved : List Nat
deriving DecidableEq, Repr

/-- The values a `History` object can hold: four bytes of magic, 32-bit
fields, six reserved words. -/
def History.wf (h : History) : Prop :=
  (h.magic.length = 4 ∧ ∀ b ∈ h.magic, b < 256) ∧
  h.version < 4294967296 ∧ h.maxmedia < 4294967296 ∧ h.detnum < 4294967296 ∧
  h.colcount < 4294967296 ∧ h.totalphoton < 4294967296 ∧ h.detected < 4294967296 ∧
  h.savedphoton < 4294967296 ∧ h.unitinmm < 4294967296 ∧ h.seedbyte < 4294967296 ∧
  (h.reserved.length = 6 ∧ ∀ r ∈ h.reserved, r < 4294967296)

instance (h : History) : Decidable h.wf := by unfold History.wf; infer_instance

/-- The four bytes of a 32-bit word in memory (little-endian host). -/
def le32 (n : Nat) : List Nat :=
  [n % 256, n / 256 % 256, n / 65536 % 256, n / 16777216 % 256]

/-- The 64 bytes of a `History` object, which `fwrite(&(cfg->his),
sizeof(History),1,fp)` writes: the fields in declaration order, every field
4 bytes wide and 4-byte aligned, hence no padding. -/
def History.bytes (h : History) : List Nat :=
  h.magic ++ le32 h.version ++ le32 h.maxmedia ++ le32 h.detnum ++ le32 h.colcount ++
  le32 h.totalphoton ++ le32 h.detected ++ le32 h.savedphoton ++ le32 h.unitinmm ++
  le32 h.seedbyte ++ h.reserved.flatMap le32

/-- The bytes of an array of 4-byte values. -/
def floatBytes (a : List Nat) : List Nat := a.flatMap le32

/-- The header as `mcx_initcfg` leaves it (lines 89 to 92): zeroed, magic
`MCXH`, version 1, `unitinmm` the pattern of `1.f`. -/
def initHis : History :=
  { magic := [77, 67, 88, 72], version := 1, maxmedia := 0, detnum := 0, colcount := 0,
    totalphoton := 0, detected := 0, savedphoton := 0, unitinmm := 1065353216,
    seedbyte := 0, reserved := [0, 0, 0, 0, 0, 0] }

/-- The header after `mcx_loadconfig` has read one medium and one detector
(lines 375 to 377): `maxmedia = 1`, `detnum = 1`, `colcount = 3`. -/
def exampleHis : History := { initHis with maxmedia := 1, detnum := 1, colcount := 3 }

/-- The header after `mcx_loadconfig` has read two media and one detector:
`maxmedia = 2`, `detnum = 1`, `colcount = 4`. -/
def fourColHis : History := { initHis with maxmedia := 2, detnum := 1, colcount := 4 }

/-- The file name of `mcx_savedata` (line 128). -/
def savedataName (session suffix : String) : String := session ++ "." ++ suffix

/-- The file name of `mcx_savedetphoton` (lines 147 to 150). -/
def savedetphotonName (rootpath session : String) (pathsep : Char) : String :=
  if rootpath.isEmpty then session ++ ".mch"
  else rootpath ++ pathsep.toString ++ session ++ ".mch"

/-- The content of a file opened with mode `ab` or `wb` after `written` has
been written and the file closed; `prev` is what the file held before (empty
for a file that did not exist). -/
def fileAfter (doappend : Int) (prev written : List Nat) : List Nat :=
  if doappend ≠ 0 then prev ++ written else written

/-- The function `mcx_savedata` (lines 125 to 142). `opened` tells whether
`fopen` succeeds; the result is the content of the file
`savedataName session suffix` after the call, or the code of `mcx_error`.
`dat` is taken to hold the `len` values that `fwrite` reads. -/
def mcx_savedata (dat : List Nat) (len : Int) (doappend : Int) (suffix : String)
    (his : History) (opened : Bool) (prev : List Nat) : Except Int (List Nat) :=
  if !opened then .error (-2)
  else
    let header := if suffix = "mch" then his.bytes else []
    .ok (fileAfter doappend prev (header ++ floatBytes (dat.take (toSizeT len))))

/-- The item count `count*cfg->his.colcount` of line 160: the `int` is
converted to `unsigned int` and the product is reduced modulo `2^32`. -/
def pathItems (count : Int) (colcount : Nat) : Nat :=
  u32 ((count % 4294967296).toNat * colcount)

/-- The function `mcx_savedetphoton` (lines 144 to 162). `opened` tells
whether `fopen` succeeds; the result is the content of the history file
after the call, or the code of `mcx_error`. `ppath` is taken to hold the
values that `fwrite` reads; `seeds` is not used by the function. -/
def mcx_savedetphoton (ppath : List Nat) (count : Int) (doappend : Int)
    (his : History) (opened : Bool) (prev : List Nat) : Except Int (List Nat) :=
  if !opened then .error (-2)
  else
    .ok (fileAfter doappend prev
      (his.bytes ++ floatBytes (ppath.take (pathItems count his.colcount))))

/-- The 32-bit word stored in four bytes (little-endian host). -/
def unle32 (bs : List Nat) : Nat :=
  bs.getD 0 0 + 256 * bs.getD 1 0 + 65536 * bs.getD 2 0 + 16777216 * bs.getD 3 0

/-- A reader of an array of 4-byte values: one word per four bytes. -/
def readWords : Nat → List Nat → List Nat
  | 0, _ => []
  | n + 1, bs => unle32 (bs.take 4) :: readWords n (bs.drop 4)

/-- A reader of the header layout given in the record format: magic[4],
version, maxmedia, detnum, colcount, totalphoton, detected, savedphoton,
unitinmm, seedbyte, reserved[6], each 4 bytes. -/
def readHistory (bs : List Nat) : History :=
  { magic := bs.take 4
    version := unle32 ((bs.drop 4).take 4)
    maxmedia := unle32 ((bs.drop 8).take 4)
    detnum := unle32 ((bs.drop 12).take 4)
    colcount := unle32 ((bs.drop 16).take 4)
    totalphoton := unle32 ((bs.drop 20).take 4)
    detected := unle32 ((bs.drop 24).take 4)
    savedphoton := unle32 ((bs.drop 28).take 4)
    unitinmm := unle32 ((bs.drop 32).take 4)
    seedbyte := unle32 ((bs.drop 36).take 4)
    reserved := readWords 6 ((bs.drop 40).take 24) }

/-! ## Outcomes of the configuration routines -/

/-- How a call ends: it returns a value, it leaves the process through
`mcx_error` or `exit` with a code, it leaves defined behaviour, or it is
still executing when the step budget of the model is used up. -/
inductive Outcome (α : Type) where
  | returned (a : α)
  | exited (code : Int)
  | undefined
  | running
deriving DecidableEq

/-- Sequencing of two steps: the second runs on what the first returns. -/
def Outcome.bind {α β : Type} (o : Outcome α) (f : α → Outcome β) : Outcome β :=
  match o with
  | .returned a => f a
  | .exited c => .exited c
  | .undefined => .undefined
  | .running => .running

/-- The value a call returns, if it returns. -/
def Outcome.value? {α : Type} (o : Outcome α) : Option α :=
  match o with
  | .returned a => some a
  | _ => none

/-- Conversion of an integer to `char` (8 bits, two's complement). -/
def toInt8 (n : Int) : Int :=
  if n % 256 < 128 then n % 256 else n % 256 - 256

/-- Conversion of a `double` to `unsigned int`: the fractional part is
discarded; no result when the integral part is not representable. -/
def toUInt (q : ℚ) : Option Nat :=
  if 0 ≤ truncInt q ∧ truncInt q < 4294967296 then some (truncInt q).toNat else none

/-! ## Config and mcx_initcfg -/

/-- The struct `Medium` of `mcx_utils.h`. -/
structure Medium where
  mua : ℚ
  mus : ℚ
  g : ℚ
  n : ℚ
deriving DecidableEq

/-- The struct `Config` of `mcx_utils.h`. `char` and `int` fields are
integers, `unsigned int` fields natural numbers, `float` fields rationals,
character arrays the strings they hold, `prop`, `detpos` and `vol` are
`none` for `NULL`. The fields `flog`, `clsource`, `workload`,
`exportfield`, `exportdetected` and `seeddata`, which no routine modelled
here reads, are left out. -/
structure Config where
  nphoton : Int
  nblocksize : Nat
  nthread : Nat
  seed : Int
  srcpos : float4
  srcdir : float4
  tstart : ℚ
  tstep : ℚ
  tend : ℚ
  steps : float4
  dim : uint4
  crop0 : uint4
  crop1 : uint4
  medianum : Nat
  detnum : Nat
  maxdetphoton : Nat
  detradius : ℚ
  sradius : ℚ
  prop : Option (List Medium)
  detpos : Option (List float4)
  maxgate : Nat
  respin : Nat
  printnum : Int
  vol : Option (List Nat)
  session : String
  isrowmajor : Int
  isreflect : Int
  isref3 : Int
  isrefint : Int
  isnormalized : Int
  issavedet : Int
  issave2pt : Int
  isgpuinfo : Int
  iscpu : Int
  isverbose : Int
  issrcfrom0 : Int
  isdumpmask : Int
  outputtype : Int
  minenergy : ℚ
  unitinmm : ℚ
  his : History
  energytot : ℚ
  energyabs : ℚ
  energyesc : ℚ
  rootpath : String
  kernelfile : String
  compileropt : String
  deviceid : String
  detectedcount : Nat
  runtime : Nat
  parentid : Int
deriving DecidableEq

/-- A `Config` object before `mcx_initcfg`: zero-filled. -/
def blankConfig : Config :=
  { nphoton := 0, nblocksize := 0, nthread := 0, seed := 0, srcpos := ⟨0, 0, 0, 0⟩,
    srcdir := ⟨0, 0, 0, 0⟩, tstart := 0, tstep := 0, tend := 0, steps := ⟨0, 0, 0, 0⟩,
    dim := ⟨0, 0, 0, 0⟩, crop0 := ⟨0, 0, 0, 0⟩, crop1 := ⟨0, 0, 0, 0⟩, medianum := 0,
    detnum := 0, maxdetphoton := 0, detradius := 0, sradius := 0, prop := none,
    detpos := none, maxgate := 0, respin := 0, printnum := 0, vol := none, session := "",
    isrowmajor := 0, isreflect := 0, isref3 := 0, isrefint := 0, isnormalized := 0,
    issavedet := 0, issave2pt := 0, isgpuinfo := 0, iscpu := 0, isverbose := 0,
    issrcfrom0 := 0, isdumpmask := 0, outputtype := 0, minenergy := 0, unitinmm := 0,
    his := { magic := [0, 0, 0, 0], version := 0, maxmedia := 0, detnum := 0, colcount := 0,
             totalphoton := 0, detected := 0, savedphoton := 0, unitinmm := 0, seedbyte := 0,
             reserved := [0, 0, 0, 0, 0, 0] },
    energytot := 0, energyabs := 0, energyesc := 0, rootpath := "", kernelfile := "",
    compileropt := "", deviceid := "", detectedcount := 0, runtime := 0, parentid := 0 }

/-- The function `mcx_initcfg` (lines 39 to 104), built as standalone
program (`parentid = mpStandalone = 0`, `outputtype = otFlux = 0`). Fields
the function does not assign keep their value. -/
def mcx_initcfg (cfg : Config) : Config :=
  { cfg with
    medianum := 0
    detnum := 0
    dim := ⟨0, 0, 0, cfg.dim.w⟩
    nblocksize := 64
    nphoton := 0
    nthread := 0
    seed := 0
    isrowmajor := 0
    maxgate := 1
    isreflect := 1
    isref3 := 0
    isnormalized := 1
    issavedet := 0
    respin := 1
    issave2pt := 1
    isgpuinfo := 0
    unitinmm := 1
    isrefint := 0
    prop := none
    detpos := none
    vol := none
    session := ""
    printnum := 0
    minenergy := 0
    sradius := 0
    rootpath := ""
    iscpu := 0
    isverbose := 0
    maxdetphoton := 1000000
    isdumpmask := 0
    deviceid := "1"
    compileropt := ""
    kernelfile := "mcx_core.cl"
    issrcfrom0 := 0
    energytot := 0
    energyabs := 0
    energyesc := 0
    runtime := 0
    his := initHis
    detectedcount := 0
    parentid := 0
    outputtype := 0 }

/-- The defaults that the text of `mcx_usage` documents (lines 735 to 750
and 756): for an option letter, the first item in its brackets, and for
`-k` the file name shown. -/
def usageDefault (opt : String) : Option String :=
  [("t", "1024"), ("T", "64"), ("n", "0"), ("r", "1"), ("a", "0"), ("z", "0"), ("g", "1"),
   ("b", "1"), ("B", "0"), ("e", "0."), ("R", "0."), ("U", "1"), ("d", "0"), ("S", "1"),
   ("p", "0"), ("k", "mcx_core.cl")].lookup opt

/-! ## mcx_readarg -/

/-- The C library test `isspace`. -/
def isSpaceChar (c : Char) : Bool :=
  c = ' ' || c = '\t' || c = '\n' || c = '\r' || c.toNat = 11 || c.toNat = 12

/-- The C library function `atoi`: leading white space, an optional sign,
then the decimal digits that follow; no result when the value does not fit
an `int`. -/
def atoi (s : String) : Option Int :=
  let cs := s.toList.dropWhile isSpaceChar
  let neg := cs.head? = some '-'
  let ds := if cs.head? = some '-' ∨ cs.head? = some '+' then cs.tail else cs
  let v : Int := ((ds.takeWhile Char.isDigit).foldl (fun a c => 10 * a + (c.toNat - 48)) 0 : Nat)
  let r : Int := if neg then -v else v
  if -2147483648 ≤ r ∧ r < 2147483648 then some r else none

/-- What a call of `mcx_readarg` stores through `output`. -/
inductive Written where
  | char (v : Int)
  | int (v : Int)
  | text (s : String)
  | parsed (type arg : String)
  | nothing
deriving DecidableEq

/-- The next argument begins with a decimal digit: the negation of
`argv[id+1][0]<'0'||argv[id+1][0]>'9'` (an empty argument begins with the
terminating zero byte). -/
def beginsWithDigit (arg : String) : Bool :=
  match arg.toList.head? with
  | some c => c.isDigit
  | none => false

/-- The function `mcx_readarg` (lines 505 to 551) with `argc` the length
of `argv`: the index returned and the value stored. For the types `float`,
`bytenumlist` and `floatlist` the stored value is recorded as the argument
parsed under that type. -/
def mcx_readarg (argv : List String) (id : Nat) (type : String) : Outcome (Nat × Written) :=
  if type = "char" ∧ (id + 1 ≥ argv.length ∨ ¬ beginsWithDigit (argv.getD (id + 1) "")) then
    .returned (id, .char 1)
  else if id + 1 < argv.length then
    let arg := argv.getD (id + 1) ""
    if type = "char" then
      match atoi arg with
      | none => .undefined
      | some v => .returned (id + 1, .char (toInt8 v))
    else if type = "int" then
      match atoi arg with
      | none => .undefined
      | some v => .returned (id + 1, .int v)
    else if type = "float" then .returned (id + 1, .parsed type arg)
    else if type = "string" then .returned (id + 1, .text arg)
    else if type = "bytenumlist" then .returned (id + 1, .parsed type arg)
    else if type = "floatlist" then .returned (id + 1, .parsed type arg)
    else .returned (id + 1, .nothing)
  else .exited (-1)

/-! ## mcx_loadconfig -/

/-- The configuration stream as `mcx_loadconfig` reads it: for every
`fscanf` the values it stores, `none` when it does not match all its
fields. `srcflag` is the unsigned number that `sscanf` finds on the rest of
the source position line (line 248), if any. `media` and `detpos` hold the
medium and detector lines that match, in order. -/
structure ConfigStream where
  nphoton : Option Int
  seed : Option Int
  srcpos : Option (ℚ × ℚ × ℚ)
  srcflag : Option Nat
  srcdir : Option (ℚ × ℚ × ℚ)
  tgate : Option (ℚ × ℚ × ℚ)
  filename : Option String
  xaxis : Option (ℚ × Nat × Nat × Nat)
  yaxis : Option (ℚ × Nat × Nat × Nat)
  zaxis : Option (ℚ × Nat × Nat × Nat)
  medianum : Option Nat
  media : List (ℚ × ℚ × ℚ × ℚ)
  detectors : Option (Nat × ℚ)
  detpos : List (ℚ × ℚ × ℚ)

/-- What `mcx_loadconfig` finds outside its arguments: the content of a
file by name (`none` when it cannot be opened), what the words after
`cfg->vol` point to when they are read as pointers, and whether a file can
be created for writing. -/
structure Env where
  file : String → Option (List Nat)
  beyond : Nat → Option (List Nat)
  creatable : String → Bool

/-- A failed `MCX_ASSERT`: `mcx_assess` passes its zero argument on to
`mcx_error`, which leaves the process with that code. -/
def assertFailed {α : Type} : Outcome α := .exited 0

/-- The quotient `(tend-tstart)/tstep` of line 271: the difference and the
quotient are `float` operations. -/
def gateQuotient (tstart tend tstep : ℚ) : ℚ := f32 (f32 (tend - tstart) / tstep)

/-- The value converted to `unsigned int` at line 271,
`(tend-tstart)/tstep+0.5`: the sum of the `float` quotient and the `double`
constant `0.5` is a `double` operation. -/
def gateCount (tstart tend tstep : ℚ) : ℚ := f64 (gateQuotient tstart tend tstep + 1 / 2)

/-- Lines 237 to 273: photon number, seed, source position and direction,
time window and gate count. The stream values are the `float` values that
`fscanf` stores; the decrements of line 255 are `float` operations. -/
def loadHead (cfg : Config) (s : ConfigStream) : Outcome Config :=
  match s.nphoton, s.seed, s.srcpos with
  | some i, some sd, some (x, y, z) =>
    let c1 : Config := { cfg with nphoton := if cfg.nphoton = 0 then i else cfg.nphoton,
                                  seed := sd }
    let flag : Int :=
      if c1.issrcfrom0 = 0 then
        match s.srcflag with
        | some itmp => toInt8 itmp
        | none => c1.issrcfrom0
      else c1.issrcfrom0
    let c2 : Config :=
      { c1 with issrcfrom0 := flag,
                srcpos := if flag = 0 then ⟨f32 (x - 1), f32 (y - 1), f32 (z - 1), c1.srcpos.w⟩
                          else ⟨x, y, z, c1.srcpos.w⟩ }
    match s.srcdir, s.tgate with
    | some (vx, vy, vz), some (t0, t1, dt) =>
      let c3 : Config := { c2 with srcdir := ⟨vx, vy, vz, c2.srcdir.w⟩,
                                   tstart := t0, tend := t1, tstep := dt }
      if t0 > t1 ∨ dt = 0 then .exited (-9)
      else
        match toUInt (gateCount t0 t1 dt) with
        | none => .undefined
        | some gates =>
          .returned { c3 with maxgate := if c3.maxgate > gates then gates else c3.maxgate }
    | _, _ => assertFailed
  | _, _, _ => assertFailed

/-- Medium 0, the ambient medium set at lines 313 to 316. -/
def airMedium : Medium := ⟨0, 0, 0, 1⟩

/-- A medium line `mus g mua n` stored in a `Medium` (line 320). -/
def toMedium (m : ℚ × ℚ × ℚ × ℚ) : Medium := ⟨m.2.2.1, m.1, m.2.1, m.2.2.2⟩

/-- Lines 275 to 345: volume file name, the three axes, the medium table
and the detector table. The result is the configuration and the file
name. The loops run while `i<(int)count`; the tables hold the entries
these loops assign. -/
def loadTables (cfg : Config) (s : ConfigStream) : Outcome (Config × String) :=
  match s.filename, s.xaxis, s.yaxis, s.zaxis, s.medianum with
  | some fname, some (sx, nx, ax, bx), some (sy, ny, ay, b_y), some (sz, nz, az, bz), some n =>
    let filename := if cfg.rootpath ≠ "" then cfg.rootpath ++ "/" ++ fname else fname
    let c1 : Config :=
      { cfg with steps := ⟨sx, sy, sz, cfg.steps.w⟩,
                 dim := ⟨nx, ny, nz, cfg.dim.w⟩,
                 crop0 := ⟨ax, ay, az, cfg.crop0.w⟩,
                 crop1 := ⟨bx, b_y, bz, cfg.crop1.w⟩,
                 medianum := u32 (n + 1) }
    if c1.medianum = 0 then .undefined
    else
      let k := (toInt32 c1.medianum - 1).toNat
      if s.media.length < k then assertFailed
      else
        let c2 : Config := { c1 with prop := some (airMedium :: (s.media.take k).map toMedium) }
        match s.detectors with
        | none => assertFailed
        | some (dn, dr) =>
          let c3 : Config :=
            { c2 with detnum := dn, detradius := dr,
                      issavedet := if c2.issavedet ≠ 0 ∧ dn = 0 then 0 else c2.issavedet }
          let kd := (toInt32 dn).toNat
          if s.detpos.length < kd then assertFailed
          else
            .returned
              ({ c3 with detpos := some ((s.detpos.take kd).map fun p =>
                    loadDetector c3.issrcfrom0.natAbs dr p.1 p.2.1 p.2.2) }, filename)
  | _, _, _, _, _ => assertFailed

/-- The dump of the mask (lines 488 to 501): the process ends with code 0
after writing `session.mask`, or with code -10 when the file cannot be
created or `fwrite` does not report `dim.z` items. -/
def dumpMask {α : Type} (env : Env) (cfg : Config) : Outcome α :=
  if ¬ env.creatable (cfg.session ++ ".mask") then .exited (-10)
  else if (if u32 (cfg.dim.x * cfg.dim.y) = 0 ∨ cfg.dim.z = 0 then 0 else cfg.dim.z) ≠ cfg.dim.z
    then .exited (-10)
  else .exited 0

/-- Lines 346 to 354: the volume is loaded, converted when `isrowmajor` is
set, and masked when `issavedet` is set. A call of `mcx_maskdet` without a
result (an access outside a buffer, or a loop that never ends) is
`undefined`. -/
def loadGrid (env : Env) (cfg : Config) (filename : String) : Outcome Config :=
  if filename = "" then .exited (-4)
  else
    match mcx_loadvolume (env.file filename) cfg.dim with
    | .error c => .exited c
    | .ok vol =>
      let converted : Outcome (List Nat) :=
        if cfg.isrowmajor ≠ 0 then
          match mcx_convertrow2col ⟨some vol, env.beyond⟩ cfg.dim with
          | some (some v) => .returned v
          | _ => .undefined
        else .returned vol
      converted.bind fun v =>
        if cfg.issavedet ≠ 0 then
          match mcx_maskdet cfg.dim v (cfg.detpos.getD []) with
          | none => .undefined
          | some m =>
            if cfg.isdumpmask ≠ 0 then dumpMask env { cfg with vol := some m, isrowmajor := 0 }
            else .returned { cfg with vol := some m, isrowmajor := 0 }
        else .returned { cfg with vol := some v, isrowmajor := 0 }

/-- The test of lines 355 and 356; the dimensions are converted to
`float`. -/
def srcOutside (cfg : Config) : Prop :=
  cfg.srcpos.x < 0 ∨ cfg.srcpos.y < 0 ∨ cfg.srcpos.z < 0 ∨
  cfg.srcpos.x ≥ f32 (cfg.dim.x : ℚ) ∨ cfg.srcpos.y ≥ f32 (cfg.dim.y : ℚ) ∨
  cfg.srcpos.z ≥ f32 (cfg.dim.z : ℚ)

instance (cfg : Config) : Decidable (srcOutside cfg) := by unfold srcOutside; infer_instance

/-- The index `idx1d` of line 359: `int` casts of the floors combined in
`unsigned int` arithmetic and stored in an `int`. -/
def srcIndex (dim : uint4) (pos : float4) : Int :=
  toInt32 (u32 (u32 (u32 (⌊pos.z⌋.toNat * dim.y) * dim.x) + u32 (⌊pos.y⌋.toNat * dim.x)
    + ⌊pos.x⌋.toNat))

/-- The index `idx1d` of line 372 (`isrowmajor` is zero here): the floors
combined in `double` arithmetic and cast to `int`. -/
def walkIndex (dim : uint4) (pos : float4) : Int :=
  truncInt (f64 (f64 (f64 (f64 ((⌊pos.z⌋ : ℚ) * (dim.y : ℚ)) * (dim.x : ℚ))
    + f64 ((⌊pos.y⌋ : ℚ) * (dim.x : ℚ))) + (⌊pos.x⌋ : ℚ)))

/-- Lines 367 to 369: the source position moved by the direction, in
`float` arithmetic. -/
def advance (pos dir : float4) : float4 :=
  ⟨f32 (pos.x + dir.x), f32 (pos.y + dir.y), f32 (pos.z + dir.z), pos.w⟩

/-- A read `cfg->vol[idx1d]`; `none` when the index leaves the `int` range
or the buffer. -/
def readVoxel (vol : List Nat) (i : Int) : Option Nat :=
  if 0 ≤ i ∧ i < 2147483648 ∧ i < vol.length then some (vol.getD i.toNat 0) else none

/-- The loop of lines 363 to 374 with a step budget: while the byte at
`idx1d` is zero the source moves by `srcdir` and `idx1d` is recomputed. The
result is the final source position. -/
def nudge (dim : uint4) (vol : List Nat) (dir : float4) : Nat → float4 → Int → Outcome float4
  | 0, pos, idx =>
    match readVoxel vol idx with
    | none => .undefined
    | some v => if v ≠ 0 then .returned pos else .running
  | fuel + 1, pos, idx =>
    match readVoxel vol idx with
    | none => .undefined
    | some v =>
      if v ≠ 0 then .returned pos
      else
        nudge dim vol dir fuel (advance pos dir) (walkIndex dim (advance pos dir))

/-- Lines 363 to 374: with a volume (`cfg->vol` not null) the loop runs from
the index of line 359; without one the source stays where it is. -/
def walk (fuel : Nat) (cfg : Config) : Outcome float4 :=
  match cfg.vol with
  | none => .returned cfg.srcpos
  | some vol => nudge cfg.dim vol cfg.srcdir fuel cfg.srcpos (srcIndex cfg.dim cfg.srcpos)

/-- Lines 355 to 377: the source must start inside the grid, it is moved
onto a non-zero voxel, and the header fields are set. A floor that does
not fit the `int` cast of line 359 leaves defined behaviour. The
`unsigned int` difference `medianum-1` is `2^32 - 1 + medianum` reduced
modulo `2^32`. -/
def placeSource (fuel : Nat) (cfg : Config) : Outcome Config :=
  if srcOutside cfg then .exited (-4)
  else if ⌊cfg.srcpos.x⌋ ≥ 2147483648 ∨ ⌊cfg.srcpos.y⌋ ≥ 2147483648 ∨
      ⌊cfg.srcpos.z⌋ ≥ 2147483648 then .undefined
  else
    (walk fuel cfg).bind fun pos =>
      .returned { cfg with srcpos := pos,
                           his := { cfg.his with maxmedia := u32 (4294967295 + cfg.medianum),
                                                 detnum := cfg.detnum,
                                                 colcount := u32 (cfg.medianum + 1) } }

/-- Lines 237 to 354 of `mcx_loadconfig`: everything before the source is
placed. -/
def loadPrefix (env : Env) (s : ConfigStream) (cfg : Config) : Outcome Config :=
  (loadHead cfg s).bind fun c1 =>
    (loadTables c1 s).bind fun t => loadGrid env t.1 t.2

/-- The function `mcx_loadconfig` (lines 230 to 381), reading from a file
(no prompts), with a step budget for the loop of lines 366 to 373. -/
def mcx_loadconfig (fuel : Nat) (env : Env) (s : ConfigStream) (cfg : Config) : Outcome Config :=
  (loadPrefix env s cfg).bind (placeSource fuel)

/-- The source position and `idx1d` after `n` passes through the body of
the loop of lines 366 to 373. -/
def nudgeState (dim : uint4) (dir : float4) : Nat → float4 × Int → float4 × Int
  | 0, st => st
  | n + 1, st =>
    (advance (nudgeState dim dir n st).1 dir,
      walkIndex dim (advance (nudgeState dim dir n st).1 dir))

/-! ## Sample configurations -/

/-- A file system with the single volume file `vol.bin`; nothing readable
behind `cfg->vol`; files can be created. -/
def sampleEnv (vol : List Nat) : Env :=
  { file := fun name => if name = "vol.bin" then some vol else none,
    beyond := fun _ => none,
    creatable := fun _ => true }

/-- A configuration stream for a 2x2x1 grid of unit voxels with one medium
and no detector: source position and direction as given, coordinates
counted from 0 (the flag 1 follows the source position), time window
`0 1 1`. -/
def sampleStream (pos dir : ℚ × ℚ × ℚ) : ConfigStream :=
  { nphoton := some 1000, seed := some 17, srcpos := some pos, srcflag := some 1,
    srcdir := some dir, tgate := some (0, 1, 1), filename := some "vol.bin",
    xaxis := some (1, 2, 1, 2), yaxis := some (1, 2, 1, 2), zaxis := some (1, 1, 1, 1),
    medianum := some 1, media := [(1, 0, 0, 1)], detectors := some (0, 1), detpos := [] }

/-- C1: on the two-cell grid of dimensions (1,1,2) holding `[1, 2]`, the
statement `newvol[..]=*vol[..]` reads cell 1 through the word after the
pointer object, not from the buffer. With nothing readable there the call
has no defined result; with a pointer to the byte 9 there it installs
`[1, 9]`. The conversion with the source cell read as `(*vol)[..]` gives
`[1, 2]`, as the claim requires. -/
theorem convertrow2col_reads_past_pointer :
    mcx_convertrow2col (loneRef [1, 2]) ⟨1, 1, 2, 0⟩ = none ∧
    mcx_convertrow2col (crowdedRef [1, 2]) ⟨1, 1, 2, 0⟩ = some (some [1, 9]) ∧
    row2colIntended ⟨1, 1, 2, 0⟩ [1, 2] = [1, 2] := by
  decide

/-- C2: converting the grid of dimensions (2,1,1) holding `[5, 6]` and then
converting back under (1,1,2) does not return `[5, 6]`: the first call
already leaves defined behaviour when nothing readable follows the pointer
object, and with pointers to the byte 9 there the two calls end with
`[5, 9]`. With the source cell read as `(*vol)[..]` the round trip is the
identity on this buffer. -/
theorem convertrow2col_round_trip_fails :
    mcx_convertrow2col (loneRef [5, 6]) ⟨2, 1, 1, 0⟩ = none ∧
    mcx_convertrow2col (crowdedRef [5, 6]) ⟨2, 1, 1, 0⟩ = some (some [5, 9]) ∧
    mcx_convertrow2col (crowdedRef [5, 9]) ⟨1, 1, 2, 0⟩ = some (some [5, 9]) ∧
    row2colIntended ⟨1, 1, 2, 0⟩ (row2colIntended ⟨2, 1, 1, 0⟩ [5, 6]) = [5, 6] := by
  decide

/-! ## Volume loading -/

theorem u32_mul3 (a b c : Nat) : u32 (u32 (a * b) * c) = (a * b * c) % 4294967296 := by
  unfold u32
  exact Nat.mod_mul_mod

theorem toInt32_small (n : Nat) (h : n < 2147483648) : toInt32 n = (n : Int) := by
  unfold toInt32
  have h1 : n % 4294967296 = n := Nat.mod_eq_of_lt (by omega)
  rw [h1, if_pos h]

theorem toSizeT_nat (n : Nat) (h : n < 2147483648) : toSizeT (n : Int) = n := by
  unfold toSizeT
  omega

theorem loadvolume_eq (bytes : List Nat) (dim : uint4)
    (h : dim.x * dim.y * dim.z < 2147483648) :
    mcx_loadvolume (some bytes) dim =
      if bytes.length < dim.x * dim.y * dim.z then .error (-6)
      else .ok (bytes.take (dim.x * dim.y * dim.z)) := by
  have h1 : u32 (u32 (dim.x * dim.y) * dim.z) = dim.x * dim.y * dim.z := by
    rw [u32_mul3]; exact Nat.mod_eq_of_lt (by omega)
  simp only [mcx_loadvolume, h1, toInt32_small _ h, toSizeT_nat _ h]
  have h2 : (bytes.take (dim.x * dim.y * dim.z)).length < 2147483648 := by
    rw [List.length_take]; omega
  rw [toInt32_small _ h2, List.length_take]
  by_cases hlt : bytes.length < dim.x * dim.y * dim.z
  · rw [if_pos hlt, if_pos]
    intro hc
    have := Int.ofNat.inj hc
    omega
  · rw [if_neg hlt, if_neg]
    intro hc
    apply hc
    congr 1
    omega

/-- C3, as stated, fails: a file of two bytes loaded under dimensions
(1,1,1) is longer than `nx*ny*nz = 1`, yet the load succeeds and keeps the
first byte; and under dimensions (65536,65536,1) the product `2^32` is
reduced to `datalen = 0`, so the empty file, whose length differs from
`nx*ny*nz`, loads without error. -/
theorem loadvolume_accepts_other_sizes :
    ([7, 9] : List Nat).length ≠ 1 * 1 * 1 ∧
    mcx_loadvolume (some [7, 9]) ⟨1, 1, 1, 0⟩ = .ok [7] ∧
    ([] : List Nat).length ≠ 65536 * 65536 * 1 ∧
    mcx_loadvolume (some []) ⟨65536, 65536, 1, 0⟩ = .ok [] := by
  decide

/-- C3, amended: for dimensions whose product fits an `int` and every
existing file, `mcx_loadvolume` fails with code -6 exactly when the file is
shorter than `nx*ny*nz`; otherwise it succeeds with the first `nx*ny*nz`
bytes of the file, which is the file verbatim when the length is exactly
`nx*ny*nz`. -/
theorem loadvolume_size_check (bytes : List Nat) (dim : uint4)
    (h : dim.x * dim.y * dim.z < 2147483648) :
    (mcx_loadvolume (some bytes) dim = .error (-6) ↔ bytes.length < dim.x * dim.y * dim.z) ∧
    (dim.x * dim.y * dim.z ≤ bytes.length →
      mcx_loadvolume (some bytes) dim = .ok (bytes.take (dim.x * dim.y * dim.z))) ∧
    (bytes.length = dim.x * dim.y * dim.z → mcx_loadvolume (some bytes) dim = .ok bytes) := by
  rw [loadvolume_eq bytes dim h]
  refine ⟨?_, ?_, ?_⟩
  · by_cases hlt : bytes.length < dim.x * dim.y * dim.z
    · simp [hlt]
    · simp [hlt]
  · intro hle
    rw [if_neg (by omega)]
  · intro heq
    rw [if_neg (by omega), ← heq, List.take_length]

theorem loadvolume_size_check_witness :
    (2 : Nat) * 1 * 2 < 2147483648 ∧
    (mcx_loadvolume (some [3, 1, 4, 1]) ⟨2, 1, 2, 0⟩ = .error (-6) ↔
      ([3, 1, 4, 1] : List Nat).length < 2 * 1 * 2) ∧
    mcx_loadvolume (some [3, 1, 4, 1]) ⟨2, 1, 2, 0⟩ = .ok [3, 1, 4, 1] :=
  ⟨by decide, (loadvolume_size_check [3, 1, 4, 1] ⟨2, 1, 2, 0⟩ (by decide)).1,
    (loadvolume_size_check [3, 1, 4, 1] ⟨2, 1, 2, 0⟩ (by decide)).2.2 (by decide)⟩

/-! ## Detector masking: the padded copy -/

/-- Mixed-radix indices with in-range low digits determine their digits. -/
theorem decode3 {D E a b c a' b' c' : Nat} (hc : c < D) (hc' : c' < D)
    (hb : b * D + c < E) (hb' : b' * D + c' < E)
    (h : a * E + b * D + c = a' * E + b' * D + c') : a = a' ∧ b = b' ∧ c = c' := by
  have hE : 0 < E := by omega
  have hD : 0 < D := by omega
  have h1 : (a * E + (b * D + c)) / E = a := by
    rw [Nat.add_comm, Nat.add_mul_div_right _ _ hE, Nat.div_eq_of_lt hb, Nat.zero_add]
  have h2 : (a' * E + (b' * D + c')) / E = a' := by
    rw [Nat.add_comm, Nat.add_mul_div_right _ _ hE, Nat.div_eq_of_lt hb', Nat.zero_add]
  have ha : a = a' := by
    rw [← h1, ← h2, ← Nat.add_assoc, ← Nat.add_assoc, h]
  subst ha
  have h3 : b * D + c = b' * D + c' := by omega
  have h4 : (c + b * D) / D = b := by
    rw [Nat.add_mul_div_right _ _ hD, Nat.div_eq_of_lt hc, Nat.zero_add]
  have h5 : (c' + b' * D) / D = b' := by
    rw [Nat.add_mul_div_right _ _ hD, Nat.div_eq_of_lt hc', Nat.zero_add]
  have hb2 : b = b' := by
    rw [← h4, ← h5, Nat.add_comm c, Nat.add_comm c', h3]
  subst hb2
  exact ⟨rfl, rfl, by omega⟩

theorem low_digits_lt {D n b c : Nat} (hc : c < D) (hb : b < n) : b * D + c < n * D := by
  have : (b + 1) * D ≤ n * D := Nat.mul_le_mul_right D hb
  rw [Nat.add_mul] at this
  omega

theorem memcpyRow_apply (vol : List Nat) (cell : Nat → Nat) (doff soff n i : Nat) :
    memcpyRow vol cell doff soff n i =
      if doff ≤ i ∧ i < doff + n then vol.getD (soff + (i - doff)) 0 else cell i := rfl

theorem row_mem {D E z0 y0 nx pz py px i : Nat} (hD : nx + 2 = D) (hy0 : (y0 + 1) * D + D ≤ E)
    (hpx : px < D) (hpy : py * D + px < E)
    (hi : i = pz * E + py * D + px) :
    ((z0 + 1) * E + (y0 + 1) * D + 1 ≤ i ∧ i < (z0 + 1) * E + (y0 + 1) * D + 1 + nx) ↔
      (pz = z0 + 1 ∧ py = y0 + 1 ∧ 1 ≤ px ∧ px ≤ nx) := by
  constructor
  · rintro ⟨h1, h2⟩
    have hj : i = (z0 + 1) * E + (y0 + 1) * D + (1 + (i - ((z0 + 1) * E + (y0 + 1) * D + 1))) := by
      omega
    have hjlt : 1 + (i - ((z0 + 1) * E + (y0 + 1) * D + 1)) < D := by omega
    have := decode3 hpx hjlt hpy (by omega) (hi.symm.trans hj)
    omega
  · rintro ⟨rfl, rfl, h1, h2⟩
    omega

theorem inner_fold (vol : List Nat) (nx D E z0 : Nat) (src : Nat → Nat) (cell : Nat → Nat)
    (hD : nx + 2 = D) (n : Nat) (hn : (n + 1) * D ≤ E)
    (pz py px : Nat) (hpx : px < D) (hpy : py * D + px < E) :
    ((List.range n).foldl (fun cell y0 =>
        memcpyRow vol cell ((z0 + 1) * E + (y0 + 1) * D + 1) (src y0) nx) cell)
        (pz * E + py * D + px)
      = if pz = z0 + 1 ∧ 1 ≤ py ∧ py ≤ n ∧ 1 ≤ px ∧ px ≤ nx
        then vol.getD (src (py - 1) + (px - 1)) 0 else cell (pz * E + py * D + px) := by
  induction n with
  | zero =>
    simp only [List.range_zero, List.foldl_nil]
    rw [if_neg]; omega
  | succ n ih =>
    have hn' : (n + 1) * D ≤ E := by
      have : (n + 1) * D ≤ (n + 1 + 1) * D := Nat.mul_le_mul_right D (by omega)
      omega
    rw [List.range_succ, List.foldl_append, List.foldl_cons, List.foldl_nil]
    rw [memcpyRow_apply]
    have hrow := @row_mem D E z0 n nx pz py px (pz * E + py * D + px) hD
      (by rw [Nat.add_mul, Nat.one_mul] at hn; omega) hpx hpy rfl
    by_cases hin : pz = z0 + 1 ∧ py = n + 1 ∧ 1 ≤ px ∧ px ≤ nx
    · rw [if_pos (hrow.mpr hin), if_pos (by omega)]
      obtain ⟨h1, h2, h3, h4⟩ := hin
      subst h1 h2
      congr 2
      omega
    · rw [if_neg (fun h => hin (hrow.mp h)), ih hn']
      by_cases hc : pz = z0 + 1 ∧ 1 ≤ py ∧ py ≤ n ∧ 1 ≤ px ∧ px ≤ nx
      · rw [if_pos hc, if_pos (by omega)]
      · rw [if_neg hc, if_neg]
        intro h
        apply hin
        have : py = n + 1 := by
          by_contra hne
          exact hc ⟨h.1, h.2.1, by omega, h.2.2.2⟩
        exact ⟨h.1, this, h.2.2.2⟩

theorem outer_fold (vol : List Nat) (nx ny D E : Nat) (src : Nat → Nat → Nat)
    (hD : nx + 2 = D) (hE : (ny + 2) * D = E) (m : Nat)
    (pz py px : Nat) (hpx : px < D) (hpy : py < ny + 2) :
    ((List.range m).foldl (fun cell z0 =>
        (List.range ny).foldl (fun cell y0 =>
          memcpyRow vol cell ((z0 + 1) * E + (y0 + 1) * D + 1) (src z0 y0) nx) cell)
        (fun _ => 0)) (pz * E + py * D + px)
      = if 1 ≤ pz ∧ pz ≤ m ∧ 1 ≤ py ∧ py ≤ ny ∧ 1 ≤ px ∧ px ≤ nx
        then vol.getD (src (pz - 1) (py - 1) + (px - 1)) 0 else 0 := by
  have hlow : py * D + px < E := by
    rw [← hE]; exact low_digits_lt hpx hpy
  have hn : (ny + 1) * D ≤ E := by
    rw [← hE]; exact Nat.mul_le_mul_right D (by omega)
  induction m with
  | zero =>
    simp only [List.range_zero, List.foldl_nil]
    rw [if_neg]; omega
  | succ m ih =>
    rw [List.range_succ, List.foldl_append, List.foldl_cons, List.foldl_nil]
    rw [inner_fold vol nx D E m (src m) _ hD ny hn pz py px hpx hlow, ih]
    by_cases hc : pz = m + 1 ∧ 1 ≤ py ∧ py ≤ ny ∧ 1 ≤ px ∧ px ≤ nx
    · rw [if_pos hc, if_pos (by omega)]
      obtain ⟨h1, -⟩ := hc
      subst h1
      rfl
    · rw [if_neg hc]
      by_cases hd : 1 ≤ pz ∧ pz ≤ m ∧ 1 ≤ py ∧ py ≤ ny ∧ 1 ≤ px ∧ px ≤ nx
      · rw [if_pos hd, if_pos (by omega)]
      · rw [if_neg hd, if_neg]
        intro h
        by_cases hm : pz = m + 1
        · exact hc ⟨hm, h.2.2⟩
        · exact hd ⟨h.1, by omega, h.2.2⟩

theorem buildPad_cell (dim : uint4) (vol : List Nat) (pz py px : Nat)
    (hpx : px < dim.x + 2) (hpy : py < dim.y + 2) :
    (buildPad dim vol).cell (pz * ((dim.y + 2) * (dim.x + 2)) + py * (dim.x + 2) + px)
      = if 1 ≤ pz ∧ pz ≤ dim.z ∧ 1 ≤ py ∧ py ≤ dim.y ∧ 1 ≤ px ∧ px ≤ dim.x
        then vol.getD ((pz - 1) * dim.y * dim.x + (py - 1) * dim.x + (px - 1)) 0 else 0 := by
  have h := outer_fold vol dim.x dim.y (dim.x + 2) ((dim.y + 2) * (dim.x + 2))
    (fun z0 y0 => z0 * dim.y * dim.x + y0 * dim.x) rfl rfl dim.z pz py px hpx hpy
  simp only [buildPad, Nat.mul_assoc] at h ⊢
  exact h

theorem mem_nbrDeltas (a b c : Int) : (a, b, c) ∈ nbrDeltas ↔ isNbrDelta a b c := by
  unfold isNbrDelta nbrDeltas
  constructor
  · intro h
    have key : ∀ δ ∈ nbrDeltas, (-1 ≤ δ.1 ∧ δ.1 ≤ 1) ∧ (-1 ≤ δ.2.1 ∧ δ.2.1 ≤ 1) ∧
        (-1 ≤ δ.2.2 ∧ δ.2.2 ≤ 1) ∧ ¬(δ.1 = 0 ∧ δ.2.1 = 0 ∧ δ.2.2 = 0) := by decide
    exact key (a, b, c) h
  · rintro ⟨⟨ha1, ha2⟩, ⟨hb1, hb2⟩, ⟨hc1, hc2⟩, hne⟩
    have ha : a = -1 ∨ a = 0 ∨ a = 1 := by omega
    have hb : b = -1 ∨ b = 0 ∨ b = 1 := by omega
    have hc : c = -1 ∨ c = 0 ∨ c = 1 := by omega
    rcases ha with rfl | rfl | rfl <;> rcases hb with rfl | rfl | rfl <;>
      rcases hc with rfl | rfl | rfl <;> first | (exfalso; exact hne ⟨rfl, rfl, rfl⟩) | decide

theorem nbrOffsets_eq (dx dy PX PY PZ : Int) :
    (nbrOffsets dx dy).map (fun o => PZ * (dy * dx) + PY * dx + PX + o) =
      nbrDeltas.map (fun δ => (PZ + δ.2.2) * (dy * dx) + (PY + δ.2.1) * dx + (PX + δ.1)) := by
  simp only [nbrOffsets, nbrDeltas, List.map_cons, List.map_nil]
  repeat (first | rfl | (apply congrArg₂ _ (by ring) ?_))

theorem padSize_bound (dim : uint4) (pz py px : Nat)
    (hpx : px < dim.x + 2) (hpy : py < dim.y + 2) (hpz : pz < dim.z + 2) :
    pz * ((dim.y + 2) * (dim.x + 2)) + py * (dim.x + 2) + px
      < (dim.x + 2) * (dim.y + 2) * (dim.z + 2) := by
  have h1 := low_digits_lt (D := dim.x + 2) (n := dim.y + 2) hpx hpy
  have h2 := low_digits_lt (D := (dim.y + 2) * (dim.x + 2)) (n := dim.z + 2) h1 hpz
  have h3 : (dim.x + 2) * (dim.y + 2) * (dim.z + 2) = (dim.z + 2) * ((dim.y + 2) * (dim.x + 2)) := by
    ring
  omega

/-- A read of `padvol` at padded coordinates inside the allocation yields
the byte of the zero-padded input volume. -/
theorem buildPad_read (dim : uint4) (vol : List Nat) (PX PY PZ : Int)
    (hx : 0 ≤ PX ∧ PX < (dim.x + 2 : Nat)) (hy : 0 ≤ PY ∧ PY < (dim.y + 2 : Nat))
    (hz : 0 ≤ PZ ∧ PZ < (dim.z + 2 : Nat)) :
    (buildPad dim vol).read
        (PZ * (((dim.y + 2 : Nat) : Int) * ((dim.x + 2 : Nat) : Int)) + PY * ((dim.x + 2 : Nat) : Int) + PX)
      = some (paddedCell dim vol (PX - 1) (PY - 1) (PZ - 1)) := by
  obtain ⟨px, rfl⟩ : ∃ px : Nat, PX = px := ⟨PX.toNat, by omega⟩
  obtain ⟨py, rfl⟩ : ∃ py : Nat, PY = py := ⟨PY.toNat, by omega⟩
  obtain ⟨pz, rfl⟩ : ∃ pz : Nat, PZ = pz := ⟨PZ.toNat, by omega⟩
  have hpx : px < dim.x + 2 := by omega
  have hpy : py < dim.y + 2 := by omega
  have hpz : pz < dim.z + 2 := by omega
  have hidx : ((pz : Int) * (((dim.y + 2 : Nat) : Int) * ((dim.x + 2 : Nat) : Int))
      + (py : Int) * ((dim.x + 2 : Nat) : Int) + (px : Int))
      = ((pz * ((dim.y + 2) * (dim.x + 2)) + py * (dim.x + 2) + px : Nat) : Int) := by
    push_cast; ring
  rw [hidx]
  have hb := padSize_bound dim pz py px hpx hpy hpz
  have hsize : (buildPad dim vol).size = (dim.x + 2) * (dim.y + 2) * (dim.z + 2) := rfl
  unfold PadVol.read
  rw [if_pos ⟨Int.natCast_nonneg _, by rw [hsize]; exact_mod_cast hb⟩, Int.toNat_natCast,
    buildPad_cell dim vol pz py px hpx hpy]
  unfold paddedCell cellIndex
  by_cases hc : 1 ≤ pz ∧ pz ≤ dim.z ∧ 1 ≤ py ∧ py ≤ dim.y ∧ 1 ≤ px ∧ px ≤ dim.x
  · rw [if_pos hc, if_pos (by omega)]
    have e1 : ((px : Int) - 1).toNat = px - 1 := by omega
    have e2 : ((py : Int) - 1).toNat = py - 1 := by omega
    have e3 : ((pz : Int) - 1).toNat = pz - 1 := by omega
    rw [e1, e2, e3]
    congr 2
    ring
  · rw [if_neg hc, if_neg (by omega)]

theorem allNonzero_map {α : Type} (p : PadVol) (f : α → Int) (g : α → Nat) (l : List α)
    (h : ∀ a ∈ l, p.read (f a) = some (g a)) :
    allNonzero p (l.map f) = some (decide (∀ a ∈ l, g a ≠ 0)) := by
  induction l with
  | nil => simp [allNonzero]
  | cons a rest ih =>
    have ha := h a (List.mem_cons_self a rest)
    have hrest := ih (fun b hb => h b (List.mem_cons_of_mem a hb))
    simp only [List.map_cons, allNonzero, ha]
    by_cases hz : g a = 0
    · simp [hz]
    · simp [hz, hrest]

theorem truncInt_intCast (n : Int) : truncInt (n : ℚ) = n := by
  unfold truncInt
  split
  · exact Int.floor_intCast n
  · exact Int.ceil_intCast n

/-! ## Binary floating point: values that are their own rounding -/

theorem bitLen_le (fuel n j : Nat) (h : n < 2 ^ j) : bitLen fuel n ≤ j := by
  induction fuel generalizing n j with
  | zero => exact Nat.zero_le _
  | succ f ih =>
    unfold bitLen
    split
    · exact Nat.zero_le _
    · rename_i hn
      cases j with
      | zero => simp at h; exact absurd h hn
      | succ j =>
        have : n / 2 < 2 ^ j := by
          rw [Nat.div_lt_iff_lt_mul (by decide)]
          rw [Nat.pow_succ] at h
          exact h
        have := ih (n / 2) j this
        omega

theorem ilog2_le (n j : Nat) (h : n < 2 ^ (j + 1)) : ilog2 n ≤ j := by
  unfold ilog2
  have := bitLen_le n n (j + 1) h
  omega

theorem pow2_pos (k : Int) : 0 < pow2 k := by
  unfold pow2
  split
  · exact_mod_cast (Nat.pow_pos (by decide : 0 < 2))
  · apply div_pos one_pos
    exact_mod_cast (Nat.pow_pos (by decide : 0 < 2))

theorem pow2_nonpos (k : Int) (h : k ≤ 0) : pow2 k = 1 / ((2 ^ (-k).toNat : Nat) : ℚ) := by
  unfold pow2
  split
  · have : k = 0 := by omega
    subst this
    simp
  · rfl

theorem rne_intCast (m : Int) : rne (m : ℚ) = m := by
  unfold rne
  rw [Int.floor_intCast, sub_self, if_pos (by norm_num)]

/-- A value that is an integer multiple of its quantum is its own rounding. -/
theorem roundBin_of_multiple (prec : Nat) (emin : Int) (q : ℚ) (m : Int)
    (h : q = (m : ℚ) * pow2 (max (expo q - ((prec : Int) - 1)) emin)) :
    roundBin prec emin q = q := by
  unfold roundBin
  split
  · rename_i h0; exact h0.symm
  · have hp := pow2_pos (max (expo q - ((prec : Int) - 1)) emin)
    have hd : q / pow2 (max (expo q - ((prec : Int) - 1)) emin) = (m : ℚ) := by
      rw [div_eq_iff (ne_of_gt hp)]
      exact h
    rw [hd, rne_intCast]
    exact h.symm

theorem expo_intCast_le (n : Int) (j : Nat) (h : n.natAbs < 2 ^ (j + 1)) :
    expo (n : ℚ) ≤ j := by
  unfold expo
  have h1 : ((n : ℚ)).num = n := Rat.num_intCast n
  have h2 : ((n : ℚ)).den = 1 := Rat.den_intCast n
  rw [h1, h2]
  have h3 : ilog2 1 = 0 := by decide
  rw [h3]
  have := ilog2_le n.natAbs j h
  split <;> omega

/-- An integer of magnitude below `2^24` is a `float`. -/
theorem f32_intCast (n : Int) (h1 : -16777216 < n) (h2 : n < 16777216) :
    f32 (n : ℚ) = (n : ℚ) := by
  unfold f32
  have hn : n.natAbs < 2 ^ (23 + 1) := by
    have : (2 : Nat) ^ (23 + 1) = 16777216 := by decide
    omega
  have he : expo (n : ℚ) ≤ 23 := by
    have := expo_intCast_le n 23 hn
    exact_mod_cast this
  have hE : max (expo (n : ℚ) - (((24 : Nat) : Int) - 1)) (-149) ≤ 0 := by
    apply max_le <;> omega
  apply roundBin_of_multiple 24 (-149) (n : ℚ)
    (n * (2 ^ (-(max (expo (n : ℚ) - (((24 : Nat) : Int) - 1)) (-149))).toNat : Nat))
  rw [pow2_nonpos _ hE]
  have hpos : (0 : ℚ) <
      ((2 ^ (-(max (expo (n : ℚ) - (((24 : Nat) : Int) - 1)) (-149))).toNat : Nat) : ℚ) := by
    exact_mod_cast (Nat.pow_pos (by decide : 0 < 2))
  push_cast
  field_simp

theorem f32_natCast (n : Nat) (h : n < 16777216) : f32 (n : ℚ) = ((n : Int) : ℚ) := by
  have := f32_intCast (n : Int) (by omega) (by omega)
  rw [Int.cast_natCast] at this ⊢
  exact this

theorem f32_int_add (a b : Int) (h1 : -16777216 < a + b) (h2 : a + b < 16777216) :
    f32 ((a : ℚ) + (b : ℚ)) = ((a + b : Int) : ℚ) := by
  rw [← Int.cast_add]
  exact f32_intCast _ h1 h2

theorem f32_int_add_one (a : Int) (h1 : -16777216 < a + 1) (h2 : a + 1 < 16777216) :
    f32 ((a : ℚ) + 1) = ((a + 1 : Int) : ℚ) := by
  have := f32_int_add a 1 h1 h2
  rw [Int.cast_one] at this
  exact this

theorem f32_int_mul (a b : Int) (h1 : -16777216 < a * b) (h2 : a * b < 16777216) :
    f32 ((a : ℚ) * (b : ℚ)) = ((a * b : Int) : ℚ) := by
  rw [← Int.cast_mul]
  exact f32_intCast _ h1 h2

theorem f32_zero : f32 0 = 0 := rfl

/-! ## Detector masking: integer detectors in the exact range -/

theorem sweepFrom_stop (w t : ℚ) (fuel : Nat) (h : ¬ t ≤ w) :
    sweepFrom w (fuel + 1) t = some [] := by
  unfold sweepFrom
  rw [if_neg h]

theorem sweepFrom_int (w : Int) (hw : w < 16777215) :
    ∀ (n fuel : Nat) (a : Int), n < fuel → -16777216 < a → a ≤ w + 1 → (w + 1 - a).toNat = n →
      sweepFrom (w : ℚ) fuel (a : ℚ) = some ((List.range n).map fun (k : Nat) => (a : ℚ) + (k : ℚ)) := by
  intro n
  induction n with
  | zero =>
    intro fuel a hf _ ha hn
    obtain ⟨f, rfl⟩ : ∃ f, fuel = f + 1 := ⟨fuel - 1, by omega⟩
    have : ¬ ((a : ℚ) ≤ (w : ℚ)) := by
      rw [Int.cast_le]
      omega
    rw [sweepFrom_stop _ _ _ this]
    rfl
  | succ n ih =>
    intro fuel a hf hlo ha hn
    obtain ⟨f, rfl⟩ : ∃ f, fuel = f + 1 := ⟨fuel - 1, by omega⟩
    have hle : (a : ℚ) ≤ (w : ℚ) := by
      rw [Int.cast_le]
      omega
    have hstep : f32 ((a : ℚ) + 1) = ((a + 1 : Int) : ℚ) :=
      f32_int_add_one a (by omega) (by omega)
    have hne : ¬ (((a + 1 : Int) : ℚ) = (a : ℚ)) := by
      rw [Int.cast_inj]
      omega
    unfold sweepFrom
    rw [if_pos hle, hstep, if_neg hne, ih f (a + 1) (by omega) (by omega) (by omega) (by omega)]
    rw [List.range_succ_eq_map]
    simp only [Option.map_some', List.map_cons, List.map_map, Nat.cast_zero, add_zero]
    congr 2
    apply List.map_congr_left
    intro k _
    simp only [Function.comp, Nat.succ_eq_add_one]
    push_cast
    ring

/-- The loop values of an integer `w` below `2^24 - 1`: the integers from
`-w` to `w`. -/
theorem sweep_int (w : Int) (hw : w < 16777215) :
    sweep (w : ℚ) =
      some ((List.range (w + w + 1).toNat).map fun (k : Nat) => -(w : ℚ) + (k : ℚ)) := by
  unfold sweep
  by_cases hneg : w < 0
  · have h0 : (w + w + 1).toNat = 0 := by omega
    rw [h0]
    have : ¬ (-(w : ℚ) ≤ (w : ℚ)) := by
      rw [← Int.cast_neg, Int.cast_le]
      omega
    exact sweepFrom_stop _ _ 4294967295 this
  · have h := sweepFrom_int w hw (w + w + 1).toNat 4294967296 (-w) (by omega) (by omega)
      (by omega) (by omega)
    rw [Int.cast_neg] at h
    exact h

theorem mem_sweep_int (w : Int) (hw : w < 16777215) :
    ∃ s, sweep (w : ℚ) = some s ∧
      ∀ t : ℚ, t ∈ s ↔ ∃ o : Int, -w ≤ o ∧ o ≤ w ∧ t = (o : ℚ) := by
  refine ⟨_, sweep_int w hw, ?_⟩
  intro t
  rw [List.mem_map]
  constructor
  · rintro ⟨k, hk, rfl⟩
    rw [List.mem_range] at hk
    refine ⟨-w + (k : Int), by omega, by omega, by push_cast; ring⟩
  · rintro ⟨o, h1, h2, rfl⟩
    refine ⟨(o + w).toNat, by rw [List.mem_range]; omega, ?_⟩
    have : ((o + w).toNat : Int) = o + w := Int.toNat_of_nonneg (by omega)
    have h3 : (((o + w).toNat : Int) : ℚ) = ((o + w : Int) : ℚ) := by rw [this]
    push_cast at h3
    rw [h3]; ring

theorem mem_detIters (d : float4) (s : List ℚ) (it : MaskIter) :
    it ∈ detIters d s ↔ ∃ z ∈ s, ∃ y ∈ s, ∃ x ∈ s, it = ⟨d, x, y, z⟩ := by
  unfold detIters
  simp only [List.mem_flatMap, List.mem_map]
  constructor
  · rintro ⟨z, hz, y, hy, x, hx, rfl⟩
    exact ⟨z, hz, y, hy, x, hx, rfl⟩
  · rintro ⟨z, hz, y, hy, x, hx, rfl⟩
    exact ⟨z, hz, y, hy, x, hx, rfl⟩

/-- The iterations of integer detectors with `w` below `2^24 - 1`: the loops
end, and the iterations are those at the integer offsets in `[-w, w]^3`. -/
theorem mem_maskIters_grid (dets : List GridDet) (hw : ∀ d ∈ dets, d.w < 16777215) :
    ∃ its, maskIters (dets.map GridDet.toFloat4) = some its ∧
      ∀ it : MaskIter, it ∈ its ↔
        ∃ d ∈ dets, ∃ ox oy oz : Int, (-d.w ≤ ox ∧ ox ≤ d.w) ∧ (-d.w ≤ oy ∧ oy ≤ d.w) ∧
          (-d.w ≤ oz ∧ oz ≤ d.w) ∧ it = gridIter d ox oy oz := by
  induction dets with
  | nil =>
    refine ⟨[], rfl, fun it => ?_⟩
    constructor
    · intro h; exact absurd h (List.not_mem_nil it)
    · rintro ⟨d, hd, -⟩; exact absurd hd (List.not_mem_nil d)
  | cons d rest ih =>
    obtain ⟨its, hits, hmem⟩ := ih (fun d' hd' => hw d' (List.mem_cons_of_mem d hd'))
    obtain ⟨s, hs, hsm⟩ := mem_sweep_int d.w (hw d (List.mem_cons_self d rest))
    have hsw : sweep (GridDet.toFloat4 d).w = some s := hs
    refine ⟨detIters d.toFloat4 s ++ its, ?_, fun it => ?_⟩
    · rw [List.map_cons]
      unfold maskIters
      rw [hsw, hits]
    · rw [List.mem_append, mem_detIters, hmem]
      constructor
      · rintro (⟨z, hz, y, hy, x, hx, rfl⟩ | ⟨d', hd', rest'⟩)
        · obtain ⟨oz, hz1, hz2, rfl⟩ := (hsm z).mp hz
          obtain ⟨oy, hy1, hy2, rfl⟩ := (hsm y).mp hy
          obtain ⟨ox, hx1, hx2, rfl⟩ := (hsm x).mp hx
          exact ⟨d, List.mem_cons_self d rest, ox, oy, oz, ⟨hx1, hx2⟩, ⟨hy1, hy2⟩, ⟨hz1, hz2⟩, rfl⟩
        · exact ⟨d', List.mem_cons_of_mem d hd', rest'⟩
      · rintro ⟨d', hd', ox, oy, oz, ⟨hx1, hx2⟩, ⟨hy1, hy2⟩, ⟨hz1, hz2⟩, rfl⟩
        rcases List.mem_cons.mp hd' with rfl | hd''
        · left
          exact ⟨oz, (hsm _).mpr ⟨oz, hz1, hz2, rfl⟩, oy, (hsm _).mpr ⟨oy, hy1, hy2, rfl⟩,
            ox, (hsm _).mpr ⟨ox, hx1, hx2, rfl⟩, rfl⟩
        · right
          exact ⟨d', hd'', ox, oy, oz, ⟨hx1, hx2⟩, ⟨hy1, hy2⟩, ⟨hz1, hz2⟩, rfl⟩

theorem f32_nat_mul (a b : Nat) (h : a * b < 16777216) :
    f32 (((a : Int) : ℚ) * ((b : Int) : ℚ)) = (((a * b : Nat) : Int) : ℚ) := by
  rw [f32_int_mul (a : Int) (b : Int)
    (by have : (0 : Int) ≤ (a : Int) * (b : Int) := by positivity
        omega)
    (by exact_mod_cast h)]
  push_cast
  rfl

theorem f32_nat_add (a b : Nat) (h : a + b < 16777216) :
    f32 (((a : Int) : ℚ) + ((b : Int) : ℚ)) = (((a + b : Nat) : Int) : ℚ) := by
  rw [f32_int_add (a : Int) (b : Int) (by omega) (by omega)]
  push_cast
  rfl

theorem f32_nat_add_one (a : Nat) (h : a + 1 < 16777216) :
    f32 (((a : Int) : ℚ) + 1) = (((a + 1 : Nat) : Int) : ℚ) := by
  rw [f32_int_add_one (a : Int) (by omega) (by omega)]
  push_cast
  rfl

theorem sq_offset_bound (o w : Int) (h1 : -w ≤ o) (h2 : o ≤ w) (hw : w ≤ 2364) :
    0 ≤ o * o ∧ o * o ≤ 5588496 := by
  constructor
  · exact mul_self_nonneg o
  · nlinarith [mul_nonneg (show (0 : Int) ≤ 2364 - o by omega) (show (0 : Int) ≤ o + 2364 by omega)]

theorem dims_lt_of_padSize (dim : uint4)
    (hsize : (dim.x + 2) * (dim.y + 2) * (dim.z + 2) ≤ 16777216) :
    dim.x + 2 < 16777216 ∧ dim.y + 2 < 16777216 ∧ dim.z + 2 < 16777216 := by
  have hx : (dim.x + 2) * (2 * 2) ≤ (dim.x + 2) * ((dim.y + 2) * (dim.z + 2)) :=
    Nat.mul_le_mul_left _ (Nat.mul_le_mul (by omega) (by omega))
  have hy : (dim.y + 2) * (2 * 2) ≤ (dim.y + 2) * ((dim.x + 2) * (dim.z + 2)) :=
    Nat.mul_le_mul_left _ (Nat.mul_le_mul (by omega) (by omega))
  have hz : (dim.z + 2) * (2 * 2) ≤ (dim.z + 2) * ((dim.x + 2) * (dim.y + 2)) :=
    Nat.mul_le_mul_left _ (Nat.mul_le_mul (by omega) (by omega))
  have ex : (dim.x + 2) * ((dim.y + 2) * (dim.z + 2)) = (dim.x + 2) * (dim.y + 2) * (dim.z + 2) := by
    ring
  have ey : (dim.y + 2) * ((dim.x + 2) * (dim.z + 2)) = (dim.x + 2) * (dim.y + 2) * (dim.z + 2) := by
    ring
  have ez : (dim.z + 2) * ((dim.x + 2) * (dim.y + 2)) = (dim.x + 2) * (dim.y + 2) * (dim.z + 2) := by
    ring
  rw [ex] at hx
  rw [ey] at hy
  rw [ez] at hz
  refine ⟨by omega, by omega, by omega⟩

/-- The coordinates `ix`, `iy`, `iz` of an iteration of an integer detector
in the exact range. -/
theorem gridIter_coords (d : GridDet) (ox oy oz : Int) (hd : d.inRange)
    (hx : -d.w ≤ ox ∧ ox ≤ d.w) (hy : -d.w ≤ oy ∧ oy ≤ d.w) (hz : -d.w ≤ oz ∧ oz ≤ d.w) :
    (gridIter d ox oy oz).ix = ((ox + d.x : Int) : ℚ) ∧
    (gridIter d ox oy oz).iy = ((oy + d.y : Int) : ℚ) ∧
    (gridIter d ox oy oz).iz = ((oz + d.z : Int) : ℚ) := by
  obtain ⟨hw, ⟨hx1, hx2⟩, ⟨hy1, hy2⟩, ⟨hz1, hz2⟩⟩ := hd
  refine ⟨?_, ?_, ?_⟩
  · exact f32_int_add ox d.x (by omega) (by omega)
  · exact f32_int_add oy d.y (by omega) (by omega)
  · exact f32_int_add oz d.z (by omega) (by omega)

theorem rejected_grid (dim : uint4) (d : GridDet) (ox oy oz : Int) (hd : d.inRange)
    (hx : -d.w ≤ ox ∧ ox ≤ d.w) (hy : -d.w ≤ oy ∧ oy ≤ d.w) (hz : -d.w ≤ oz ∧ oz ≤ d.w)
    (hsize : (dim.x + 2) * (dim.y + 2) * (dim.z + 2) ≤ 16777216) :
    rejected dim (gridIter d ox oy oz) ↔
      (oz + d.z < 0 ∨ ox + d.x < 0 ∨ oy + d.y < 0 ∨ ox + d.x ≥ (dim.x : Int) ∨
        oy + d.y ≥ (dim.y : Int) ∨ oz + d.z ≥ (dim.z : Int) ∨
        ox * ox + oy * oy + oz * oz > (d.w + 1) * (d.w + 1)) := by
  obtain ⟨cx, cy, cz⟩ := gridIter_coords d ox oy oz hd hx hy hz
  obtain ⟨dx, dy, dz⟩ := dims_lt_of_padSize dim hsize
  have hw := hd.1
  obtain ⟨sx0, sx1⟩ := sq_offset_bound ox d.w hx.1 hx.2 hw
  obtain ⟨sy0, sy1⟩ := sq_offset_bound oy d.w hy.1 hy.2 hw
  obtain ⟨sz0, sz1⟩ := sq_offset_bound oz d.w hz.1 hz.2 hw
  have hw0 : 0 ≤ d.w := by omega
  have hww : 0 ≤ (d.w + 1) * (d.w + 1) ∧ (d.w + 1) * (d.w + 1) ≤ 5593225 := by
    constructor
    · exact mul_self_nonneg _
    · nlinarith
  unfold rejected
  rw [cx, cy, cz]
  show _ ∨ _ ∨ _ ∨ _ ∨ _ ∨ _ ∨
    f32 (f32 (f32 ((ox : ℚ) * (ox : ℚ)) + f32 ((oy : ℚ) * (oy : ℚ))) + f32 ((oz : ℚ) * (oz : ℚ)))
      > f32 (f32 ((d.w : ℚ) + 1) * f32 ((d.w : ℚ) + 1)) ↔ _
  rw [f32_natCast dim.x (by omega), f32_natCast dim.y (by omega), f32_natCast dim.z (by omega),
    f32_int_mul ox ox (by omega) (by omega), f32_int_mul oy oy (by omega) (by omega),
    f32_int_mul oz oz (by omega) (by omega),
    f32_int_add (ox * ox) (oy * oy) (by omega) (by omega),
    f32_int_add (ox * ox + oy * oy) (oz * oz) (by omega) (by omega),
    f32_int_add_one d.w (by omega) (by omega),
    f32_int_mul (d.w + 1) (d.w + 1) (by omega) (by omega)]
  norm_cast

/-- The index `idx1d` of an iteration whose coordinates are those of the
voxel (x,y,z), for a padded size up to `2^24`: the padded position of the
voxel. -/
theorem padIndex_exact (dim : uint4) (it : MaskIter) (x y z : Nat)
    (hix : it.ix = ((x : Int) : ℚ)) (hiy : it.iy = ((y : Int) : ℚ))
    (hiz : it.iz = ((z : Int) : ℚ))
    (hx : x < dim.x) (hy : y < dim.y) (hz : z < dim.z)
    (hsize : (dim.x + 2) * (dim.y + 2) * (dim.z + 2) ≤ 16777216) :
    padIndex dim it =
      (((z + 1) * ((dim.y + 2) * (dim.x + 2)) + (y + 1) * (dim.x + 2) + (x + 1) : Nat) : Int) := by
  obtain ⟨dx, dy, dz⟩ := dims_lt_of_padSize dim hsize
  have hT := padSize_bound dim (z + 1) (y + 1) (x + 1) (by omega) (by omega) (by omega)
  have e1 : (z + 1) * (dim.y + 2) * (dim.x + 2) = (z + 1) * ((dim.y + 2) * (dim.x + 2)) :=
    Nat.mul_assoc _ _ _
  have e2 : (z + 1) * (dim.y + 2) ≤ (z + 1) * (dim.y + 2) * (dim.x + 2) :=
    Nat.le_mul_of_pos_right _ (by omega)
  unfold padIndex
  rw [hix, hiy, hiz, f32_nat_add_one z (by omega), f32_nat_add_one y (by omega),
    f32_nat_add_one x (by omega), f32_natCast (dim.y + 2) dy, f32_natCast (dim.x + 2) dx,
    f32_nat_mul (z + 1) (dim.y + 2) (by omega),
    f32_nat_mul ((z + 1) * (dim.y + 2)) (dim.x + 2) (by omega),
    f32_nat_mul (y + 1) (dim.x + 2) (by omega),
    f32_nat_add ((z + 1) * (dim.y + 2) * (dim.x + 2)) ((y + 1) * (dim.x + 2)) (by omega),
    f32_nat_add ((z + 1) * (dim.y + 2) * (dim.x + 2) + (y + 1) * (dim.x + 2)) (x + 1) (by omega),
    truncInt_intCast, e1]

/-- The index written by an iteration whose coordinates are those of the
voxel (x,y,z), for a padded size up to `2^24`: the index of the voxel. -/
theorem markIndex_exact (dim : uint4) (it : MaskIter) (x y z : Nat)
    (hix : it.ix = ((x : Int) : ℚ)) (hiy : it.iy = ((y : Int) : ℚ))
    (hiz : it.iz = ((z : Int) : ℚ))
    (hx : x < dim.x) (hy : y < dim.y) (hz : z < dim.z)
    (hsize : (dim.x + 2) * (dim.y + 2) * (dim.z + 2) ≤ 16777216) :
    markIndex dim it = ((cellIndex dim x y z : Nat) : Int) := by
  obtain ⟨dx, dy, dz⟩ := dims_lt_of_padSize dim hsize
  have hT := padSize_bound dim z y x (by omega) (by omega) (by omega)
  have hc : z * dim.y * dim.x + y * dim.x + x
      ≤ z * ((dim.y + 2) * (dim.x + 2)) + y * (dim.x + 2) + x := by
    have a1 : z * dim.y * dim.x ≤ z * ((dim.y + 2) * (dim.x + 2)) := by
      rw [Nat.mul_assoc]
      exact Nat.mul_le_mul_left _ (Nat.mul_le_mul (by omega) (by omega))
    have a2 : y * dim.x ≤ y * (dim.x + 2) := Nat.mul_le_mul_left _ (by omega)
    omega
  have e2 : z * dim.y ≤ z * dim.y * dim.x := Nat.le_mul_of_pos_right _ (by omega)
  unfold markIndex
  rw [hix, hiy, hiz, f32_natCast dim.y (by omega), f32_natCast dim.x (by omega),
    f32_nat_mul z dim.y (by omega), f32_nat_mul (z * dim.y) dim.x (by omega),
    f32_nat_mul y dim.x (by omega),
    f32_nat_add (z * dim.y * dim.x) (y * dim.x) (by omega),
    f32_nat_add (z * dim.y * dim.x + y * dim.x) x (by omega), truncInt_intCast]
  unfold cellIndex
  congr 1
  ring

/-- What an iteration decides when it passes the test of lines 469 and 470
and its `idx1d` is the padded position of the voxel (X,Y,Z): it marks the
byte at its write index exactly when that voxel is non-zero and has a zero
byte among its 26 padded neighbours. -/
theorem maskTarget_at (dim : uint4) (vol : List Nat) (it : MaskIter) (X Y Z : Int)
    (hX : 0 ≤ X ∧ X < (dim.x : Int)) (hY : 0 ≤ Y ∧ Y < (dim.y : Int))
    (hZ : 0 ≤ Z ∧ Z < (dim.z : Int)) (hrej : ¬ rejected dim it)
    (hpad : padIndex dim it =
      (Z + 1) * (((dim.y + 2 : Nat) : Int) * ((dim.x + 2 : Nat) : Int))
        + (Y + 1) * ((dim.x + 2 : Nat) : Int) + (X + 1)) :
    maskTarget dim (buildPad dim vol) it =
      some (if paddedCell dim vol X Y Z ≠ 0 ∧
              ¬ (∀ δ ∈ nbrDeltas, paddedCell dim vol (X + δ.1) (Y + δ.2.1) (Z + δ.2.2) ≠ 0)
            then some (markIndex dim it) else none) := by
  unfold maskTarget
  rw [if_neg hrej]
  simp only []
  rw [hpad]
  have hc := buildPad_read dim vol (X + 1) (Y + 1) (Z + 1)
    (by push_cast; omega) (by push_cast; omega) (by push_cast; omega)
  simp only [add_sub_cancel_right] at hc
  rw [hc]
  simp only []
  by_cases hzero : paddedCell dim vol X Y Z = 0
  · rw [if_pos hzero, if_neg (by simp [hzero])]
  · rw [if_neg hzero, nbrOffsets_eq]
    rw [allNonzero_map (buildPad dim vol) _
      (fun δ => paddedCell dim vol (X + δ.1) (Y + δ.2.1) (Z + δ.2.2))]
    · by_cases hall : ∀ δ ∈ nbrDeltas, paddedCell dim vol (X + δ.1) (Y + δ.2.1) (Z + δ.2.2) ≠ 0
      · rw [decide_eq_true hall, if_neg (fun h => h.2 hall)]
      · rw [decide_eq_false hall, if_pos ⟨hzero, hall⟩]
    · rintro ⟨a, b, c⟩ hmem
      rw [mem_nbrDeltas] at hmem
      obtain ⟨ha, hb, hcc, -⟩ := hmem
      have := buildPad_read dim vol (X + 1 + a) (Y + 1 + b) (Z + 1 + c)
        (by push_cast; omega) (by push_cast; omega) (by push_cast; omega)
      have e1 : X + 1 + a - 1 = X + a := by ring
      have e2 : Y + 1 + b - 1 = Y + b := by ring
      have e3 : Z + 1 + c - 1 = Z + c := by ring
      rw [e1, e2, e3] at this
      exact this

/-- An iteration of an integer detector in the exact range that passes the
test of lines 469 and 470, for a padded size up to `2^24`: its candidate is
a voxel (x,y,z) of the grid, `idx1d` is the padded position of that voxel
and the write index is the index of that voxel. -/
theorem grid_iter_exact (dim : uint4) (d : GridDet) (ox oy oz : Int) (hd : d.inRange)
    (hx : -d.w ≤ ox ∧ ox ≤ d.w) (hy : -d.w ≤ oy ∧ oy ≤ d.w) (hz : -d.w ≤ oz ∧ oz ≤ d.w)
    (hsize : (dim.x + 2) * (dim.y + 2) * (dim.z + 2) ≤ 16777216)
    (hrej : ¬ rejected dim (gridIter d ox oy oz)) :
    ∃ x y z : Nat, x < dim.x ∧ y < dim.y ∧ z < dim.z ∧
      ((x : Int) = ox + d.x ∧ (y : Int) = oy + d.y ∧ (z : Int) = oz + d.z) ∧
      padIndex dim (gridIter d ox oy oz)
        = (((z + 1) * ((dim.y + 2) * (dim.x + 2)) + (y + 1) * (dim.x + 2) + (x + 1) : Nat) : Int) ∧
      markIndex dim (gridIter d ox oy oz) = ((cellIndex dim x y z : Nat) : Int) := by
  have hr := hrej
  rw [rejected_grid dim d ox oy oz hd hx hy hz hsize] at hr
  obtain ⟨cx, cy, cz⟩ := gridIter_coords d ox oy oz hd hx hy hz
  obtain ⟨x, ex⟩ : ∃ x : Nat, (x : Int) = ox + d.x := ⟨(ox + d.x).toNat, by omega⟩
  obtain ⟨y, ey⟩ : ∃ y : Nat, (y : Int) = oy + d.y := ⟨(oy + d.y).toNat, by omega⟩
  obtain ⟨z, ez⟩ : ∃ z : Nat, (z : Int) = oz + d.z := ⟨(oz + d.z).toNat, by omega⟩
  rw [← ex] at cx
  rw [← ey] at cy
  rw [← ez] at cz
  have hxl : x < dim.x := by omega
  have hyl : y < dim.y := by omega
  have hzl : z < dim.z := by omega
  exact ⟨x, y, z, hxl, hyl, hzl, ⟨ex, ey, ez⟩,
    padIndex_exact dim _ x y z cx cy cz hxl hyl hzl hsize,
    markIndex_exact dim _ x y z cx cy cz hxl hyl hzl hsize⟩

/-- What an iteration at an integer offset that passes the test of lines
469 and 470 decides: it marks its own voxel exactly when that voxel is
non-zero and has a zero byte among its 26 padded neighbours. -/
theorem maskTarget_grid (dim : uint4) (vol : List Nat) (d : GridDet) (ox oy oz : Int)
    (hd : d.inRange)
    (hx : -d.w ≤ ox ∧ ox ≤ d.w) (hy : -d.w ≤ oy ∧ oy ≤ d.w) (hz : -d.w ≤ oz ∧ oz ≤ d.w)
    (hsize : (dim.x + 2) * (dim.y + 2) * (dim.z + 2) ≤ 16777216)
    (hrej : ¬ rejected dim (gridIter d ox oy oz)) :
    maskTarget dim (buildPad dim vol) (gridIter d ox oy oz) =
      some (if paddedCell dim vol (ox + d.x) (oy + d.y) (oz + d.z) ≠ 0 ∧
              ¬ (∀ δ ∈ nbrDeltas, paddedCell dim vol (ox + d.x + δ.1) (oy + d.y + δ.2.1)
                  (oz + d.z + δ.2.2) ≠ 0)
            then some (markIndex dim (gridIter d ox oy oz)) else none) := by
  obtain ⟨x, y, z, hxl, hyl, hzl, ⟨ex, ey, ez⟩, hpi, -⟩ :=
    grid_iter_exact dim d ox oy oz hd hx hy hz hsize hrej
  apply maskTarget_at dim vol _ (ox + d.x) (oy + d.y) (oz + d.z) (by omega) (by omega) (by omega)
    hrej
  rw [hpi, ← ex, ← ey, ← ez]
  push_cast
  ring

theorem markIndex_cell (dim : uint4) (d : GridDet) (ox oy oz : Int) (x y z : Nat)
    (hd : d.inRange)
    (hox : -d.w ≤ ox ∧ ox ≤ d.w) (hoy : -d.w ≤ oy ∧ oy ≤ d.w) (hoz : -d.w ≤ oz ∧ oz ≤ d.w)
    (hsize : (dim.x + 2) * (dim.y + 2) * (dim.z + 2) ≤ 16777216)
    (hxl : x < dim.x) (hyl : y < dim.y) (hzl : z < dim.z)
    (hx : (x : Int) = ox + d.x) (hy : (y : Int) = oy + d.y) (hz : (z : Int) = oz + d.z) :
    markIndex dim (gridIter d ox oy oz) = ((cellIndex dim x y z : Nat) : Int) := by
  obtain ⟨cx, cy, cz⟩ := gridIter_coords d ox oy oz hd hox hoy hoz
  rw [← hx] at cx
  rw [← hy] at cy
  rw [← hz] at cz
  exact markIndex_exact dim _ x y z cx cy cz hxl hyl hzl hsize

theorem getD_set_zero (l : List Nat) (j i a : Nat) (hj : j < l.length) :
    (l.set j a).getD i 0 = if i = j then a else l.getD i 0 := by
  simp only [List.getD_eq_getElem?_getD, List.getElem?_set]
  by_cases h : i = j
  · subst h
    simp [hj]
  · simp [h, Ne.symm h]

theorem getD_replicate_one (n i : Nat) (h : i < n) : (List.replicate n 1).getD i 0 = 1 := by
  rw [List.getD_eq_getElem?_getD, List.getElem?_replicate, if_pos h]
  rfl

theorem or_128_idem (v : Nat) : (v ||| 128) ||| 128 = v ||| 128 := by
  rw [Nat.or_assoc, Nat.or_self]

/-- The loop of `mcx_maskdet` over a list of iterations whose targets are
all defined and inside the volume: it returns, keeps the length, and sets
the high bit of exactly the targeted bytes. -/
theorem maskFold (dim : uint4) (p : PadVol) (n : Nat) (iters : List MaskIter) :
    ∀ vol : List Nat, vol.length = n →
      (∀ it ∈ iters, ∃ t, maskTarget dim p it = some t ∧
        ∀ k, t = some k → 0 ≤ k ∧ k < (n : Int)) →
      ∃ vol', iters.foldlM (maskBody dim p) vol = some vol' ∧ vol'.length = n ∧
        ∀ i, i < n →
          ((∃ it ∈ iters, maskTarget dim p it = some (some (i : Int))) →
            vol'.getD i 0 = vol.getD i 0 ||| 128) ∧
          ((¬ ∃ it ∈ iters, maskTarget dim p it = some (some (i : Int))) →
            vol'.getD i 0 = vol.getD i 0) := by
  induction iters with
  | nil =>
    intro vol hlen _
    refine ⟨vol, rfl, hlen, fun i _ => ⟨?_, fun _ => rfl⟩⟩
    rintro ⟨it, hit, -⟩
    exact absurd hit (List.not_mem_nil it)
  | cons it rest ih =>
    intro vol hlen hall
    obtain ⟨t, ht, hk⟩ := hall it (List.mem_cons_self it rest)
    have hrest : ∀ it' ∈ rest, ∃ t, maskTarget dim p it' = some t ∧
        ∀ k, t = some k → 0 ≤ k ∧ k < (n : Int) :=
      fun it' h => hall it' (List.mem_cons_of_mem it h)
    cases t with
    | none =>
      obtain ⟨vol', hfold, hlen', hchar⟩ := ih vol hlen hrest
      refine ⟨vol', ?_, hlen', ?_⟩
      · rw [List.foldlM_cons]
        simp only [maskBody, ht]
        exact hfold
      · intro i hi
        obtain ⟨h1, h2⟩ := hchar i hi
        constructor
        · rintro ⟨it', hmem, htar⟩
          rcases List.mem_cons.mp hmem with rfl | hmem'
          · rw [ht] at htar; cases htar
          · exact h1 ⟨it', hmem', htar⟩
        · intro hno
          exact h2 (fun ⟨it', hmem', htar⟩ => hno ⟨it', List.mem_cons_of_mem it hmem', htar⟩)
    | some k =>
      obtain ⟨hk0, hkn⟩ := hk k rfl
      have hkl : k.toNat < vol.length := by omega
      have hstep : maskBody dim p vol it =
          some (vol.set k.toNat (vol.getD k.toNat 0 ||| 128)) := by
        simp only [maskBody, ht, setHighBit]
        rw [if_pos ⟨hk0, by omega⟩]
      obtain ⟨vol', hfold, hlen', hchar⟩ :=
        ih (vol.set k.toNat (vol.getD k.toNat 0 ||| 128)) (by rw [List.length_set]; exact hlen) hrest
      refine ⟨vol', ?_, hlen', ?_⟩
      · rw [List.foldlM_cons, hstep]
        exact hfold
      · intro i hi
        obtain ⟨h1, h2⟩ := hchar i hi
        rw [getD_set_zero vol k.toNat i _ hkl] at h1 h2
        by_cases hik : i = k.toNat
        · have hki : k = (i : Int) := by omega
          rw [if_pos hik, ← hik] at h1 h2
          constructor
          · intro _
            by_cases hr : ∃ it' ∈ rest, maskTarget dim p it' = some (some (i : Int))
            · rw [h1 hr, or_128_idem]
            · exact h2 hr
          · intro hno
            exact absurd ⟨it, List.mem_cons_self it rest, by rw [ht, hki]⟩ hno
        · rw [if_neg hik] at h1 h2
          constructor
          · rintro ⟨it', hmem, htar⟩
            rcases List.mem_cons.mp hmem with rfl | hmem'
            · rw [ht] at htar
              have : k = (i : Int) := by injection htar with h'; injection h' with h''
              omega
            · exact h1 ⟨it', hmem', htar⟩
          · intro hno
            exact h2 (fun ⟨it', hmem', htar⟩ => hno ⟨it', List.mem_cons_of_mem it hmem', htar⟩)

theorem cellIndex_lt (dim : uint4) {x y z : Nat} (hx : x < dim.x) (hy : y < dim.y)
    (hz : z < dim.z) : cellIndex dim x y z < dim.x * dim.y * dim.z := by
  unfold cellIndex
  have h1 := low_digits_lt (D := dim.x) (n := dim.y) hx hy
  have h2 := low_digits_lt (D := dim.x * dim.y) (n := dim.z) (by rw [Nat.mul_comm dim.x]; exact h1) hz
  have h3 : dim.x * dim.y * dim.z = dim.z * (dim.x * dim.y) := by ring
  omega

theorem cellIndex_inj (dim : uint4) {x y z x' y' z' : Nat} (hx : x < dim.x) (hy : y < dim.y)
    (hx' : x' < dim.x) (hy' : y' < dim.y)
    (h : cellIndex dim x y z = cellIndex dim x' y' z') : x = x' ∧ y = y' ∧ z = z' := by
  unfold cellIndex at h
  have h1 := low_digits_lt (D := dim.x) (n := dim.y) hx hy
  have h2 := low_digits_lt (D := dim.x) (n := dim.y) hx' hy'
  rw [Nat.mul_comm dim.y] at h1 h2
  have := decode3 hx hx' h1 h2 h
  omega

theorem paddedCell_inside (dim : uint4) (vol : List Nat) {x y z : Nat} (hx : x < dim.x)
    (hy : y < dim.y) (hz : z < dim.z) :
    paddedCell dim vol (x : Int) (y : Int) (z : Int) = vol.getD (cellIndex dim x y z) 0 := by
  unfold paddedCell
  rw [if_pos (by omega)]
  simp only [Int.toNat_natCast]

theorem bit7_or_128 (v : Nat) : bit7 (v ||| 128) := by
  unfold bit7
  rw [Nat.testBit_or]
  have h : Nat.testBit 128 7 = true := by decide
  rw [h, Bool.or_true]

/-- The targets of the iterations of integer detectors in the exact range:
defined, and inside the volume. -/
theorem grid_targets_defined (dim : uint4) (vol : List Nat) (dets : List GridDet)
    (hdets : ∀ d ∈ dets, d.inRange)
    (hsize : (dim.x + 2) * (dim.y + 2) * (dim.z + 2) ≤ 16777216)
    (its : List MaskIter) (hits : ∀ it : MaskIter, it ∈ its ↔
        ∃ d ∈ dets, ∃ ox oy oz : Int, (-d.w ≤ ox ∧ ox ≤ d.w) ∧ (-d.w ≤ oy ∧ oy ≤ d.w) ∧
          (-d.w ≤ oz ∧ oz ≤ d.w) ∧ it = gridIter d ox oy oz) :
    ∀ it ∈ its, ∃ t,
      maskTarget dim (buildPad dim vol) it = some t ∧
      ∀ k, t = some k → 0 ≤ k ∧ k < ((dim.x * dim.y * dim.z : Nat) : Int) := by
  intro it hit
  rw [hits] at hit
  obtain ⟨d, hdm, ox, oy, oz, hox, hoy, hoz, rfl⟩ := hit
  have hd := hdets d hdm
  by_cases hrej : rejected dim (gridIter d ox oy oz)
  · refine ⟨none, ?_, fun k hk => by cases hk⟩
    unfold maskTarget
    rw [if_pos hrej]
  · rw [maskTarget_grid dim vol d ox oy oz hd hox hoy hoz hsize hrej]
    refine ⟨_, rfl, ?_⟩
    intro k hk
    obtain ⟨x, y, z, hxl, hyl, hzl, -, -, hmark⟩ :=
      grid_iter_exact dim d ox oy oz hd hox hoy hoz hsize hrej
    rw [hmark] at hk
    split at hk
    · injection hk with hk'
      rw [← hk']
      have := cellIndex_lt dim hxl hyl hzl
      exact ⟨Int.natCast_nonneg _, by exact_mod_cast this⟩
    · cases hk

/-- Which cells the iterations of integer detectors in the exact range
target. -/
theorem grid_target_iff (dim : uint4) (vol : List Nat) (dets : List GridDet)
    (hdets : ∀ d ∈ dets, d.inRange)
    (hsize : (dim.x + 2) * (dim.y + 2) * (dim.z + 2) ≤ 16777216)
    (its : List MaskIter) (hits : ∀ it : MaskIter, it ∈ its ↔
        ∃ d ∈ dets, ∃ ox oy oz : Int, (-d.w ≤ ox ∧ ox ≤ d.w) ∧ (-d.w ≤ oy ∧ oy ≤ d.w) ∧
          (-d.w ≤ oz ∧ oz ≤ d.w) ∧ it = gridIter d ox oy oz)
    (x y z : Nat) (hx : x < dim.x) (hy : y < dim.y) (hz : z < dim.z) :
    (∃ it ∈ its,
        maskTarget dim (buildPad dim vol) it = some (some ((cellIndex dim x y z : Nat) : Int))) ↔
      reachedBy dim vol dets x y z := by
  unfold reachedBy
  constructor
  · rintro ⟨it, hit, htar⟩
    rw [hits] at hit
    obtain ⟨d, hdm, ox, oy, oz, hox, hoy, hoz, rfl⟩ := hit
    have hd := hdets d hdm
    by_cases hrej : rejected dim (gridIter d ox oy oz)
    · unfold maskTarget at htar
      rw [if_pos hrej] at htar
      cases htar
    · rw [maskTarget_grid dim vol d ox oy oz hd hox hoy hoz hsize hrej] at htar
      have hr := hrej
      rw [rejected_grid dim d ox oy oz hd hox hoy hoz hsize] at hr
      obtain ⟨x', y', z', hxl', hyl', hzl', ⟨hx', hy', hz'⟩, -, hmark⟩ :=
        grid_iter_exact dim d ox oy oz hd hox hoy hoz hsize hrej
      rw [hmark] at htar
      split at htar
      · rename_i hcond
        injection htar with h1
        injection h1 with h2
        have h3 : cellIndex dim x' y' z' = cellIndex dim x y z := by exact_mod_cast h2
        obtain ⟨e1, e2, e3⟩ := cellIndex_inj dim (by omega) (by omega) hx hy h3
        subst e1 e2 e3
        obtain ⟨hnz, hnb⟩ := hcond
        rw [← hx', ← hy', ← hz'] at hnz hnb
        rw [paddedCell_inside dim vol hx hy hz] at hnz
        refine ⟨d, hdm, ox, oy, oz, hox, hoy, hoz, by omega, by omega, by omega, ?_, hnz, ?_⟩
        · have : ¬ (ox * ox + oy * oy + oz * oz > (d.w + 1) * (d.w + 1)) := fun h => hr (by
            right; right; right; right; right; right; exact h)
          rw [sq, sq, sq, sq]
          omega
        · by_contra hne
          apply hnb
          rintro ⟨a, b, c⟩ hmem hzero
          exact hne ⟨a, b, c, (mem_nbrDeltas a b c).mp hmem, hzero⟩
      · cases htar
  · rintro ⟨d, hdm, ox, oy, oz, hox, hoy, hoz, ex, ey, ez, hsph, hnz, a, b, c, hdelta, hzero⟩
    have hd := hdets d hdm
    refine ⟨gridIter d ox oy oz, ?_, ?_⟩
    · rw [hits]
      exact ⟨d, hdm, ox, oy, oz, hox, hoy, hoz, rfl⟩
    · have hrej : ¬ rejected dim (gridIter d ox oy oz) := by
        rw [rejected_grid dim d ox oy oz hd hox hoy hoz hsize]
        rw [sq, sq, sq, sq] at hsph
        omega
      rw [maskTarget_grid dim vol d ox oy oz hd hox hoy hoz hsize hrej,
        markIndex_cell dim d ox oy oz x y z hd hox hoy hoz hsize hx hy hz (by omega) (by omega)
          (by omega)]
      have hx' : ox + d.x = (x : Int) := by omega
      have hy' : oy + d.y = (y : Int) := by omega
      have hz' : oz + d.z = (z : Int) := by omega
      rw [hx', hy', hz', if_pos]
      refine ⟨by rw [paddedCell_inside dim vol hx hy hz]; exact hnz, ?_⟩
      intro hall
      exact hall (a, b, c) ((mem_nbrDeltas a b c).mpr hdelta) hzero

theorem inRange_w (dets : List GridDet) (hdets : ∀ d ∈ dets, d.inRange) :
    ∀ d ∈ dets, d.w < 16777215 := by
  intro d hd
  have := (hdets d hd).1
  omega

/-- The effect of `mcx_maskdet` for integer detectors in the exact range on
a grid of padded size up to `2^24`: the call returns, the length is kept,
and the byte of a cell becomes `v ||| 128` when the cell is reached by a
detector and is unchanged otherwise. -/
theorem maskdet_grid (dim : uint4) (vol : List Nat) (dets : List GridDet)
    (hlen : vol.length = dim.x * dim.y * dim.z)
    (hdets : ∀ d ∈ dets, d.inRange)
    (hsize : (dim.x + 2) * (dim.y + 2) * (dim.z + 2) ≤ 16777216) :
    ∃ vol', mcx_maskdet dim vol (dets.map GridDet.toFloat4) = some vol' ∧
      vol'.length = vol.length ∧
      ∀ x y z : Nat, x < dim.x → y < dim.y → z < dim.z →
        (reachedBy dim vol dets x y z →
          vol'.getD (cellIndex dim x y z) 0 = vol.getD (cellIndex dim x y z) 0 ||| 128) ∧
        (¬ reachedBy dim vol dets x y z →
          vol'.getD (cellIndex dim x y z) 0 = vol.getD (cellIndex dim x y z) 0) := by
  obtain ⟨its, hits, hmem⟩ := mem_maskIters_grid dets (inRange_w dets hdets)
  obtain ⟨vol', hfold, hlen', hchar⟩ :=
    maskFold dim (buildPad dim vol) (dim.x * dim.y * dim.z) its vol hlen
      (grid_targets_defined dim vol dets hdets hsize its hmem)
  refine ⟨vol', ?_, by rw [hlen', hlen], ?_⟩
  · unfold mcx_maskdet
    rw [hits]
    exact hfold
  · intro x y z hx hy hz
    have h := hchar (cellIndex dim x y z) (cellIndex_lt dim hx hy hz)
    rw [grid_target_iff dim vol dets hdets hsize its hmem x y z hx hy hz] at h
    exact h

/-- For a canonical-layout volume of padded size up to `2^24` and integer
detectors in the exact range, `mcx_maskdet` (dump mode off) returns, and
afterwards a cell (x,y,z) has bit 7 set exactly when it had it before or
some detector `d` and integer offset (ox,oy,oz) with components in
`[-w_d, w_d]` satisfy (x,y,z) = position of `d` + offset,
`ox^2+oy^2+oz^2 ≤ (w_d+1)^2`, the cell's input byte is non-zero, and one of
its 26 neighbours is zero in the input volume padded with zeros. -/
theorem maskdet_marks_interface (dim : uint4) (vol : List Nat) (dets : List GridDet)
    (hlen : vol.length = dim.x * dim.y * dim.z)
    (hdets : ∀ d ∈ dets, d.inRange)
    (hsize : (dim.x + 2) * (dim.y + 2) * (dim.z + 2) ≤ 16777216) :
    ∃ vol', mcx_maskdet dim vol (dets.map GridDet.toFloat4) = some vol' ∧
      vol'.length = vol.length ∧
      ∀ x y z : Nat, x < dim.x → y < dim.y → z < dim.z →
        (bit7 (vol'.getD (cellIndex dim x y z) 0) ↔
          bit7 (vol.getD (cellIndex dim x y z) 0) ∨
          ∃ d ∈ dets, ∃ ox oy oz : Int,
            (-d.w ≤ ox ∧ ox ≤ d.w) ∧ (-d.w ≤ oy ∧ oy ≤ d.w) ∧ (-d.w ≤ oz ∧ oz ≤ d.w) ∧
            (x : Int) = d.x + ox ∧ (y : Int) = d.y + oy ∧ (z : Int) = d.z + oz ∧
            ox ^ 2 + oy ^ 2 + oz ^ 2 ≤ (d.w + 1) ^ 2 ∧
            vol.getD (cellIndex dim x y z) 0 ≠ 0 ∧
            ∃ a b c : Int, isNbrDelta a b c ∧
              paddedCell dim vol (x + a) (y + b) (z + c) = 0) := by
  obtain ⟨vol', hrun, hlen', hchar⟩ := maskdet_grid dim vol dets hlen hdets hsize
  refine ⟨vol', hrun, hlen', ?_⟩
  intro x y z hx hy hz
  obtain ⟨h1, h2⟩ := hchar x y z hx hy hz
  show bit7 _ ↔ bit7 _ ∨ reachedBy dim vol dets x y z
  by_cases hm : reachedBy dim vol dets x y z
  · rw [h1 hm]
    exact ⟨fun _ => Or.inr hm, fun _ => bit7_or_128 _⟩
  · rw [h2 hm]
    exact ⟨fun hb => Or.inl hb, fun h => h.elim id (fun h' => absurd h' hm)⟩

/-! ## Detector masking: what holds on defined runs and on the integer grid -/

theorem or_128_and_127 (v : Nat) : (v ||| 128) &&& 127 = v &&& 127 := by
  apply Nat.eq_of_testBit_eq
  intro i
  rw [Nat.testBit_and, Nat.testBit_and, Nat.testBit_or]
  have h128 : Nat.testBit 128 i = decide (7 = i) := @Nat.testBit_two_pow 7 i
  have h127 : Nat.testBit 127 i = decide (i < 7) := @Nat.testBit_two_pow_sub_one 7 i
  rw [h128, h127]
  by_cases h : i < 7
  · have : ¬ (7 = i) := by omega
    simp [h, this]
  · simp [h]

/-- A run of the loop that returns keeps the length and leaves every byte
either unchanged or with its high bit added. -/
theorem maskFold_frame (dim : uint4) (p : PadVol) (iters : List MaskIter) :
    ∀ vol vol' : List Nat, iters.foldlM (maskBody dim p) vol = some vol' →
      vol'.length = vol.length ∧
      ∀ i, vol'.getD i 0 = vol.getD i 0 ∨ vol'.getD i 0 = vol.getD i 0 ||| 128 := by
  induction iters with
  | nil =>
    intro vol vol' h
    have : vol = vol' := by
      simpa [List.foldlM_nil] using h
    subst this
    exact ⟨rfl, fun i => Or.inl rfl⟩
  | cons it rest ih =>
    intro vol vol' h
    rw [List.foldlM_cons] at h
    cases hstep : maskBody dim p vol it with
    | none =>
      rw [hstep] at h
      cases h
    | some vol1 =>
      rw [hstep] at h
      obtain ⟨hl, hv⟩ := ih vol1 vol' h
      have hone : vol1.length = vol.length ∧
          ∀ i, vol1.getD i 0 = vol.getD i 0 ∨ vol1.getD i 0 = vol.getD i 0 ||| 128 := by
        unfold maskBody at hstep
        split at hstep
        · cases hstep
        · injection hstep with e
          subst e
          exact ⟨rfl, fun i => Or.inl rfl⟩
        · rename_i k _
          unfold setHighBit at hstep
          split at hstep
          · rename_i hk
            injection hstep with e
            subst e
            refine ⟨List.length_set _ _ _, fun i => ?_⟩
            rw [getD_set_zero vol k.toNat i _ (by omega)]
            by_cases hik : i = k.toNat
            · rw [if_pos hik, hik]; exact Or.inr rfl
            · rw [if_neg hik]; exact Or.inl rfl
          · cases hstep
      refine ⟨by rw [hl, hone.1], fun i => ?_⟩
      rcases hv i with h1 | h1 <;> rcases hone.2 i with h2 | h2
      · exact Or.inl (by rw [h1, h2])
      · exact Or.inr (by rw [h1, h2])
      · exact Or.inr (by rw [h1, h2])
      · exact Or.inr (by rw [h1, h2, or_128_idem])

/-- Whenever `mcx_maskdet` returns, for any detectors, the buffer keeps its
length, the low seven bits of every byte are unchanged and a set bit 7
stays set. -/
theorem maskdet_frame_of_defined (dim : uint4) (vol vol' : List Nat) (detpos : List float4)
    (h : mcx_maskdet dim vol detpos = some vol') :
    vol'.length = vol.length ∧
    ∀ i, vol'.getD i 0 &&& 127 = vol.getD i 0 &&& 127 ∧
      (bit7 (vol.getD i 0) → bit7 (vol'.getD i 0)) := by
  unfold mcx_maskdet at h
  split at h
  · cases h
  · rename_i its _
    obtain ⟨hl, hv⟩ := maskFold_frame dim (buildPad dim vol) its vol vol' h
    refine ⟨hl, fun i => ?_⟩
    rcases hv i with h1 | h1
    · rw [h1]; exact ⟨rfl, id⟩
    · rw [h1]; exact ⟨or_128_and_127 _, fun _ => bit7_or_128 _⟩

theorem cellIndex_surj (dim : uint4) (i : Nat) (hi : i < dim.x * dim.y * dim.z) :
    ∃ x y z : Nat, x < dim.x ∧ y < dim.y ∧ z < dim.z ∧ cellIndex dim x y z = i := by
  have hx0 : 0 < dim.x := by
    rcases Nat.eq_zero_or_pos dim.x with h | h
    · rw [h] at hi; simp at hi
    · exact h
  have hy0 : 0 < dim.y := by
    rcases Nat.eq_zero_or_pos dim.y with h | h
    · rw [h] at hi; simp at hi
    · exact h
  refine ⟨i % dim.x, i / dim.x % dim.y, i / (dim.x * dim.y), Nat.mod_lt _ hx0,
    Nat.mod_lt _ hy0, ?_, ?_⟩
  · rw [Nat.div_lt_iff_lt_mul (Nat.mul_pos hx0 hy0)]
    rw [Nat.mul_comm dim.z]
    exact hi
  · unfold cellIndex
    have h1 := Nat.div_add_mod i dim.x
    have h2 := Nat.div_add_mod (i / dim.x) dim.y
    have h3 : i / (dim.x * dim.y) = i / dim.x / dim.y := (Nat.div_div_eq_div_mul i dim.x dim.y).symm
    rw [h3]
    have h4 : i / dim.x / dim.y * (dim.x * dim.y) = dim.x * (dim.y * (i / dim.x / dim.y)) := by ring
    have h5 : i / dim.x % dim.y * dim.x = dim.x * (i / dim.x % dim.y) := by ring
    rw [h4, h5, ← Nat.mul_add, h2, h1]

theorem paddedCell_outside (dim : uint4) (vol : List Nat) (x y z : Int)
    (h : ¬ (0 ≤ x ∧ x < dim.x ∧ 0 ≤ y ∧ y < dim.y ∧ 0 ≤ z ∧ z < dim.z)) :
    paddedCell dim vol x y z = 0 := by
  unfold paddedCell
  rw [if_neg h]

/-- Two volumes with zero bytes at the same cells have the same reached
cells. -/
theorem reachedBy_congr (dim : uint4) (vol vol' : List Nat) (dets : List GridDet)
    (hz : ∀ x y z : Nat, x < dim.x → y < dim.y → z < dim.z →
      (vol'.getD (cellIndex dim x y z) 0 = 0 ↔ vol.getD (cellIndex dim x y z) 0 = 0))
    (x y z : Nat) (hx : x < dim.x) (hy : y < dim.y) (hzz : z < dim.z) :
    reachedBy dim vol' dets x y z ↔ reachedBy dim vol dets x y z := by
  have hpad : ∀ X Y Z : Int, paddedCell dim vol' X Y Z = 0 ↔ paddedCell dim vol X Y Z = 0 := by
    intro X Y Z
    by_cases hin : 0 ≤ X ∧ X < dim.x ∧ 0 ≤ Y ∧ Y < dim.y ∧ 0 ≤ Z ∧ Z < dim.z
    · obtain ⟨a, rfl⟩ : ∃ a : Nat, X = a := ⟨X.toNat, by omega⟩
      obtain ⟨b, rfl⟩ : ∃ b : Nat, Y = b := ⟨Y.toNat, by omega⟩
      obtain ⟨c, rfl⟩ : ∃ c : Nat, Z = c := ⟨Z.toNat, by omega⟩
      rw [paddedCell_inside dim vol' (by omega) (by omega) (by omega),
        paddedCell_inside dim vol (by omega) (by omega) (by omega)]
      exact hz a b c (by omega) (by omega) (by omega)
    · rw [paddedCell_outside dim vol' X Y Z hin, paddedCell_outside dim vol X Y Z hin]
  have hne := not_congr (hz x y z hx hy hzz)
  unfold reachedBy
  constructor
  · rintro ⟨d, hd, ox, oy, oz, h1, h2, h3, e1, e2, e3, hs, hnz, a, b, c, hdl, hzero⟩
    exact ⟨d, hd, ox, oy, oz, h1, h2, h3, e1, e2, e3, hs, hne.mp hnz, a, b, c, hdl,
      (hpad _ _ _).mp hzero⟩
  · rintro ⟨d, hd, ox, oy, oz, h1, h2, h3, e1, e2, e3, hs, hnz, a, b, c, hdl, hzero⟩
    exact ⟨d, hd, ox, oy, oz, h1, h2, h3, e1, e2, e3, hs, hne.mpr hnz, a, b, c, hdl,
      (hpad _ _ _).mpr hzero⟩

theorem or_128_ne_zero (v : Nat) : v ||| 128 ≠ 0 := by
  intro h
  have := bit7_or_128 v
  unfold bit7 at this
  rw [h] at this
  simp at this

/-- For integer detectors in the exact range on a grid of padded size up to
`2^24`, a second run of `mcx_maskdet` with the same detectors returns the
volume the first run returned. -/
theorem maskdet_grid_idempotent (dim : uint4) (vol : List Nat) (dets : List GridDet)
    (hlen : vol.length = dim.x * dim.y * dim.z)
    (hdets : ∀ d ∈ dets, d.inRange)
    (hsize : (dim.x + 2) * (dim.y + 2) * (dim.z + 2) ≤ 16777216) :
    ∃ vol', mcx_maskdet dim vol (dets.map GridDet.toFloat4) = some vol' ∧
      mcx_maskdet dim vol' (dets.map GridDet.toFloat4) = some vol' := by
  obtain ⟨vol', hrun, hlen', hchar⟩ := maskdet_grid dim vol dets hlen hdets hsize
  obtain ⟨vol'', hrun', hlen'', hchar'⟩ :=
    maskdet_grid dim vol' dets (by rw [hlen', hlen]) hdets hsize
  refine ⟨vol', hrun, ?_⟩
  rw [hrun']
  congr 1
  have hzero : ∀ x y z : Nat, x < dim.x → y < dim.y → z < dim.z →
      (vol'.getD (cellIndex dim x y z) 0 = 0 ↔ vol.getD (cellIndex dim x y z) 0 = 0) := by
    intro x y z hx hy hz
    obtain ⟨h1, h2⟩ := hchar x y z hx hy hz
    by_cases hm : reachedBy dim vol dets x y z
    · rw [h1 hm]
      have hnz : vol.getD (cellIndex dim x y z) 0 ≠ 0 := by
        obtain ⟨d, -, ox, oy, oz, -, -, -, -, -, -, -, hnz, -⟩ := hm
        exact hnz
      exact ⟨fun h => absurd h (or_128_ne_zero _), fun h => absurd h hnz⟩
    · rw [h2 hm]
  apply List.ext_getElem (by rw [hlen''])
  intro i h1 h2
  have hi : i < dim.x * dim.y * dim.z := by rw [← hlen, ← hlen']; exact h2
  obtain ⟨x, y, z, hx, hy, hz, rfl⟩ := cellIndex_surj dim i hi
  have e1 : vol''.getD (cellIndex dim x y z) 0 = vol''[cellIndex dim x y z] := by
    rw [List.getD_eq_getElem?_getD, List.getElem?_eq_getElem h1]; rfl
  have e2 : vol'.getD (cellIndex dim x y z) 0 = vol'[cellIndex dim x y z] := by
    rw [List.getD_eq_getElem?_getD, List.getElem?_eq_getElem h2]; rfl
  rw [← e1, ← e2]
  obtain ⟨g1, g2⟩ := hchar' x y z hx hy hz
  obtain ⟨f1, f2⟩ := hchar x y z hx hy hz
  by_cases hm : reachedBy dim vol dets x y z
  · rw [g1 ((reachedBy_congr dim vol vol' dets hzero x y z hx hy hz).mpr hm), f1 hm, or_128_idem]
  · exact g2 (fun h => hm ((reachedBy_congr dim vol vol' dets hzero x y z hx hy hz).mp h))

/-- For integer detectors in the exact range on a grid of padded size up to
`2^24`, a voxel whose 26 neighbours are all non-zero in the padded input
(hence all inside the grid) keeps its byte. -/
theorem maskdet_grid_interior (dim : uint4) (vol : List Nat) (dets : List GridDet)
    (hlen : vol.length = dim.x * dim.y * dim.z)
    (hdets : ∀ d ∈ dets, d.inRange)
    (hsize : (dim.x + 2) * (dim.y + 2) * (dim.z + 2) ≤ 16777216) (x y z : Nat)
    (hx : x < dim.x) (hy : y < dim.y) (hz : z < dim.z)
    (hint : ∀ a b c : Int, isNbrDelta a b c → paddedCell dim vol (x + a) (y + b) (z + c) ≠ 0) :
    ∃ vol', mcx_maskdet dim vol (dets.map GridDet.toFloat4) = some vol' ∧
      vol'.getD (cellIndex dim x y z) 0 = vol.getD (cellIndex dim x y z) 0 := by
  obtain ⟨vol', hrun, -, hchar⟩ := maskdet_grid dim vol dets hlen hdets hsize
  refine ⟨vol', hrun, (hchar x y z hx hy hz).2 ?_⟩
  rintro ⟨d, -, ox, oy, oz, -, -, -, -, -, -, -, -, a, b, c, hdl, hzero⟩
  exact hint a b c hdl hzero

/-! ## Detector masking: detectors off the integer grid, and the stored radius -/

/-- C5: in the all-solid 4x3x3 grid with one detector at (0, 1.5, 1) and
`w = 0`, the single iteration reads the padded cell of the surface voxel
(3,1,1) but writes index 18, the voxel (2,1,1), whose 26 neighbours are all
inside the grid and non-zero; that voxel gets bit 7. The scenario of the
claim itself holds: in the all-solid 5x5x5 grid with a detector read at the
centre with radius 2, the centre voxel (index 62) keeps the byte 1 and the
face voxel (2,2,0) (index 12) becomes 129. -/
theorem maskdet_marks_interior_voxel :
    mcx_maskdet ⟨4, 3, 3, 0⟩ (List.replicate 36 1) [⟨0, 3 / 2, 1, 0⟩]
      = some (List.replicate 18 1 ++ 129 :: List.replicate 17 1) ∧
    cellIndex ⟨4, 3, 3, 0⟩ 2 1 1 = 18 ∧
    (∀ δ ∈ nbrDeltas,
      paddedCell ⟨4, 3, 3, 0⟩ (List.replicate 36 1) (2 + δ.1) (1 + δ.2.1) (1 + δ.2.2) ≠ 0) ∧
    padIndex ⟨4, 3, 3, 0⟩ ⟨⟨0, 3 / 2, 1, 0⟩, 0, 0, 0⟩ = 2 * (5 * 6) + 2 * 6 + 4 ∧
    markIndex ⟨4, 3, 3, 0⟩ ⟨⟨0, 3 / 2, 1, 0⟩, 0, 0, 0⟩ = 18 ∧
    (mcx_maskdet ⟨5, 5, 5, 0⟩ (List.replicate 125 1) [loadDetector 1 2 2 2 2]).map
      (fun v => (v.getD 62 0, v.getD 12 0)) = some (1, 129) := by
  refine ⟨by decide!, by decide!, by decide!, by decide!, by decide!, ?_⟩
  have hdet : [loadDetector 1 2 2 2 2] = [(⟨2, 2, 2, 4⟩ : GridDet)].map GridDet.toFloat4 := by
    decide!
  obtain ⟨vol', hrun, -, hchar⟩ := maskdet_grid ⟨5, 5, 5, 0⟩ (List.replicate 125 1)
    [⟨2, 2, 2, 4⟩] (List.length_replicate _ _) (by decide) (by decide)
  rw [hdet, hrun]
  have hsolid : ∀ X Y Z : Int, 0 ≤ X → X < 5 → 0 ≤ Y → Y < 5 → 0 ≤ Z → Z < 5 →
      paddedCell ⟨5, 5, 5, 0⟩ (List.replicate 125 1) X Y Z = 1 := by
    intro X Y Z h1 h2 h3 h4 h5 h6
    obtain ⟨x, rfl⟩ : ∃ x : Nat, X = x := ⟨X.toNat, by omega⟩
    obtain ⟨y, rfl⟩ : ∃ y : Nat, Y = y := ⟨Y.toNat, by omega⟩
    obtain ⟨z, rfl⟩ : ∃ z : Nat, Z = z := ⟨Z.toNat, by omega⟩
    have hx : x < (⟨5, 5, 5, 0⟩ : uint4).x := by show x < 5; omega
    have hy : y < (⟨5, 5, 5, 0⟩ : uint4).y := by show y < 5; omega
    have hz : z < (⟨5, 5, 5, 0⟩ : uint4).z := by show z < 5; omega
    rw [paddedCell_inside _ _ hx hy hz]
    exact getD_replicate_one _ _ (cellIndex_lt _ hx hy hz)
  have h62 : vol'.getD 62 0 = 1 := by
    have h := (hchar 2 2 2 (by decide) (by decide) (by decide)).2 (by
      rintro ⟨d, -, ox, oy, oz, -, -, -, -, -, -, -, -, a, b, c, hdl, hzero⟩
      obtain ⟨ha, hb, hc, -⟩ := hdl
      have := hsolid (((2 : Nat) : Int) + a) (((2 : Nat) : Int) + b) (((2 : Nat) : Int) + c)
        (by omega) (by omega) (by omega) (by omega) (by omega) (by omega)
      rw [this] at hzero
      exact absurd hzero (by decide))
    have e : cellIndex ⟨5, 5, 5, 0⟩ 2 2 2 = 62 := by decide
    rw [e, getD_replicate_one _ _ (by decide)] at h
    exact h
  have h12 : vol'.getD 12 0 = 129 := by
    have h := (hchar 2 2 0 (by decide) (by decide) (by decide)).1
      ⟨⟨2, 2, 2, 4⟩, List.mem_singleton.mpr rfl, 0, 0, -2, by decide, by decide, by decide,
        by decide, by decide, by decide, by decide,
        by rw [show cellIndex ⟨5, 5, 5, 0⟩ 2 2 0 = 12 by decide,
          getD_replicate_one _ _ (by decide)]; decide,
        0, 0, -1, by unfold isNbrDelta; decide, paddedCell_outside _ _ _ _ _ (by decide)⟩
    have e : cellIndex ⟨5, 5, 5, 0⟩ 2 2 0 = 12 := by decide
    rw [e, getD_replicate_one _ _ (by decide)] at h
    exact h
  show some (vol'.getD 62 0, vol'.getD 12 0) = some (1, 129)
  rw [h62, h12]

/-- C6: on the 2x2x1 volume `[0, 0, 0, 1]` with one detector at
(0, 0, 0.25) and `w = 1`, the first run returns `[0, 0, 128, 1]` (the
iteration that reads the solid voxel (1,1,0) writes index 2, a background
voxel), and a second run with the same detector returns
`[0, 128, 128, 1]`: the byte 128 now counts as non-zero. -/
theorem maskdet_second_run_differs :
    mcx_maskdet ⟨2, 2, 1, 0⟩ [0, 0, 0, 1] [⟨0, 0, 1 / 4, 1⟩] = some [0, 0, 128, 1] ∧
    mcx_maskdet ⟨2, 2, 1, 0⟩ [0, 0, 128, 1] [⟨0, 0, 1 / 4, 1⟩] = some [0, 128, 128, 1] := by
  decide!

/-- C7: a detector read as `1 1 1` with radius 2 is stored at (0,0,0) with
`w = 4`; the loops of `mcx_maskdet` then run over the offsets -4..4 on each
axis, a cube of side 9 and not `2*2+1 = 5`, and in the all-solid 5x1x1 grid
the call marks the voxel (4,0,0), whose offset has squared length
`16 > (2+1)^2`. -/
theorem maskdet_uses_squared_radius :
    loadDetector 0 2 1 1 1 = ⟨0, 0, 0, 4⟩ ∧
    sweep (loadDetector 0 2 1 1 1).w = some [-4, -3, -2, -1, 0, 1, 2, 3, 4] ∧
    mcx_maskdet ⟨5, 1, 1, 0⟩ [1, 1, 1, 1, 1] [loadDetector 0 2 1 1 1]
      = some [129, 129, 129, 129, 129] ∧
    cellIndex ⟨5, 1, 1, 0⟩ 4 0 0 = 4 ∧
    (4 : ℚ) ^ 2 + 0 ^ 2 + 0 ^ 2 > (2 + 1) ^ 2 := by
  refine ⟨by decide!, by decide!, ?_, by decide!, by decide!⟩
  have hdet : [loadDetector 0 2 1 1 1] = [(⟨0, 0, 0, 4⟩ : GridDet)].map GridDet.toFloat4 := by
    decide!
  obtain ⟨vol', hrun, hlen, hchar⟩ := maskdet_grid ⟨5, 1, 1, 0⟩ [1, 1, 1, 1, 1]
    [⟨0, 0, 0, 4⟩] (by decide) (by decide) (by decide)
  rw [hdet, hrun]
  have hcell : ∀ x : Nat, x < 5 → vol'.getD x 0 = 129 := by
    intro x hx
    have hreach : reachedBy ⟨5, 1, 1, 0⟩ [1, 1, 1, 1, 1] [⟨0, 0, 0, 4⟩] x 0 0 := by
      refine ⟨⟨0, 0, 0, 4⟩, List.mem_singleton.mpr rfl, (x : Int), 0, 0, ?_, by decide,
        by decide, ?_, by decide, by decide, ?_, ?_, 0, 1, 0, by unfold isNbrDelta; decide,
        paddedCell_outside _ _ _ _ _ (fun h => absurd h.2.2.2.1 (by decide))⟩
      · show -(4 : Int) ≤ (x : Int) ∧ (x : Int) ≤ 4
        omega
      · show (x : Int) = 0 + (x : Int)
        omega
      · show (x : Int) ^ 2 + 0 ^ 2 + 0 ^ 2 ≤ ((4 : Int) + 1) ^ 2
        have h0 : (0 : Int) ≤ x := Int.natCast_nonneg x
        have h4 : (x : Int) ≤ 4 := by omega
        nlinarith
      · have e : cellIndex ⟨5, 1, 1, 0⟩ x 0 0 = x := by unfold cellIndex; omega
        rw [e]
        interval_cases x <;> decide
    have h := (hchar x 0 0 hx (by decide) (by decide)).1 hreach
    have e : cellIndex ⟨5, 1, 1, 0⟩ x 0 0 = x := by unfold cellIndex; omega
    rw [e] at h
    rw [h]
    interval_cases x <;> decide
  have h5 : vol'.length = 5 := hlen
  rcases vol' with _ | ⟨a0, _ | ⟨a1, _ | ⟨a2, _ | ⟨a3, _ | ⟨a4, _ | ⟨a5, t⟩⟩⟩⟩⟩⟩ <;>
    simp only [List.length_cons, List.length_nil] at h5 <;> try omega
  have e0 := hcell 0 (by decide)
  have e1 := hcell 1 (by decide)
  have e2 := hcell 2 (by decide)
  have e3 := hcell 3 (by decide)
  have e4 := hcell 4 (by decide)
  simp only [List.getD_cons_zero, List.getD_cons_succ] at e0 e1 e2 e3 e4
  rw [e0, e1, e2, e3, e4]

/-- C8: on the 1x1x2 volume `[0, 1]` with one detector at (0.5, 0.75, 0.75)
and `w = 0`, the single iteration passes the test of lines 469 and 470,
finds the solid voxel (0,0,1) at padded index 22 next to the border, and
writes `cfg->vol[2]`, one byte past the two-byte volume: the call changes a
byte that is no grid cell and has no defined result. -/
theorem maskdet_writes_past_volume :
    ¬ rejected ⟨1, 1, 2, 0⟩ ⟨⟨1 / 2, 3 / 4, 3 / 4, 0⟩, 0, 0, 0⟩ ∧
    padIndex ⟨1, 1, 2, 0⟩ ⟨⟨1 / 2, 3 / 4, 3 / 4, 0⟩, 0, 0, 0⟩ = 22 ∧
    maskTarget ⟨1, 1, 2, 0⟩ (buildPad ⟨1, 1, 2, 0⟩ [0, 1]) ⟨⟨1 / 2, 3 / 4, 3 / 4, 0⟩, 0, 0, 0⟩
      = some (some 2) ∧
    ([0, 1] : List Nat).length = 2 ∧
    mcx_maskdet ⟨1, 1, 2, 0⟩ [0, 1] [⟨1 / 2, 3 / 4, 3 / 4, 0⟩] = none := by
  decide!

/-! ## Record files -/

theorem unle32_le32 (n : Nat) (h : n < 4294967296) : unle32 (le32 n) = n := by
  unfold unle32 le32
  simp only [List.getD_cons_zero, List.getD_cons_succ]
  omega

theorem le32_length (n : Nat) : (le32 n).length = 4 := rfl

theorem floatBytes_length (a : List Nat) : (floatBytes a).length = 4 * a.length := by
  unfold floatBytes
  induction a with
  | nil => rfl
  | cons x rest ih =>
    rw [List.flatMap_cons, List.length_append, ih, le32_length, List.length_cons]
    omega

theorem readWords_floatBytes (a rest : List Nat) (h : ∀ f ∈ a, f < 4294967296) :
    readWords a.length (floatBytes a ++ rest) = a := by
  induction a with
  | nil => rfl
  | cons x xs ih =>
    have hx := h x (List.mem_cons_self x xs)
    have hxs := ih (fun f hf => h f (List.mem_cons_of_mem x hf))
    have e : floatBytes (x :: xs) ++ rest = le32 x ++ (floatBytes xs ++ rest) := by
      unfold floatBytes
      rw [List.flatMap_cons, List.append_assoc]
    rw [List.length_cons, readWords, e, List.take_left' (le32_length x),
      List.drop_left' (le32_length x), unle32_le32 x hx, hxs]

theorem History.bytes_length (h : History) (hwf : h.wf) : h.bytes.length = 64 := by
  obtain ⟨⟨hm, -⟩, -, -, -, -, -, -, -, -, -, hr, -⟩ := hwf
  have := floatBytes_length h.reserved
  unfold floatBytes at this
  unfold History.bytes
  simp only [List.length_append, le32_length, hm, this, hr]

theorem readHistory_bytes (h : History) (rest : List Nat) (hwf : h.wf) :
    readHistory (h.bytes ++ rest) = h := by
  obtain ⟨magic, version, maxmedia, detnum, colcount, totalphoton, detected, savedphoton,
    unitinmm, seedbyte, reserved⟩ := h
  obtain ⟨⟨hm, -⟩, h1, h2, h3, h4, h5, h6, h7, h8, h9, hr, hrb⟩ := hwf
  simp only at hm h1 h2 h3 h4 h5 h6 h7 h8 h9 hr hrb
  obtain ⟨m0, m1, m2, m3, rfl⟩ : ∃ m0 m1 m2 m3, magic = [m0, m1, m2, m3] := by
    rcases magic with _ | ⟨m0, _ | ⟨m1, _ | ⟨m2, _ | ⟨m3, _ | ⟨m4, t⟩⟩⟩⟩⟩ <;>
      simp at hm
    exact ⟨m0, m1, m2, m3, rfl⟩
  have hrl : (floatBytes reserved).length = 24 := by rw [floatBytes_length, hr]
  unfold readHistory History.bytes
  have e : ([m0, m1, m2, m3] ++ le32 version ++ le32 maxmedia ++ le32 detnum ++ le32 colcount ++
      le32 totalphoton ++ le32 detected ++ le32 savedphoton ++ le32 unitinmm ++ le32 seedbyte ++
      List.flatMap reserved le32 ++ rest)
      = m0 :: m1 :: m2 :: m3 :: (le32 version ++ (le32 maxmedia ++ (le32 detnum ++ (le32 colcount ++
        (le32 totalphoton ++ (le32 detected ++ (le32 savedphoton ++ (le32 unitinmm ++
        (le32 seedbyte ++ (floatBytes reserved ++ rest)))))))))) := by
    simp only [floatBytes, List.append_assoc, List.cons_append, List.nil_append]
  simp only [e]
  have hfield : ∀ n : Nat, n < 4294967296 →
      n % 256 + 256 * (n / 256 % 256) + 65536 * (n / 65536 % 256)
        + 16777216 * (n / 16777216 % 256) = n := by
    intro n hn; omega
  simp only [le32, unle32, List.cons_append, List.nil_append, List.drop_succ_cons, List.drop_zero,
    List.take_succ_cons, List.take_zero, List.getD_cons_zero, List.getD_cons_succ,
    hfield _ h1, hfield _ h2, hfield _ h3, hfield _ h4, hfield _ h5, hfield _ h6,
    hfield _ h7, hfield _ h8, hfield _ h9]
  have hres0 : readWords 6 (floatBytes reserved) = reserved := by
    have := readWords_floatBytes reserved [] hrb
    rwa [List.append_nil, hr] at this
  rw [List.take_left' hrl, hres0]

theorem toSizeT_of_int (len : Int) (h0 : 0 ≤ len) (h1 : len < 2147483648) :
    toSizeT len = len.toNat := by
  unfold toSizeT
  omega

/-- C9, as stated, fails: with `count = 2^30` and `colcount = 4` the array
holds `count*colcount = 2^32` values, but the item count of line 160 is
that product in `unsigned int` arithmetic, which is 0; the file is the 64
header bytes and no value. -/
theorem savedetphoton_item_count_wraps :
    fourColHis.colcount = 4 ∧
    (List.replicate 4294967296 0).length = 1073741824 * fourColHis.colcount ∧
    pathItems 1073741824 fourColHis.colcount = 0 ∧
    fourColHis.bytes.length = 64 ∧
    mcx_savedetphoton (List.replicate 4294967296 0) 1073741824 0 fourColHis true []
      = .ok fourColHis.bytes := by
  have h0 : pathItems 1073741824 fourColHis.colcount = 0 := by decide
  refine ⟨rfl, by rw [List.length_replicate]; decide, h0, by decide, ?_⟩
  unfold mcx_savedetphoton fileAfter
  rw [h0, List.take_zero]
  rfl

/-- C9, amended: for a header of 32-bit fields, `count ≥ 0` with
`count*colcount < 2^32`, and an array `ppath` of `count*colcount` 32-bit
values, `mcx_savedetphoton` in overwrite mode, with the file opened, leaves
a file that is the 64-byte image of `cfg->his` followed by the 4-byte
images of the values of `ppath` in order, `64 + 4*count*colcount` bytes;
reading that file back under the header layout returns the header field by
field (magic, version, ..., colcount, ..., reserved) and the same
`count*colcount` values. -/
theorem savedetphoton_round_trip (his : History) (ppath : List Nat) (count : Int)
    (prev : List Nat) (hwf : his.wf) (hp : ∀ f ∈ ppath, f < 4294967296)
    (h0 : 0 ≤ count) (hprod : count.toNat * his.colcount < 4294967296)
    (hlen : ppath.length = count.toNat * his.colcount) :
    ∃ out, mcx_savedetphoton ppath count 0 his true prev = .ok out ∧
      out = his.bytes ++ floatBytes ppath ∧
      his.bytes.length = 64 ∧
      out.length = 64 + 4 * (count.toNat * his.colcount) ∧
      readHistory out = his ∧
      readWords (count.toNat * his.colcount) (out.drop 64) = ppath := by
  have hitems : pathItems count his.colcount = ppath.length := by
    rw [hlen]
    unfold pathItems u32
    by_cases hc : his.colcount = 0
    · rw [hc]; simp
    · have hcount : count.toNat < 4294967296 := by
        have : count.toNat * 1 ≤ count.toNat * his.colcount :=
          Nat.mul_le_mul_left _ (Nat.pos_of_ne_zero hc)
        omega
      have e : (count % 4294967296).toNat = count.toNat := by omega
      rw [e]
      exact Nat.mod_eq_of_lt hprod
  refine ⟨his.bytes ++ floatBytes ppath, ?_, rfl, History.bytes_length his hwf, ?_,
    readHistory_bytes his _ hwf, ?_⟩
  · unfold mcx_savedetphoton fileAfter
    rw [hitems, List.take_length]
    rfl
  · rw [List.length_append, History.bytes_length his hwf, floatBytes_length, hlen]
  · rw [List.drop_left' (History.bytes_length his hwf), ← hlen]
    have := readWords_floatBytes ppath [] hp
    rwa [List.append_nil] at this

theorem savedetphoton_round_trip_witness :
    History.wf exampleHis ∧
    (∀ f ∈ ([1065353216, 7, 4294967295, 0, 1, 2] : List Nat), f < 4294967296) ∧
    (0 : Int) ≤ 2 ∧ (2 : Int).toNat * exampleHis.colcount < 4294967296 ∧
    ([1065353216, 7, 4294967295, 0, 1, 2] : List Nat).length
      = (2 : Int).toNat * exampleHis.colcount ∧
    ∃ out, mcx_savedetphoton [1065353216, 7, 4294967295, 0, 1, 2] 2 0 exampleHis true [9, 9]
        = .ok out ∧
      out.length = 64 + 4 * 6 ∧
      readHistory out = exampleHis ∧
      readWords 6 (out.drop 64) = [1065353216, 7, 4294967295, 0, 1, 2] :=
  ⟨by decide, by decide, by decide, by decide, by decide,
    (savedetphoton_round_trip exampleHis [1065353216, 7, 4294967295, 0, 1, 2] 2
      [9, 9] (by decide) (by decide) (by decide) (by decide) (by decide)).imp
      (fun _ h => ⟨h.1, h.2.2.2.1, h.2.2.2.2.1, h.2.2.2.2.2⟩)⟩

/-- C10: with the file opened, a header of 32-bit fields, `len` a
non-negative `int` and `dat` holding at least `len` 32-bit values,
`mcx_savedata` writes the header block first exactly when the suffix is
`mch`: the header block is 64 bytes that read back as the fields of
`cfg->his`, and the bytes written are `64 + 4*len` for the suffix `mch` and
`4*len` for any other suffix. The data are the 4-byte images of the first
`len` values of `dat`, which read back as these values. With `doappend`
non-zero the file is its previous content followed by the bytes written,
with `doappend` zero it is the bytes written alone. -/
theorem savedata_content (dat : List Nat) (len : Int) (doappend : Int) (suffix : String)
    (his : History) (prev : List Nat) (hwf : his.wf) (hd : ∀ f ∈ dat, f < 4294967296)
    (h0 : 0 ≤ len) (h1 : len < 2147483648) (hdat : len ≤ dat.length) :
    ∃ header data, mcx_savedata dat len doappend suffix his true prev =
        .ok ((if doappend ≠ 0 then prev else []) ++ (header ++ data)) ∧
      (suffix = "mch" → header = his.bytes ∧ header.length = 64 ∧ readHistory header = his) ∧
      (suffix ≠ "mch" → header = []) ∧
      data = floatBytes (dat.take len.toNat) ∧ data.length = 4 * len.toNat ∧
      readWords len.toNat data = dat.take len.toNat := by
  have hlen : (dat.take len.toNat).length = len.toNat := by
    rw [List.length_take]
    omega
  refine ⟨if suffix = "mch" then his.bytes else [], floatBytes (dat.take len.toNat), ?_, ?_, ?_,
    rfl, ?_, ?_⟩
  · unfold mcx_savedata fileAfter
    rw [toSizeT_of_int len h0 h1]
    by_cases hda : doappend ≠ 0
    · simp only [if_pos hda]
      rfl
    · simp only [if_neg hda]
      rfl
  · intro hs
    rw [if_pos hs]
    refine ⟨rfl, History.bytes_length his hwf, ?_⟩
    have := readHistory_bytes his [] hwf
    rwa [List.append_nil] at this
  · intro hs
    rw [if_neg hs]
  · rw [floatBytes_length, hlen]
  · have := readWords_floatBytes (dat.take len.toNat) []
      (fun f hf => hd f (List.mem_of_mem_take hf))
    rw [List.append_nil, hlen] at this
    exact this

theorem savedata_content_witness :
    History.wf initHis ∧ (∀ f ∈ ([5, 6, 7] : List Nat), f < 4294967296) ∧
    (0 : Int) ≤ 2 ∧ (2 : Int) < 2147483648 ∧ (2 : Int) ≤ ([5, 6, 7] : List Nat).length ∧
    (∃ header data, mcx_savedata [5, 6, 7] 2 1 "mch" initHis true [9] =
        .ok ((if (1 : Int) ≠ 0 then [9] else []) ++ (header ++ data)) ∧
      header = [77, 67, 88, 72, 1, 0, 0, 0, 0, 0, 0, 0, 0, 0, 0, 0, 0, 0, 0, 0, 0, 0, 0, 0,
        0, 0, 0, 0, 0, 0, 0, 0, 0, 0, 128, 63, 0, 0, 0, 0, 0, 0, 0, 0, 0, 0, 0, 0,
        0, 0, 0, 0, 0, 0, 0, 0, 0, 0, 0, 0, 0, 0, 0, 0] ∧
      data = [5, 0, 0, 0, 6, 0, 0, 0]) ∧
    mcx_savedata [5, 6, 7] 2 1 "mch" initHis true [9] =
      .ok ([9] ++ [77, 67, 88, 72, 1, 0, 0, 0, 0, 0, 0, 0, 0, 0, 0, 0, 0, 0, 0, 0, 0, 0, 0, 0,
        0, 0, 0, 0, 0, 0, 0, 0, 0, 0, 128, 63, 0, 0, 0, 0, 0, 0, 0, 0, 0, 0, 0, 0,
        0, 0, 0, 0, 0, 0, 0, 0, 0, 0, 0, 0, 0, 0, 0, 0] ++ [5, 0, 0, 0, 6, 0, 0, 0]) ∧
    mcx_savedata [5, 6, 7] 2 0 "dat" initHis true [9] = .ok [5, 0, 0, 0, 6, 0, 0, 0] := by
  obtain ⟨header, data, hrun, hm, -, hdata, -, -⟩ :=
    savedata_content [5, 6, 7] 2 1 "mch" initHis [9] (by decide) (by decide) (by decide)
      (by decide) (by decide)
  obtain ⟨hh, -, -⟩ := hm rfl
  have hheader : header = [77, 67, 88, 72, 1, 0, 0, 0, 0, 0, 0, 0, 0, 0, 0, 0, 0, 0, 0, 0, 0, 0,
      0, 0, 0, 0, 0, 0, 0, 0, 0, 0, 0, 0, 128, 63, 0, 0, 0, 0, 0, 0, 0, 0, 0, 0, 0, 0,
      0, 0, 0, 0, 0, 0, 0, 0, 0, 0, 0, 0, 0, 0, 0, 0] := by
    rw [hh]; decide
  have hd : data = [5, 0, 0, 0, 6, 0, 0, 0] := by
    rw [hdata]; decide
  exact ⟨by decide, by decide, by decide, by decide, by decide,
    ⟨header, data, hrun, hheader, hd⟩, by decide, by decide⟩

/-! ## Layout conversion with the source cell read as `(*vol)[i]` -/

theorem mem_row2colIters (dim : uint4) (x y z : Nat) :
    (x, y, z) ∈ row2colIters dim ↔ x < dim.x ∧ y < dim.y ∧ z < dim.z := by
  unfold row2colIters
  simp only [List.mem_flatMap, List.mem_map, List.mem_range, Prod.mk.injEq]
  constructor
  · rintro ⟨a, ha, b, hb, c, hc, rfl, rfl, rfl⟩
    exact ⟨ha, hb, hc⟩
  · rintro ⟨hx, hy, hz⟩
    exact ⟨x, hx, y, hy, z, hz, rfl, rfl, rfl⟩

/-- A loop of stores `buf[f a] = g a`: the length is kept, a cell stored to
holds the value of one of its stores, every other cell is unchanged. -/
theorem foldl_set_char {α : Type} (f g : α → Nat) (l : List α) :
    ∀ init : List Nat, (∀ a ∈ l, f a < init.length) →
      (l.foldl (fun nv a => nv.set (f a) (g a)) init).length = init.length ∧
      ∀ j, ((∃ a ∈ l, f a = j) →
              ∃ a ∈ l, f a = j ∧ (l.foldl (fun nv a => nv.set (f a) (g a)) init).getD j 0 = g a) ∧
           ((¬ ∃ a ∈ l, f a = j) →
              (l.foldl (fun nv a => nv.set (f a) (g a)) init).getD j 0 = init.getD j 0) := by
  induction l with
  | nil =>
    intro init _
    refine ⟨rfl, fun j => ⟨?_, fun _ => rfl⟩⟩
    rintro ⟨a, ha, -⟩
    exact absurd ha (List.not_mem_nil a)
  | cons a rest ih =>
    intro init hb
    have hfa : f a < init.length := hb a (List.mem_cons_self a rest)
    obtain ⟨hl, hc⟩ := ih (init.set (f a) (g a))
      (fun b hbm => by rw [List.length_set]; exact hb b (List.mem_cons_of_mem a hbm))
    rw [List.length_set] at hl
    rw [List.foldl_cons]
    refine ⟨hl, fun j => ?_⟩
    obtain ⟨h1, h2⟩ := hc j
    by_cases hr : ∃ b ∈ rest, f b = j
    · constructor
      · intro _
        obtain ⟨b, hbm, hfb, hv⟩ := h1 hr
        exact ⟨b, List.mem_cons_of_mem a hbm, hfb, hv⟩
      · intro hno
        obtain ⟨b, hbm, hfb⟩ := hr
        exact absurd ⟨b, List.mem_cons_of_mem a hbm, hfb⟩ hno
    · rw [h2 hr, getD_set_zero init (f a) j (g a) hfa]
      constructor
      · rintro ⟨b, hbm, hfb⟩
        rcases List.mem_cons.mp hbm with rfl | hbm'
        · exact ⟨b, List.mem_cons_self b rest, hfb, by rw [if_pos hfb.symm]⟩
        · exact absurd ⟨b, hbm', hfb⟩ hr
      · intro hno
        rw [if_neg]
        intro hj
        exact hno ⟨a, List.mem_cons_self a rest, hj.symm⟩

/-- With the source cell read as `(*vol)[i]`, the loop of
`mcx_convertrow2col` meets C1: the new buffer has `nx*ny*nz` cells and its
cell at the canonical index of (x,y,z) is the input cell at the row-major
index. -/
theorem row2colIntended_spec (dim : uint4) (inp : List Nat) :
    (row2colIntended dim inp).length = dim.x * dim.y * dim.z ∧
    ∀ x y z : Nat, x < dim.x → y < dim.y → z < dim.z →
      (row2colIntended dim inp).getD (z * (dim.x * dim.y) + y * dim.x + x) 0
        = inp.getD (x * (dim.y * dim.z) + y * dim.z + z) 0 := by
  have hb : ∀ it ∈ row2colIters dim,
      it.2.2 * (dim.x * dim.y) + it.2.1 * dim.x + it.1
        < (List.replicate (dim.x * dim.y * dim.z) 0).length := by
    rintro ⟨x, y, z⟩ hit
    rw [mem_row2colIters] at hit
    rw [List.length_replicate]
    exact cellIndex_lt dim hit.1 hit.2.1 hit.2.2
  obtain ⟨hl, hc⟩ := foldl_set_char
    (fun it : Nat × Nat × Nat => it.2.2 * (dim.x * dim.y) + it.2.1 * dim.x + it.1)
    (fun it : Nat × Nat × Nat => inp.getD (it.1 * (dim.y * dim.z) + it.2.1 * dim.z + it.2.2) 0)
    (row2colIters dim) (List.replicate (dim.x * dim.y * dim.z) 0) hb
  rw [List.length_replicate] at hl
  refine ⟨hl, ?_⟩
  intro x y z hx hy hz
  obtain ⟨⟨x', y', z'⟩, hmem, hidx, hval⟩ :=
    (hc (z * (dim.x * dim.y) + y * dim.x + x)).1
      ⟨(x, y, z), (mem_row2colIters dim x y z).mpr ⟨hx, hy, hz⟩, rfl⟩
  rw [mem_row2colIters] at hmem
  obtain ⟨e1, e2, e3⟩ := cellIndex_inj dim hmem.1 hmem.2.1 hx hy hidx
  simp only at e1 e2 e3
  subst e1 e2 e3
  exact hval

/-- With the source cell read as `(*vol)[i]`, the loop of
`mcx_convertrow2col` meets C2: converting under (nx,ny,nz) and then under
(nz,ny,nx) returns the original buffer. -/
theorem row2colIntended_round_trip (dim : uint4) (inp : List Nat)
    (hlen : inp.length = dim.x * dim.y * dim.z) :
    row2colIntended ⟨dim.z, dim.y, dim.x, dim.w⟩ (row2colIntended dim inp) = inp := by
  obtain ⟨hl1, hc1⟩ := row2colIntended_spec dim inp
  obtain ⟨hl2, hc2⟩ := row2colIntended_spec ⟨dim.z, dim.y, dim.x, dim.w⟩ (row2colIntended dim inp)
  simp only at hl2 hc2
  have hlen2 : (row2colIntended ⟨dim.z, dim.y, dim.x, dim.w⟩ (row2colIntended dim inp)).length
      = inp.length := by
    rw [hl2, hlen]; ring
  apply List.ext_getElem hlen2
  intro i h1 h2
  have hi : i < dim.z * dim.y * dim.x := by rw [← hl2]; exact h1
  obtain ⟨x, y, z, hx, hy, hz, hidx⟩ := cellIndex_surj ⟨dim.z, dim.y, dim.x, dim.w⟩ i hi
  simp only [cellIndex] at hidx hx hy hz
  have e1 : (row2colIntended ⟨dim.z, dim.y, dim.x, dim.w⟩ (row2colIntended dim inp)).getD i 0
      = (row2colIntended ⟨dim.z, dim.y, dim.x, dim.w⟩ (row2colIntended dim inp))[i] := by
    rw [List.getD_eq_getElem?_getD, List.getElem?_eq_getElem h1]; rfl
  have e2 : inp.getD i 0 = inp[i] := by
    rw [List.getD_eq_getElem?_getD, List.getElem?_eq_getElem h2]; rfl
  rw [← e1, ← e2, ← hidx, hc2 x y z hx hy hz]
  have e3 : x * (dim.y * dim.x) + y * dim.x + z = x * (dim.x * dim.y) + y * dim.x + z := by
    rw [Nat.mul_comm dim.y dim.x]
  have e4 : z * (dim.z * dim.y) + y * dim.z + x = z * (dim.y * dim.z) + y * dim.z + x := by
    rw [Nat.mul_comm dim.z dim.y]
  rw [e3, hc1 z y x hz hy hx, e4]

/-! ## Layout conversion as written: every grid of more than one voxel -/

theorem derefWord_lone (buf : List Nat) (i : Nat) (hi : 0 < i) :
    derefWord (loneRef buf) i = none := by
  cases i with
  | zero => omega
  | succ k => rfl

theorem foldlM_none_of_mem {α β : Type} (f : β → α → Option β) (l : List α) (a : α)
    (ha : a ∈ l) (hf : ∀ s, f s a = none) : ∀ init, l.foldlM f init = none := by
  induction l with
  | nil => exact absurd ha (List.not_mem_nil a)
  | cons b rest ih =>
    intro init
    rw [List.foldlM_cons]
    rcases List.mem_cons.mp ha with rfl | hmem
    · rw [hf init]; rfl
    · cases hstep : f init b with
      | none => rfl
      | some s => exact ih hmem s

/-- Called on a pointer object that is followed by nothing readable, as in
`mcx_loadconfig`, `mcx_convertrow2col` leaves defined behaviour on every
grid of more than one voxel. -/
theorem convertrow2col_lone_undefined (buf : List Nat) (dim : uint4)
    (hmany : 1 < dim.x * dim.y * dim.z) (hfit : dim.x * dim.y * dim.z < 4294967296) :
    mcx_convertrow2col (loneRef buf) dim = none := by
  have hx : 0 < dim.x := by
    rcases Nat.eq_zero_or_pos dim.x with h | h
    · rw [h] at hmany; simp at hmany
    · exact h
  have hy : 0 < dim.y := by
    rcases Nat.eq_zero_or_pos dim.y with h | h
    · rw [h] at hmany; simp at hmany
    · exact h
  have hz : 0 < dim.z := by
    rcases Nat.eq_zero_or_pos dim.z with h | h
    · rw [h] at hmany; simp at hmany
    · exact h
  have hyz : dim.y * dim.z ≤ dim.x * dim.y * dim.z := by
    rw [Nat.mul_assoc]; exact Nat.le_mul_of_pos_left _ hx
  have key : ∃ it ∈ row2colIters dim,
      0 < u32 (it.1 * u32 (dim.y * dim.z) + it.2.1 * dim.z + it.2.2) := by
    have hu : u32 (dim.y * dim.z) = dim.y * dim.z := Nat.mod_eq_of_lt (by omega)
    by_cases h2 : 2 ≤ dim.z
    · refine ⟨(0, 0, 1), (mem_row2colIters dim 0 0 1).mpr ⟨hx, hy, by omega⟩, ?_⟩
      simp [u32]
    · have hz1 : dim.z = 1 := by omega
      by_cases h3 : 2 ≤ dim.y
      · refine ⟨(0, 1, 0), (mem_row2colIters dim 0 1 0).mpr ⟨hx, by omega, hz⟩, ?_⟩
        simp [u32, hz1]
      · have hy1 : dim.y = 1 := by omega
        have hx2 : 2 ≤ dim.x := by
          rw [hy1, hz1] at hmany; omega
        refine ⟨(1, 0, 0), (mem_row2colIters dim 1 0 0).mpr ⟨by omega, hy, hz⟩, ?_⟩
        simp [u32, hy1, hz1]
  obtain ⟨it, hmem, hpos⟩ := key
  unfold mcx_convertrow2col
  rw [if_neg (by
    intro h
    rcases h with h | h | h | h
    · cases h
    · omega
    · omega
    · omega)]
  rw [foldlM_none_of_mem (row2colBody (loneRef buf) dim) (row2colIters dim) it hmem
    (fun s => by
      unfold row2colBody
      simp only []
      rw [derefWord_lone buf _ hpos])]
  rfl

/-! ## Detector masking: every access of an integer detector is in bounds -/

theorem padIndex_range (dim : uint4) (PX PY PZ : Int)
    (hx : 0 ≤ PX ∧ PX < (dim.x + 2 : Nat)) (hy : 0 ≤ PY ∧ PY < (dim.y + 2 : Nat))
    (hz : 0 ≤ PZ ∧ PZ < (dim.z + 2 : Nat)) :
    0 ≤ PZ * (((dim.y + 2 : Nat) : Int) * ((dim.x + 2 : Nat) : Int)) + PY * ((dim.x + 2 : Nat) : Int) + PX ∧
    PZ * (((dim.y + 2 : Nat) : Int) * ((dim.x + 2 : Nat) : Int)) + PY * ((dim.x + 2 : Nat) : Int) + PX
      < (((dim.x + 2) * (dim.y + 2) * (dim.z + 2) : Nat) : Int) := by
  obtain ⟨px, rfl⟩ : ∃ px : Nat, PX = px := ⟨PX.toNat, by omega⟩
  obtain ⟨py, rfl⟩ : ∃ py : Nat, PY = py := ⟨PY.toNat, by omega⟩
  obtain ⟨pz, rfl⟩ : ∃ pz : Nat, PZ = pz := ⟨PZ.toNat, by omega⟩
  have hb := padSize_bound dim pz py px (by omega) (by omega) (by omega)
  have hidx : ((pz : Int) * (((dim.y + 2 : Nat) : Int) * ((dim.x + 2 : Nat) : Int))
      + (py : Int) * ((dim.x + 2 : Nat) : Int) + (px : Int))
      = ((pz * ((dim.y + 2) * (dim.x + 2)) + py * (dim.x + 2) + px : Nat) : Int) := by
    push_cast; ring
  rw [hidx]
  exact ⟨Int.natCast_nonneg _, by exact_mod_cast hb⟩

/-- The accesses of one iteration of an integer detector in the exact range
that passes the test of lines 469 and 470, for a padded size up to `2^24`. -/
theorem grid_iter_in_bounds (dim : uint4) (vol : List Nat) (d : GridDet) (ox oy oz : Int)
    (hd : d.inRange)
    (hox : -d.w ≤ ox ∧ ox ≤ d.w) (hoy : -d.w ≤ oy ∧ oy ≤ d.w) (hoz : -d.w ≤ oz ∧ oz ≤ d.w)
    (hsize : (dim.x + 2) * (dim.y + 2) * (dim.z + 2) ≤ 16777216)
    (hrej : ¬ rejected dim (gridIter d ox oy oz)) :
    ∃ x y z : Nat, x < dim.x ∧ y < dim.y ∧ z < dim.z ∧
      ((x : Int) = ox + d.x ∧ (y : Int) = oy + d.y ∧ (z : Int) = oz + d.z) ∧
      padIndex dim (gridIter d ox oy oz)
        = (((z + 1) * ((dim.y + 2) * (dim.x + 2)) + (y + 1) * (dim.x + 2) + (x + 1) : Nat) : Int) ∧
      (0 ≤ padIndex dim (gridIter d ox oy oz) ∧
        padIndex dim (gridIter d ox oy oz)
          < (((dim.x + 2) * (dim.y + 2) * (dim.z + 2) : Nat) : Int)) ∧
      (∀ o ∈ nbrOffsets ((dim.x + 2 : Nat) : Int) ((dim.y + 2 : Nat) : Int),
        0 ≤ padIndex dim (gridIter d ox oy oz) + o ∧
        padIndex dim (gridIter d ox oy oz) + o
          < (((dim.x + 2) * (dim.y + 2) * (dim.z + 2) : Nat) : Int)) ∧
      (buildPad dim vol).read (padIndex dim (gridIter d ox oy oz))
        = some (vol.getD (cellIndex dim x y z) 0) ∧
      markIndex dim (gridIter d ox oy oz) = ((cellIndex dim x y z : Nat) : Int) ∧
      cellIndex dim x y z < dim.x * dim.y * dim.z := by
  obtain ⟨x, y, z, hxl, hyl, hzl, ⟨hx, hy, hz⟩, hpi0, hmark⟩ :=
    grid_iter_exact dim d ox oy oz hd hox hoy hoz hsize hrej
  have hpi : padIndex dim (gridIter d ox oy oz) =
      ((z : Int) + 1) * (((dim.y + 2 : Nat) : Int) * ((dim.x + 2 : Nat) : Int))
        + ((y : Int) + 1) * ((dim.x + 2 : Nat) : Int) + ((x : Int) + 1) := by
    rw [hpi0]; push_cast; ring
  have hrange := padIndex_range dim ((x : Int) + 1) ((y : Int) + 1) ((z : Int) + 1)
    (by push_cast; omega) (by push_cast; omega) (by push_cast; omega)
  have hread := buildPad_read dim vol ((x : Int) + 1) ((y : Int) + 1) ((z : Int) + 1)
    (by push_cast; omega) (by push_cast; omega) (by push_cast; omega)
  simp only [add_sub_cancel_right] at hread
  rw [paddedCell_inside dim vol hxl hyl hzl] at hread
  refine ⟨x, y, z, hxl, hyl, hzl, ⟨hx, hy, hz⟩, hpi0, ?_, ?_, ?_, hmark,
    cellIndex_lt dim hxl hyl hzl⟩
  · rw [hpi]; exact hrange
  · intro o ho
    rw [hpi]
    have hmem : ((z : Int) + 1) * (((dim.y + 2 : Nat) : Int) * ((dim.x + 2 : Nat) : Int))
        + ((y : Int) + 1) * ((dim.x + 2 : Nat) : Int) + ((x : Int) + 1) + o
        ∈ (nbrOffsets ((dim.x + 2 : Nat) : Int) ((dim.y + 2 : Nat) : Int)).map
          (fun o => ((z : Int) + 1) * (((dim.y + 2 : Nat) : Int) * ((dim.x + 2 : Nat) : Int))
            + ((y : Int) + 1) * ((dim.x + 2 : Nat) : Int) + ((x : Int) + 1) + o) :=
      List.mem_map_of_mem _ ho
    rw [nbrOffsets_eq, List.mem_map] at hmem
    obtain ⟨⟨a, b, c⟩, hdl, heq⟩ := hmem
    rw [mem_nbrDeltas] at hdl
    obtain ⟨ha, hb, hc, -⟩ := hdl
    rw [← heq]
    exact padIndex_range dim ((x : Int) + 1 + a) ((y : Int) + 1 + b) ((z : Int) + 1 + c)
      (by push_cast; omega) (by push_cast; omega) (by push_cast; omega)
  · rw [hpi]; exact hread

theorem memcpy_rows_in_bounds (dim : uint4) (z0 y0 : Nat) (hz : z0 < dim.z) (hy : y0 < dim.y) :
    (z0 + 1) * (dim.y + 2) * (dim.x + 2) + (y0 + 1) * (dim.x + 2) + 1 + dim.x
      ≤ (dim.x + 2) * (dim.y + 2) * (dim.z + 2) ∧
    z0 * dim.y * dim.x + y0 * dim.x + dim.x ≤ dim.x * dim.y * dim.z := by
  constructor
  · have h := padSize_bound dim (z0 + 1) (y0 + 1) (dim.x + 1) (by omega) (by omega) (by omega)
    rw [Nat.mul_assoc]
    omega
  · have h1 : (y0 + 1) * dim.x ≤ dim.y * dim.x := Nat.mul_le_mul_right _ hy
    have h2 : (z0 + 1) * (dim.y * dim.x) ≤ dim.z * (dim.y * dim.x) := Nat.mul_le_mul_right _ hz
    have h3 : dim.x * dim.y * dim.z = dim.z * (dim.y * dim.x) := by ring
    rw [Nat.add_mul, Nat.one_mul] at h1 h2
    rw [Nat.mul_assoc, h3]
    omega

/-- For a canonical-layout volume with `(nx+2)*(ny+2)*(nz+2) ≤ 2^24` and
integer detectors in the exact range (anywhere, also outside the grid),
`mcx_maskdet` returns and every access is in bounds: each `memcpy` row lies
inside `padvol` and the volume; for every iteration that passes the test of
lines 469 and 470 the candidate (ix,iy,iz) is a voxel (x,y,z) of the grid,
`idx1d` is the padded position `(z+1)*dy*dx+(y+1)*dx+(x+1)` of that voxel,
it and its 26 neighbour indices lie in `[0, (nx+2)*(ny+2)*(nz+2))`, the
padded byte read is the byte of that voxel, and the index written is
`z*(nx*ny)+y*nx+x`, inside `[0, nx*ny*nz)`. -/
theorem maskdet_accesses_in_bounds (dim : uint4) (vol : List Nat) (dets : List GridDet)
    (hlen : vol.length = dim.x * dim.y * dim.z)
    (hdets : ∀ d ∈ dets, d.inRange)
    (hsize : (dim.x + 2) * (dim.y + 2) * (dim.z + 2) ≤ 16777216) :
    (∃ vol', mcx_maskdet dim vol (dets.map GridDet.toFloat4) = some vol') ∧
    (buildPad dim vol).size = (dim.x + 2) * (dim.y + 2) * (dim.z + 2) ∧
    (∀ z0 y0 : Nat, z0 < dim.z → y0 < dim.y →
      (z0 + 1) * (dim.y + 2) * (dim.x + 2) + (y0 + 1) * (dim.x + 2) + 1 + dim.x
        ≤ (buildPad dim vol).size ∧
      z0 * dim.y * dim.x + y0 * dim.x + dim.x ≤ vol.length) ∧
    ∃ its, maskIters (dets.map GridDet.toFloat4) = some its ∧
      ∀ it ∈ its, ¬ rejected dim it →
        ∃ x y z : Nat, x < dim.x ∧ y < dim.y ∧ z < dim.z ∧
          (it.ix = (x : ℚ) ∧ it.iy = (y : ℚ) ∧ it.iz = (z : ℚ)) ∧
          padIndex dim it
            = (((z + 1) * ((dim.y + 2) * (dim.x + 2)) + (y + 1) * (dim.x + 2) + (x + 1) : Nat) : Int) ∧
          (0 ≤ padIndex dim it ∧ padIndex dim it < ((buildPad dim vol).size : Int)) ∧
          (∀ o ∈ nbrOffsets ((dim.x + 2 : Nat) : Int) ((dim.y + 2 : Nat) : Int),
            0 ≤ padIndex dim it + o ∧ padIndex dim it + o < ((buildPad dim vol).size : Int)) ∧
          (buildPad dim vol).read (padIndex dim it) = some (vol.getD (cellIndex dim x y z) 0) ∧
          markIndex dim it = ((z * (dim.x * dim.y) + y * dim.x + x : Nat) : Int) ∧
          (0 ≤ markIndex dim it ∧ markIndex dim it < (vol.length : Int)) := by
  have hsz : (buildPad dim vol).size = (dim.x + 2) * (dim.y + 2) * (dim.z + 2) := rfl
  obtain ⟨its, hits, hmem⟩ := mem_maskIters_grid dets (inRange_w dets hdets)
  refine ⟨?_, hsz, ?_, its, hits, ?_⟩
  · obtain ⟨vol', h, -⟩ := maskdet_grid dim vol dets hlen hdets hsize
    exact ⟨vol', h⟩
  · intro z0 y0 hz hy
    rw [hsz, hlen]
    exact memcpy_rows_in_bounds dim z0 y0 hz hy
  · intro it hit hrej
    rw [hmem] at hit
    obtain ⟨d, hdm, ox, oy, oz, hox, hoy, hoz, rfl⟩ := hit
    have hd := hdets d hdm
    obtain ⟨cx, cy, cz⟩ := gridIter_coords d ox oy oz hd hox hoy hoz
    obtain ⟨x, y, z, hx, hy, hz, ⟨ex, ey, ez⟩, hpi, hrange, hnb, hread, hmark, hlt⟩ :=
      grid_iter_in_bounds dim vol d ox oy oz hd hox hoy hoz hsize hrej
    refine ⟨x, y, z, hx, hy, hz, ⟨?_, ?_, ?_⟩, hpi, ⟨hrange.1, ?_⟩, ?_, hread, hmark, ?_⟩
    · rw [cx, ← ex, Int.cast_natCast]
    · rw [cy, ← ey, Int.cast_natCast]
    · rw [cz, ← ez, Int.cast_natCast]
    · rw [hsz]; exact hrange.2
    · intro o ho
      obtain ⟨h1, h2⟩ := hnb o ho
      exact ⟨h1, by rw [hsz]; exact h2⟩
    · rw [hmark]
      refine ⟨Int.natCast_nonneg _, ?_⟩
      rw [hlen]
      exact_mod_cast hlt

/-! ## Detector masking: grids of more than `2^24` voxels -/

/-- A call with one detector whose loops run once (`w = 0`): the single
iteration, which passes the test of lines 469 and 470 and reads at the
padded position of the voxel (X,Y,Z), a non-zero voxel with a zero padded
neighbour, decides to write at its write index `k`, and the call does what
that write does. -/
theorem maskdet_single_iter (dim : uint4) (vol : List Nat) (d : float4) (X Y Z k : Int)
    (hs : sweep d.w = some [0])
    (hX : 0 ≤ X ∧ X < (dim.x : Int)) (hY : 0 ≤ Y ∧ Y < (dim.y : Int))
    (hZ : 0 ≤ Z ∧ Z < (dim.z : Int))
    (hrej : ¬ rejected dim ⟨d, 0, 0, 0⟩)
    (hpad : padIndex dim ⟨d, 0, 0, 0⟩ =
      (Z + 1) * (((dim.y + 2 : Nat) : Int) * ((dim.x + 2 : Nat) : Int))
        + (Y + 1) * ((dim.x + 2 : Nat) : Int) + (X + 1))
    (hmark : markIndex dim ⟨d, 0, 0, 0⟩ = k)
    (hnz : paddedCell dim vol X Y Z ≠ 0)
    (hnb : ∃ δ ∈ nbrDeltas, paddedCell dim vol (X + δ.1) (Y + δ.2.1) (Z + δ.2.2) = 0) :
    maskTarget dim (buildPad dim vol) ⟨d, 0, 0, 0⟩ = some (some k) ∧
    mcx_maskdet dim vol [d] = setHighBit vol k := by
  have htar : maskTarget dim (buildPad dim vol) ⟨d, 0, 0, 0⟩ = some (some k) := by
    rw [maskTarget_at dim vol _ X Y Z hX hY hZ hrej hpad, hmark, if_pos]
    refine ⟨hnz, ?_⟩
    intro hall
    obtain ⟨δ, hδ, h0⟩ := hnb
    exact hall δ hδ h0
  refine ⟨htar, ?_⟩
  have hits : maskIters [d] = some [⟨d, 0, 0, 0⟩] := by
    unfold maskIters maskIters
    rw [hs]
    rfl
  unfold mcx_maskdet
  rw [hits]
  show (maskBody dim (buildPad dim vol) vol ⟨d, 0, 0, 0⟩).bind _ = _
  unfold maskBody
  rw [htar]
  simp only []
  cases setHighBit vol k <;> rfl

theorem sweep_zero : sweep 0 = some [0] := by decide!

/-- C18: on the all-solid grid of dimensions (4100,4096,1), whose padded
size `4102*4098*3 = 50429988` is below `2^31`, with one detector at
(4099,4095,0) and `w = 0`, the single iteration passes the test of lines
469 and 470, its `idx1d` is the padded position of the voxel (4099,4095,0),
a non-zero voxel on the border of the grid, and line 482 forms the index
`4095*4100+4099 = 16793599` in `float` arithmetic, where it rounds to
`16793600`: the write goes to `cfg->vol[16793600]`, one byte past the
`4100*4096*1 = 16793600` bytes of the volume, and the call has no defined
result. -/
theorem maskdet_large_grid_writes_past_volume :
    (4100 + 2) * (4096 + 2) * (1 + 2) < 2147483648 ∧
    (List.replicate 16793600 1).length = 4100 * 4096 * 1 ∧
    ¬ rejected ⟨4100, 4096, 1, 0⟩ ⟨⟨4099, 4095, 0, 0⟩, 0, 0, 0⟩ ∧
    padIndex ⟨4100, 4096, 1, 0⟩ ⟨⟨4099, 4095, 0, 0⟩, 0, 0, 0⟩
      = (0 + 1) * ((4096 + 2) * (4100 + 2)) + (4095 + 1) * (4100 + 2) + (4099 + 1) ∧
    cellIndex ⟨4100, 4096, 1, 0⟩ 4099 4095 0 = 16793599 ∧
    f32 16793599 = 16793600 ∧
    markIndex ⟨4100, 4096, 1, 0⟩ ⟨⟨4099, 4095, 0, 0⟩, 0, 0, 0⟩ = 16793600 ∧
    maskTarget ⟨4100, 4096, 1, 0⟩ (buildPad ⟨4100, 4096, 1, 0⟩ (List.replicate 16793600 1))
      ⟨⟨4099, 4095, 0, 0⟩, 0, 0, 0⟩ = some (some 16793600) ∧
    mcx_maskdet ⟨4100, 4096, 1, 0⟩ (List.replicate 16793600 1) [⟨4099, 4095, 0, 0⟩] = none := by
  have hrej : ¬ rejected ⟨4100, 4096, 1, 0⟩ ⟨⟨4099, 4095, 0, 0⟩, 0, 0, 0⟩ := by decide!
  have hpad : padIndex ⟨4100, 4096, 1, 0⟩ ⟨⟨4099, 4095, 0, 0⟩, 0, 0, 0⟩
      = (0 + 1) * ((4096 + 2) * (4100 + 2)) + (4095 + 1) * (4100 + 2) + (4099 + 1) := by decide!
  have hmark : markIndex ⟨4100, 4096, 1, 0⟩ ⟨⟨4099, 4095, 0, 0⟩, 0, 0, 0⟩ = 16793600 := by decide!
  have hlen : (List.replicate 16793600 1).length = 16793600 := List.length_replicate _ _
  have hnz : paddedCell ⟨4100, 4096, 1, 0⟩ (List.replicate 16793600 1) 4099 4095 0 ≠ 0 := by
    unfold paddedCell
    rw [if_pos (by decide)]
    have e : cellIndex ⟨4100, 4096, 1, 0⟩ (4099 : Int).toNat (4095 : Int).toNat (0 : Int).toNat
        = 16793599 := by decide
    rw [e, getD_replicate_one _ _ (by decide)]
    decide
  have hnb : ∃ δ ∈ nbrDeltas, paddedCell ⟨4100, 4096, 1, 0⟩ (List.replicate 16793600 1)
      (4099 + δ.1) (4095 + δ.2.1) (0 + δ.2.2) = 0 :=
    ⟨(1, 0, 0), by decide, paddedCell_outside _ _ _ _ _ (by decide)⟩
  obtain ⟨htar, hrun⟩ := maskdet_single_iter ⟨4100, 4096, 1, 0⟩ (List.replicate 16793600 1)
    ⟨4099, 4095, 0, 0⟩ 4099 4095 0 16793600 sweep_zero (by decide) (by decide) (by decide)
    hrej hpad hmark hnz hnb
  refine ⟨by decide, by rw [hlen], hrej, hpad, by decide, by decide!, hmark, htar, ?_⟩
  rw [hrun]
  unfold setHighBit
  rw [hlen, if_neg (by decide)]

/-- C4: on the all-solid grid of dimensions (4097,4097,1) with one detector
at (4095,4096,0) and `w = 0`, the single iteration reads the padded cell of
the voxel (4095,4096,0), a non-zero voxel on the border of the grid that
the detector reaches with the offset (0,0,0), but line 482 forms the index
`4096*4097+4095 = 16785407` in `float` arithmetic, where it rounds to
`16785408`, the index of the voxel (4096,4096,0): the call returns with bit
7 set on (4096,4096,0), which no offset in `[-w, w]^3` reaches, and clear
on (4095,4096,0). -/
theorem maskdet_large_grid_marks_other_voxel :
    (List.replicate 16785409 1).length = 4097 * 4097 * 1 ∧
    cellIndex ⟨4097, 4097, 1, 0⟩ 4095 4096 0 = 16785407 ∧
    cellIndex ⟨4097, 4097, 1, 0⟩ 4096 4096 0 = 16785408 ∧
    padIndex ⟨4097, 4097, 1, 0⟩ ⟨⟨4095, 4096, 0, 0⟩, 0, 0, 0⟩
      = (0 + 1) * ((4097 + 2) * (4097 + 2)) + (4096 + 1) * (4097 + 2) + (4095 + 1) ∧
    f32 16785407 = 16785408 ∧
    markIndex ⟨4097, 4097, 1, 0⟩ ⟨⟨4095, 4096, 0, 0⟩, 0, 0, 0⟩ = 16785408 ∧
    reachedBy ⟨4097, 4097, 1, 0⟩ (List.replicate 16785409 1) [⟨4095, 4096, 0, 0⟩] 4095 4096 0 ∧
    ¬ reachedBy ⟨4097, 4097, 1, 0⟩ (List.replicate 16785409 1) [⟨4095, 4096, 0, 0⟩] 4096 4096 0 ∧
    ∃ vol', mcx_maskdet ⟨4097, 4097, 1, 0⟩ (List.replicate 16785409 1) [⟨4095, 4096, 0, 0⟩]
        = some vol' ∧
      vol' = (List.replicate 16785409 1).set 16785408 129 ∧
      vol'.getD 16785407 0 = 1 ∧ vol'.getD 16785408 0 = 129 ∧
      ¬ bit7 (vol'.getD 16785407 0) ∧ bit7 (vol'.getD 16785408 0) := by
  have hrej : ¬ rejected ⟨4097, 4097, 1, 0⟩ ⟨⟨4095, 4096, 0, 0⟩, 0, 0, 0⟩ := by decide!
  have hpad : padIndex ⟨4097, 4097, 1, 0⟩ ⟨⟨4095, 4096, 0, 0⟩, 0, 0, 0⟩
      = (0 + 1) * ((4097 + 2) * (4097 + 2)) + (4096 + 1) * (4097 + 2) + (4095 + 1) := by decide!
  have hmark : markIndex ⟨4097, 4097, 1, 0⟩ ⟨⟨4095, 4096, 0, 0⟩, 0, 0, 0⟩ = 16785408 := by decide!
  have hlen : (List.replicate 16785409 1).length = 16785409 := List.length_replicate _ _
  have hg : (List.replicate 16785409 1).getD 16785407 0 = 1 := getD_replicate_one _ _ (by decide)
  have hg' : (List.replicate 16785409 1).getD 16785408 0 = 1 := getD_replicate_one _ _ (by decide)
  have hnz : paddedCell ⟨4097, 4097, 1, 0⟩ (List.replicate 16785409 1) 4095 4096 0 ≠ 0 := by
    unfold paddedCell
    rw [if_pos (by decide)]
    have e : cellIndex ⟨4097, 4097, 1, 0⟩ (4095 : Int).toNat (4096 : Int).toNat (0 : Int).toNat
        = 16785407 := by decide
    rw [e, hg]
    decide
  have hnb : ∃ δ ∈ nbrDeltas, paddedCell ⟨4097, 4097, 1, 0⟩ (List.replicate 16785409 1)
      (4095 + δ.1) (4096 + δ.2.1) (0 + δ.2.2) = 0 :=
    ⟨(0, 1, 0), by decide, paddedCell_outside _ _ _ _ _ (by decide)⟩
  obtain ⟨-, hrun⟩ := maskdet_single_iter ⟨4097, 4097, 1, 0⟩ (List.replicate 16785409 1)
    ⟨4095, 4096, 0, 0⟩ 4095 4096 0 16785408 sweep_zero (by decide) (by decide) (by decide)
    hrej hpad hmark hnz hnb
  have hset : setHighBit (List.replicate 16785409 1) 16785408
      = some ((List.replicate 16785409 1).set 16785408 129) := by
    unfold setHighBit
    rw [hlen, if_pos (by decide)]
    have e : (16785408 : Int).toNat = 16785408 := by decide
    rw [e, hg']
    rfl
  have h1 : ((List.replicate 16785409 1).set 16785408 129).getD 16785407 0 = 1 := by
    rw [getD_set_zero _ _ _ _ (by rw [hlen]; decide), if_neg (by decide), hg]
  have h2 : ((List.replicate 16785409 1).set 16785408 129).getD 16785408 0 = 129 := by
    rw [getD_set_zero _ _ _ _ (by rw [hlen]; decide), if_pos rfl]
  refine ⟨by rw [hlen], by decide, by decide, hpad, by decide!, hmark, ?_, ?_, _,
    hrun.trans hset, rfl, h1, h2, ?_, ?_⟩
  · refine ⟨⟨4095, 4096, 0, 0⟩, List.mem_singleton.mpr rfl, 0, 0, 0, by decide, by decide,
      by decide, by decide, by decide, by decide, by decide, ?_, 0, 1, 0,
      by unfold isNbrDelta; decide, ?_⟩
    · have e : cellIndex ⟨4097, 4097, 1, 0⟩ 4095 4096 0 = 16785407 := by decide
      rw [e, hg]
      decide
    · exact paddedCell_outside _ _ _ _ _ (by decide)
  · rintro ⟨d, hd, ox, oy, oz, ⟨hx1, hx2⟩, -, -, ex, -⟩
    rw [List.mem_singleton] at hd
    subst hd
    simp only at hx1 hx2 ex
    omega
  · rw [h1]; decide
  · rw [h2]; decide

/-! ## Detector masking: the 4x4x4 scenario -/

/-- C12, as stated, fails: in the scenario the voxel (2,2,2) (index 42) is
non-background and at squared distance 3 from the detector, which is more
than unit distance, yet `mcx_maskdet` sets its bit 7; so does the voxel
(2,2,3) (index 58) at squared distance 2. -/
theorem scenario_marks_beyond_unit_distance :
    cellIndex ⟨4, 4, 4, 0⟩ 2 2 2 = 42 ∧ cellIndex ⟨4, 4, 4, 0⟩ 2 2 3 = 58 ∧
    (1 : Int) < (2 - 3) ^ 2 + (2 - 3) ^ 2 + (2 - 3) ^ 2 ∧
    (mcx_maskdet ⟨4, 4, 4, 0⟩ scenarioVol [scenarioDet.toFloat4]).map
      (fun v => (v.getD 42 0, v.getD 58 0)) = some (129, 129) := by
  decide!

set_option synthInstance.maxSize 4096 in
set_option synthInstance.maxHeartbeats 400000 in
/-- C12, amended: in the scenario `mcx_maskdet` returns, and it sets bit 7
on exactly those non-background voxels that have a zero byte among their 26
padded neighbours (a background or out-of-grid neighbour) and whose offset
from the detector has every component in `[-1, 1]`; these are the eight
voxels with x, y, z in {2,3}, at distance up to `sqrt 3`. Every voxel
farther than `sqrt 3` from the detector keeps bit 7 clear. -/
theorem scenario_marks_detector_cube :
    ∃ vol', mcx_maskdet ⟨4, 4, 4, 0⟩ scenarioVol [scenarioDet.toFloat4] = some vol' ∧
      ∀ x < 4, ∀ y < 4, ∀ z < 4,
        (bit7 (vol'.getD (cellIndex ⟨4, 4, 4, 0⟩ x y z) 0) ↔
          (scenarioVol.getD (cellIndex ⟨4, 4, 4, 0⟩ x y z) 0 ≠ 0 ∧
            (∃ δ ∈ nbrDeltas,
              paddedCell ⟨4, 4, 4, 0⟩ scenarioVol (x + δ.1) (y + δ.2.1) (z + δ.2.2) = 0) ∧
            (-1 ≤ (x : Int) - 3 ∧ (x : Int) - 3 ≤ 1) ∧ (-1 ≤ (y : Int) - 3 ∧ (y : Int) - 3 ≤ 1) ∧
            (-1 ≤ (z : Int) - 3 ∧ (z : Int) - 3 ≤ 1))) ∧
        (bit7 (vol'.getD (cellIndex ⟨4, 4, 4, 0⟩ x y z) 0) ↔ (2 ≤ x ∧ 2 ≤ y ∧ 2 ≤ z)) ∧
        (3 < ((x : Int) - 3) ^ 2 + ((y : Int) - 3) ^ 2 + ((z : Int) - 3) ^ 2 →
          ¬ bit7 (vol'.getD (cellIndex ⟨4, 4, 4, 0⟩ x y z) 0)) := by
  refine ⟨(List.range 64).map fun i =>
      if 2 ≤ i % 4 ∧ 2 ≤ i / 4 % 4 ∧ 2 ≤ i / 16 then 129 else
        if i % 4 < 2 ∧ i / 4 % 4 < 2 ∧ i / 16 < 2 then 0 else 1, ?_, ?_⟩
  · decide!
  · decide!

/-! ## Defaults of mcx_initcfg -/

/-- C15: after `mcx_initcfg` the thread number is 0, while the usage text
documents `-t [1024|int]`; `mcx_parsecmd` stores the value of `-t` in
`cfg->nthread`. The fifteen other documented defaults hold: nblocksize 64,
nphoton 0, respin 1, isrowmajor 0, issrcfrom0 0, maxgate 1, isreflect 1,
isref3 0, minenergy 0, sradius 0, isnormalized 1, issavedet 0, issave2pt 1,
printnum 0 and kernelfile `mcx_core.cl`. -/
theorem initcfg_nthread_differs_from_usage (cfg : Config) :
    usageDefault "t" = some "1024" ∧ (mcx_initcfg cfg).nthread = 0 ∧
    (mcx_initcfg cfg).nblocksize = 64 ∧ (mcx_initcfg cfg).nphoton = 0 ∧
    (mcx_initcfg cfg).respin = 1 ∧ (mcx_initcfg cfg).isrowmajor = 0 ∧
    (mcx_initcfg cfg).issrcfrom0 = 0 ∧ (mcx_initcfg cfg).maxgate = 1 ∧
    (mcx_initcfg cfg).isreflect = 1 ∧ (mcx_initcfg cfg).isref3 = 0 ∧
    (mcx_initcfg cfg).minenergy = 0 ∧ (mcx_initcfg cfg).sradius = 0 ∧
    (mcx_initcfg cfg).isnormalized = 1 ∧ (mcx_initcfg cfg).issavedet = 0 ∧
    (mcx_initcfg cfg).issave2pt = 1 ∧ (mcx_initcfg cfg).printnum = 0 ∧
    (mcx_initcfg cfg).kernelfile = "mcx_core.cl" ∧
    usageDefault "k" = some "mcx_core.cl" ∧ usageDefault "T" = some "64" := by
  refine ⟨by decide, rfl, rfl, rfl, rfl, rfl, rfl, rfl, rfl, rfl, rfl, rfl, rfl, rfl, rfl, rfl,
    rfl, by decide, by decide⟩

/-! ## mcx_readarg with type char -/

theorem readarg_char_flag (argv : List String) (id : Nat)
    (h : id + 1 ≥ argv.length ∨ beginsWithDigit (argv.getD (id + 1) "") = false) :
    mcx_readarg argv id "char" = .returned (id, .char 1) := by
  unfold mcx_readarg
  rw [if_pos]
  refine ⟨rfl, ?_⟩
  rcases h with h | h
  · exact Or.inl h
  · exact Or.inr (by rw [h]; simp)

theorem readarg_char_value (argv : List String) (id : Nat)
    (h1 : id + 1 < argv.length) (h2 : beginsWithDigit (argv.getD (id + 1) "") = true) :
    mcx_readarg argv id "char" =
      match atoi (argv.getD (id + 1) "") with
      | none => .undefined
      | some v => .returned (id + 1, .char (toInt8 v)) := by
  unfold mcx_readarg
  rw [if_neg, if_pos h1]
  · simp only []
    rw [if_pos trivial]
  · rintro ⟨-, h | h⟩
    · omega
    · exact h h2

/-- C16, as stated, fails: with the following argument `256` the call
stores the `char` 0, not the argument's integer value 256, and with the
following argument `4294967296` the value does not fit the `int` that
`atoi` returns, so nothing defined is stored. -/
theorem readarg_char_truncates :
    beginsWithDigit "256" = true ∧ atoi "256" = some 256 ∧
    mcx_readarg ["-b", "256"] 0 "char" = .returned (1, .char 0) ∧
    beginsWithDigit "4294967296" = true ∧
    mcx_readarg ["-b", "4294967296"] 0 "char" = .undefined := by
  decide

/-- C16, amended: for every argument vector and index, `mcx_readarg` with
type `char` stores 1 and returns `id` exactly when there is no following
argument or the following argument does not begin with a decimal digit;
when the following argument begins with a digit and `atoi` gives a value
`v` (its leading digits fit an `int`), the call stores `v` converted to
`char`, which is `v` itself when `v < 128`, and returns `id+1`. -/
theorem readarg_char (argv : List String) (id : Nat) :
    (mcx_readarg argv id "char" = .returned (id, .char 1) ↔
      (id + 1 ≥ argv.length ∨ beginsWithDigit (argv.getD (id + 1) "") = false)) ∧
    (id + 1 < argv.length → beginsWithDigit (argv.getD (id + 1) "") = true →
      ∀ v, atoi (argv.getD (id + 1) "") = some v →
        mcx_readarg argv id "char" = .returned (id + 1, .char (toInt8 v)) ∧
        (0 ≤ v → v < 128 → toInt8 v = v)) := by
  constructor
  · constructor
    · intro h
      by_contra hc
      have h1 : id + 1 < argv.length := by omega
      have h2 : beginsWithDigit (argv.getD (id + 1) "") = true := by
        cases hb : beginsWithDigit (argv.getD (id + 1) "") with
        | true => rfl
        | false => exact absurd (Or.inr hb) hc
      rw [readarg_char_value argv id h1 h2] at h
      cases ha : atoi (argv.getD (id + 1) "") with
      | none => rw [ha] at h; cases h
      | some v =>
        rw [ha] at h
        injection h with h'
        injection h' with h'' _
        omega
    · exact readarg_char_flag argv id
  · intro h1 h2 v hv
    refine ⟨?_, ?_⟩
    · rw [readarg_char_value argv id h1 h2, hv]
    · intro h0 h128
      unfold toInt8
      have : v % 256 = v := Int.emod_eq_of_lt h0 (by omega)
      rw [this, if_pos h128]

theorem readarg_char_witness :
    (0 : Nat) + 1 < (["-b", "0"] : List String).length ∧
    beginsWithDigit ((["-b", "0"] : List String).getD (0 + 1) "") = true ∧
    atoi ((["-b", "0"] : List String).getD (0 + 1) "") = some 0 ∧
    mcx_readarg ["-b", "0"] 0 "char" = .returned (0 + 1, .char (toInt8 0)) ∧
    (mcx_readarg ["-b", "-x"] 0 "char" = .returned (0, .char 1) ↔
      (0 + 1 ≥ (["-b", "-x"] : List String).length ∨
        beginsWithDigit ((["-b", "-x"] : List String).getD (0 + 1) "") = false)) :=
  ⟨by decide, by decide, by decide,
    ((readarg_char ["-b", "0"] 0).2 (by decide) (by decide) 0 (by decide)).1,
    (readarg_char ["-b", "-x"] 0).1⟩

/-! ## mcx_loadconfig: the stages -/

theorem Outcome.bind_eq_returned {α β : Type} (o : Outcome α) (f : α → Outcome β) (b : β) :
    o.bind f = .returned b ↔ ∃ a, o = .returned a ∧ f a = .returned b := by
  cases o with
  | returned a =>
    constructor
    · intro h; exact ⟨a, rfl, h⟩
    · rintro ⟨a', ha, hf⟩
      injection ha with ha
      subst ha
      exact hf
  | exited c =>
    constructor
    · intro h; cases h
    · rintro ⟨a', ha, -⟩; cases ha
  | undefined =>
    constructor
    · intro h; cases h
    · rintro ⟨a', ha, -⟩; cases ha
  | running =>
    constructor
    · intro h; cases h
    · rintro ⟨a', ha, -⟩; cases ha

theorem loadHead_returned (cfg c : Config) (s : ConfigStream)
    (h : loadHead cfg s = .returned c) :
    c.his = cfg.his ∧ ∃ i sd p v t, s.nphoton = some i ∧ s.seed = some sd ∧ s.srcpos = some p ∧
      s.srcdir = some v ∧ s.tgate = some t := by
  unfold loadHead at h
  split at h
  · rename_i i sd x y z h1 h2 h3
    simp only [] at h
    split at h
    · rename_i vx vy vz t0 t1 dt h4 h5
      split at h
      · cases h
      · split at h
        · cases h
        · injection h with h
          subst h
          exact ⟨rfl, i, sd, (x, y, z), (vx, vy, vz), (t0, t1, dt), h1, h2, h3, h4, h5⟩
    · cases h
  · cases h

theorem loadHead_exit_codes (cfg : Config) (s : ConfigStream) (c : Int)
    (h : loadHead cfg s = .exited c) : c = 0 ∨ c = -9 := by
  unfold loadHead at h
  split at h
  · simp only [] at h
    split at h
    · split at h
      · injection h with h; exact Or.inr h.symm
      · split at h <;> cases h
    · injection h with h; exact Or.inl h.symm
  · injection h with h; exact Or.inl h.symm

theorem loadTables_returned (cfg c : Config) (s : ConfigStream) (fname : String)
    (h : loadTables cfg s = .returned (c, fname)) :
    c.his = cfg.his ∧ c.maxgate = cfg.maxgate ∧
    ∃ n, s.medianum = some n ∧ c.medianum = u32 (n + 1) ∧ c.medianum ≠ 0 ∧
      (∃ rest, c.prop = some (airMedium :: rest)) ∧
      ∃ dn dr, s.detectors = some (dn, dr) ∧ c.detnum = dn := by
  unfold loadTables at h
  split at h
  · rename_i f0 sx nx ax bx sy ny ay b_y sz nz az bz n hf hx hy hz hn
    simp only [] at h
    split at h
    · cases h
    · rename_i hm
      split at h
      · cases h
      · split at h
        · cases h
        · rename_i dn dr hd
          split at h
          · cases h
          · injection h with h
            injection h with h1 h2
            subst h1
            exact ⟨rfl, rfl, n, hn, rfl, hm, ⟨_, rfl⟩, dn, dr, hd, rfl⟩
  · cases h

theorem dumpMask_exits {α : Type} (env : Env) (cfg : Config) :
    ∃ c, (dumpMask env cfg : Outcome α) = .exited c ∧ (c = -10 ∨ c = 0) := by
  unfold dumpMask
  split_ifs <;> first | exact ⟨_, rfl, Or.inl rfl⟩ | exact ⟨_, rfl, Or.inr rfl⟩

theorem loadGrid_returned (env : Env) (cfg c : Config) (fname : String)
    (h : loadGrid env cfg fname = .returned c) :
    c.his = cfg.his ∧ c.medianum = cfg.medianum ∧ c.detnum = cfg.detnum ∧ c.prop = cfg.prop ∧
    c.maxgate = cfg.maxgate ∧ c.dim = cfg.dim ∧ c.srcpos = cfg.srcpos ∧ c.srcdir = cfg.srcdir ∧
    ∃ v, c.vol = some v := by
  unfold loadGrid at h
  split at h
  · cases h
  · split at h
    · cases h
    · rename_i vol hv
      simp only [] at h
      rw [Outcome.bind_eq_returned] at h
      obtain ⟨v, -, h⟩ := h
      split at h
      · split at h
        · cases h
        · rename_i m hm
          split at h
          · obtain ⟨c', hc, -⟩ := dumpMask_exits (α := Config) env { cfg with vol := some m, isrowmajor := 0 }
            rw [hc] at h
            cases h
          · injection h with h
            subst h
            exact ⟨rfl, rfl, rfl, rfl, rfl, rfl, rfl, rfl, m, rfl⟩
      · injection h with h
        subst h
        exact ⟨rfl, rfl, rfl, rfl, rfl, rfl, rfl, rfl, v, rfl⟩

theorem placeSource_returned (fuel : Nat) (cfg c : Config)
    (h : placeSource fuel cfg = .returned c) :
    c.medianum = cfg.medianum ∧ c.detnum = cfg.detnum ∧ c.prop = cfg.prop ∧
    c.maxgate = cfg.maxgate ∧ c.dim = cfg.dim ∧ c.vol = cfg.vol ∧
    c.his.maxmedia = u32 (4294967295 + cfg.medianum) ∧ c.his.detnum = cfg.detnum ∧
    c.his.colcount = u32 (cfg.medianum + 1) ∧ c.his.magic = cfg.his.magic ∧
    c.his.version = cfg.his.version ∧ ¬ srcOutside cfg := by
  unfold placeSource at h
  split at h
  · cases h
  · rename_i hout
    split at h
    · cases h
    · rw [Outcome.bind_eq_returned] at h
      obtain ⟨pos, -, h⟩ := h
      injection h with h
      subst h
      exact ⟨rfl, rfl, rfl, rfl, rfl, rfl, rfl, rfl, rfl, rfl, rfl, hout⟩

theorem Outcome.isSome_value {α : Type} (o : Outcome α) (h : o.value?.isSome = true) :
    ∃ a, o = .returned a := by
  cases o with
  | returned a => exact ⟨a, rfl⟩
  | exited c => cases h
  | undefined => cases h
  | running => cases h

theorem Outcome.map_value {α β : Type} (o : Outcome α) (f : α → β) (b : β)
    (h : o.value?.map f = some b) : ∃ a, o = .returned a ∧ f a = b := by
  cases o with
  | returned a =>
    injection h with h
    exact ⟨a, rfl, h⟩
  | exited c => cases h
  | undefined => cases h
  | running => cases h

theorem loadPrefix_returned (env : Env) (s : ConfigStream) (cfg c : Config)
    (h : loadPrefix env s cfg = .returned c) :
    c.his = cfg.his ∧
    (∃ n, s.medianum = some n ∧ c.medianum = u32 (n + 1)) ∧
    (∃ rest, c.prop = some (airMedium :: rest)) ∧
    (∃ dn dr, s.detectors = some (dn, dr) ∧ c.detnum = dn) ∧
    ∃ c1, loadHead cfg s = .returned c1 ∧ c.maxgate = c1.maxgate := by
  unfold loadPrefix at h
  rw [Outcome.bind_eq_returned] at h
  obtain ⟨c1, h1, h⟩ := h
  rw [Outcome.bind_eq_returned] at h
  obtain ⟨⟨c2, fname⟩, h2, h3⟩ := h
  obtain ⟨hhis1, -⟩ := loadHead_returned cfg c1 s h1
  obtain ⟨hhis2, hg2, n, hn, hm, -, hp, hd⟩ := loadTables_returned c1 c2 s fname h2
  obtain ⟨hhis3, hm3, hd3, hp3, hg3, -⟩ := loadGrid_returned env c2 c fname h3
  refine ⟨?_, ⟨n, hn, ?_⟩, ?_, ?_, c1, h1, ?_⟩
  · rw [hhis3, hhis2, hhis1]
  · rw [hm3, hm]
  · rw [hp3]; exact hp
  · obtain ⟨dn, dr, hd1, hd2⟩ := hd
    exact ⟨dn, dr, hd1, by rw [hd3, hd2]⟩
  · rw [hg3, hg2]

/-- C11: when `mcx_loadconfig` returns, the header holds
`colcount = medianum + 1`, `maxmedia = medianum - 1` and `detnum = detnum`
in `unsigned int` arithmetic, where `medianum` is the media count `n` of
the stream plus one; with `n + 2 < 2^32` nothing wraps and the equalities
hold over the natural numbers. Medium 0 of the table is the ambient medium
(`mua = mus = g = 0`, `n = 1`), the detector count is the one read, and the
magic tag and version are the ones the configuration had on entry, which
after `mcx_initcfg` are `MCXH` and 1. -/
theorem loadconfig_finalizes_header (fuel : Nat) (env : Env) (s : ConfigStream)
    (cfg c : Config) (h : mcx_loadconfig fuel env s cfg = .returned c) :
    (∃ n, s.medianum = some n ∧ c.medianum = u32 (n + 1) ∧
      (n + 2 < 4294967296 → c.medianum = n + 1 ∧ c.his.colcount = c.medianum + 1 ∧
        c.his.maxmedia = c.medianum - 1)) ∧
    c.his.colcount = u32 (c.medianum + 1) ∧
    c.his.maxmedia = u32 (4294967295 + c.medianum) ∧
    c.his.detnum = c.detnum ∧
    (∃ dn dr, s.detectors = some (dn, dr) ∧ c.detnum = dn) ∧
    (∃ rest, c.prop = some (airMedium :: rest)) ∧
    airMedium.mua = 0 ∧ airMedium.mus = 0 ∧ airMedium.g = 0 ∧ airMedium.n = 1 ∧
    c.his.magic = cfg.his.magic ∧ c.his.version = cfg.his.version ∧
    (∀ c0, (mcx_initcfg c0).his.magic = [77, 67, 88, 72] ∧ (mcx_initcfg c0).his.version = 1) := by
  unfold mcx_loadconfig at h
  rw [Outcome.bind_eq_returned] at h
  obtain ⟨c1, h1, h2⟩ := h
  obtain ⟨hhis, ⟨n, hn, hm⟩, hp, hd, -⟩ := loadPrefix_returned env s cfg c1 h1
  obtain ⟨hm2, hd2, hp2, -, -, -, hmax, hdet, hcol, hmagic, hver, -⟩ :=
    placeSource_returned fuel c1 c h2
  refine ⟨⟨n, hn, by rw [hm2, hm], ?_⟩, by rw [hcol, hm2], by rw [hmax, hm2],
    by rw [hdet, hd2], ?_, by rw [hp2]; exact hp, rfl, rfl, rfl, rfl,
    by rw [hmagic, hhis], by rw [hver, hhis], fun c0 => ⟨rfl, rfl⟩⟩
  · intro hlt
    rw [hcol, hmax, hm2, hm]
    unfold u32
    have e1 : (n + 1) % 4294967296 = n + 1 := Nat.mod_eq_of_lt (by omega)
    rw [e1]
    refine ⟨rfl, Nat.mod_eq_of_lt (by omega), ?_⟩
    omega
  · obtain ⟨dn, dr, hd1, hd3⟩ := hd
    exact ⟨dn, dr, hd1, by rw [hd2, hd3]⟩

theorem loadconfig_finalizes_header_witness :
    ∃ c, mcx_loadconfig 10 (sampleEnv [1, 1, 1, 1]) (sampleStream (0, 0, 0) (0, 0, 1))
        (mcx_initcfg blankConfig) = .returned c ∧
      c.medianum = 2 ∧ c.his.colcount = 3 ∧ c.his.maxmedia = 1 ∧ c.his.detnum = 0 ∧
      c.his.magic = [77, 67, 88, 72] ∧ c.his.version = 1 := by
  obtain ⟨c, hc⟩ := Outcome.isSome_value
    (mcx_loadconfig 10 (sampleEnv [1, 1, 1, 1]) (sampleStream (0, 0, 0) (0, 0, 1))
      (mcx_initcfg blankConfig)) (by decide!)
  have h := loadconfig_finalizes_header 10 (sampleEnv [1, 1, 1, 1])
    (sampleStream (0, 0, 0) (0, 0, 1)) (mcx_initcfg blankConfig) c hc
  obtain ⟨⟨n, hn, hm, hplain⟩, hcol, hmax, hdet, ⟨dn, dr, hd, hdn⟩, -, -, -, -, -, hmagic, hver, -⟩ := h
  have hn1 : n = 1 := by
    have : (sampleStream (0, 0, 0) (0, 0, 1)).medianum = some 1 := rfl
    rw [this] at hn
    injection hn with hn
    exact hn.symm
  have hd0 : dn = 0 := by
    have : (sampleStream (0, 0, 0) (0, 0, 1)).detectors = some (0, 1) := rfl
    rw [this] at hd
    injection hd with hd
    injection hd with hd _
    exact hd.symm
  subst hn1
  subst hd0
  obtain ⟨p1, p2, p3⟩ := hplain (by decide)
  refine ⟨c, hc, p1, ?_, ?_, ?_, hmagic, hver⟩
  · rw [p2, p1]
  · rw [p3, p1]
  · rw [hdet, hdn]

/-! ## mcx_loadconfig: the walk of the source -/

theorem nudge_more_fuel (dim : uint4) (vol : List Nat) (dir : float4) (fuel k : Nat)
    (pos : float4) (idx : Int) (p : float4)
    (h : nudge dim vol dir fuel pos idx = .returned p) :
    nudge dim vol dir (fuel + k) pos idx = .returned p := by
  induction fuel generalizing pos idx with
  | zero =>
    unfold nudge at h
    cases hv : readVoxel vol idx with
    | none => simp only [hv] at h; cases h
    | some v =>
      simp only [hv] at h
      by_cases hz : v ≠ 0
      · rw [if_pos hz] at h
        cases k with
        | zero => unfold nudge; simp only [hv]; rw [if_pos hz]; exact h
        | succ k => rw [Nat.zero_add]; unfold nudge; simp only [hv]; rw [if_pos hz]; exact h
      · rw [if_neg hz] at h; cases h
  | succ n ih =>
    unfold nudge at h
    rw [Nat.add_right_comm]
    unfold nudge
    cases hv : readVoxel vol idx with
    | none => simp only [hv] at h; cases h
    | some v =>
      simp only [hv] at h ⊢
      by_cases hz : v ≠ 0
      · rw [if_pos hz] at h ⊢; exact h
      · rw [if_neg hz] at h ⊢; exact ih _ _ h

theorem loadconfig_more_fuel (fuel k : Nat) (env : Env) (s : ConfigStream) (cfg c : Config)
    (h : mcx_loadconfig fuel env s cfg = .returned c) :
    mcx_loadconfig (fuel + k) env s cfg = .returned c := by
  unfold mcx_loadconfig at h ⊢
  rw [Outcome.bind_eq_returned] at h ⊢
  obtain ⟨c1, h1, h2⟩ := h
  refine ⟨c1, h1, ?_⟩
  unfold placeSource at h2 ⊢
  by_cases ho : srcOutside c1
  · rw [if_pos ho] at h2; cases h2
  · rw [if_neg ho] at h2 ⊢
    split at h2
    · cases h2
    · rename_i hf
      rw [if_neg hf]
      rw [Outcome.bind_eq_returned] at h2 ⊢
      obtain ⟨p, hp, hr⟩ := h2
      refine ⟨p, ?_, hr⟩
      unfold walk at hp ⊢
      split
      · rename_i hv
        rw [hv] at hp
        exact hp
      · rename_i vol hv
        rw [hv] at hp
        exact nudge_more_fuel _ _ _ fuel k _ _ p hp

theorem nudgeState_shift (dim : uint4) (dir : float4) (n : Nat) (pos : float4) (idx : Int) :
    nudgeState dim dir (n + 1) (pos, idx) =
      nudgeState dim dir n (advance pos dir, walkIndex dim (advance pos dir)) := by
  induction n with
  | zero => rfl
  | succ n ih =>
    show (advance (nudgeState dim dir (n + 1) (pos, idx)).1 dir,
      walkIndex dim (advance (nudgeState dim dir (n + 1) (pos, idx)).1 dir)) = _
    rw [ih]
    rfl

theorem nudge_running (dim : uint4) (vol : List Nat) (dir : float4) (fuel : Nat)
    (pos : float4) (idx : Int)
    (h : ∀ n, readVoxel vol (nudgeState dim dir n (pos, idx)).2 = some 0) :
    nudge dim vol dir fuel pos idx = .running := by
  induction fuel generalizing pos idx with
  | zero =>
    have h0 : readVoxel vol idx = some 0 := h 0
    unfold nudge
    simp only [h0]
    rfl
  | succ k ih =>
    have h0 : readVoxel vol idx = some 0 := h 0
    unfold nudge
    simp only [h0]
    rw [if_neg (by decide)]
    apply ih
    intro n
    have hn := h (n + 1)
    rw [nudgeState_shift] at hn
    exact hn

theorem nudgeState_fixed (dim : uint4) (dir : float4) (pos : float4)
    (hfix : advance pos dir = pos) (n : Nat) (idx : Int) :
    nudgeState dim dir (n + 1) (pos, idx) = (pos, walkIndex dim pos) := by
  induction n with
  | zero =>
    show (advance pos dir, walkIndex dim (advance pos dir)) = _
    rw [hfix]
  | succ n ih =>
    show (advance (nudgeState dim dir (n + 1) (pos, idx)).1 dir,
      walkIndex dim (advance (nudgeState dim dir (n + 1) (pos, idx)).1 dir)) = _
    rw [ih]
    show (advance pos dir, walkIndex dim (advance pos dir)) = _
    rw [hfix]

/-- C13: on the grid of dimensions (2,2,1) holding `[0, 0, 1, 0]`, with the
source at (0,0,0) counted from 0 and the direction (1,0,0), `mcx_loadconfig`
returns (with every step budget of 2 or more) and leaves the source at
(2,0,0): `srcpos.x = dim.x`, outside the grid. The position passes the test
of lines 355 and 356 as (0,0,0); the loop of lines 366 to 373 moves it
twice and stops because `idx1d = 2`, computed from (2,0,0), is the index of
the non-zero voxel (0,1,0). The test that yields code -4 is not made on the
moved position. -/
theorem loadconfig_source_leaves_grid :
    ∃ c, (∀ fuel, mcx_loadconfig (2 + fuel) (sampleEnv [0, 0, 1, 0])
        (sampleStream (0, 0, 0) (1, 0, 0)) (mcx_initcfg blankConfig) = .returned c) ∧
      c.srcpos.x = 2 ∧ c.srcpos.y = 0 ∧ c.srcpos.z = 0 ∧
      c.dim.x = 2 ∧ c.dim.y = 2 ∧ c.dim.z = 1 ∧
      c.vol = some [0, 0, 1, 0] ∧
      srcOutside c ∧ ¬ (c.srcpos.x < (c.dim.x : ℚ)) ∧
      walkIndex c.dim c.srcpos = 2 ∧ cellIndex c.dim 0 1 0 = 2 := by
  obtain ⟨c, hc, hf⟩ := Outcome.map_value
    (mcx_loadconfig 2 (sampleEnv [0, 0, 1, 0]) (sampleStream (0, 0, 0) (1, 0, 0))
      (mcx_initcfg blankConfig))
    (fun c => (c.srcpos, c.dim, c.vol))
    ((⟨2, 0, 0, 0⟩ : float4), (⟨2, 2, 1, 0⟩ : uint4), some [0, 0, 1, 0]) (by decide!)
  injection hf with hpos hf
  injection hf with hdim hvol
  refine ⟨c, fun fuel => loadconfig_more_fuel 2 fuel _ _ _ c hc, ?_, ?_, ?_, ?_, ?_, ?_, hvol,
    ?_, ?_, ?_, ?_⟩
  · rw [hpos]
  · rw [hpos]
  · rw [hpos]
  · rw [hdim]
  · rw [hdim]
  · rw [hdim]
  · unfold srcOutside; rw [hpos, hdim]; decide!
  · rw [hpos, hdim]; decide!
  · rw [hpos, hdim]; decide!
  · rw [hdim]; decide

/-- C17: on the grid of dimensions (2,2,1) holding `[0, 0, 1, 0]`, with the
source at (0,0,0) counted from 0 and the zero direction, everything before
the walk of the source succeeds, the source is inside the grid, after every
number of passes through the loop of lines 366 to 373 the voxel at `idx1d`
is 0, and `mcx_loadconfig` is still running, without error, when any step
budget is used up. -/
theorem loadconfig_zero_direction_never_returns :
    ∃ c, loadPrefix (sampleEnv [0, 0, 1, 0]) (sampleStream (0, 0, 0) (0, 0, 0))
        (mcx_initcfg blankConfig) = .returned c ∧
      ¬ srcOutside c ∧ c.srcdir.x = 0 ∧ c.srcdir.y = 0 ∧ c.srcdir.z = 0 ∧
      (∀ n, readVoxel (c.vol.getD [])
        (nudgeState c.dim c.srcdir n (c.srcpos, srcIndex c.dim c.srcpos)).2 = some 0) ∧
      (∀ fuel, walk fuel c = .running) ∧
      ∀ fuel, mcx_loadconfig fuel (sampleEnv [0, 0, 1, 0]) (sampleStream (0, 0, 0) (0, 0, 0))
        (mcx_initcfg blankConfig) = .running := by
  obtain ⟨c, hc, hf⟩ := Outcome.map_value
    (loadPrefix (sampleEnv [0, 0, 1, 0]) (sampleStream (0, 0, 0) (0, 0, 0))
      (mcx_initcfg blankConfig))
    (fun c => (c.srcpos, c.srcdir, c.dim, c.vol))
    ((⟨0, 0, 0, 0⟩ : float4), (⟨0, 0, 0, 0⟩ : float4), (⟨2, 2, 1, 0⟩ : uint4),
      some [0, 0, 1, 0]) (by decide!)
  injection hf with hpos hf
  injection hf with hdir hf
  injection hf with hdim hvol
  have hout : ¬ srcOutside c := by unfold srcOutside; rw [hpos, hdim]; decide!
  have hx : c.srcdir.x = 0 := by rw [hdir]
  have hy : c.srcdir.y = 0 := by rw [hdir]
  have hz : c.srcdir.z = 0 := by rw [hdir]
  have hfloor : ¬ (⌊c.srcpos.x⌋ ≥ 2147483648 ∨ ⌊c.srcpos.y⌋ ≥ 2147483648 ∨
      ⌊c.srcpos.z⌋ ≥ 2147483648) := by rw [hpos]; decide!
  have hall : ∀ n, readVoxel (c.vol.getD [])
      (nudgeState c.dim c.srcdir n (c.srcpos, srcIndex c.dim c.srcpos)).2 = some 0 := by
    intro n
    cases n with
    | zero =>
      show readVoxel (c.vol.getD []) (srcIndex c.dim c.srcpos) = some 0
      rw [hvol, hdim, hpos]; decide!
    | succ n =>
      rw [nudgeState_fixed c.dim c.srcdir c.srcpos (by rw [hpos, hdir]; decide!)]
      show readVoxel (c.vol.getD []) (walkIndex c.dim c.srcpos) = some 0
      rw [hvol, hdim, hpos]; decide!
  have hrun : ∀ fuel, walk fuel c = .running := by
    intro fuel
    have hr := nudge_running c.dim (c.vol.getD []) c.srcdir fuel c.srcpos
      (srcIndex c.dim c.srcpos) hall
    unfold walk
    rw [hvol] at hr ⊢
    exact hr
  refine ⟨c, hc, hout, hx, hy, hz, hall, hrun, ?_⟩
  intro fuel
  unfold mcx_loadconfig
  rw [hc]
  show placeSource fuel c = .running
  unfold placeSource
  rw [if_neg hout, if_neg hfloor, hrun fuel]
  rfl

/-! ## mcx_loadconfig: the time gates -/

end Mcxcl
